import Mathlib

/-!
# Tagged small integers of `kklib/include/kklib/integer.h`

A shallow embedding of the inline ("small") integer fast paths of the Koka
runtime header `integer.h`, together with theorems about them.

* A machine word of type `kk_intf_t` is an `Int` in the two's complement range
  of the build's word width; every C operation that can leave that range is
  followed by an explicit reduction modulo `2 ^ KK_INTF_BITS`.
* `kk_integer_t` is the C struct with its single field `ibox : uintptr_t`.
* The bignum engine (`kk_integer_add_generic`, ...) is not part of the header:
  it is a record of functions over an arbitrary context type `W`, the state the
  C code threads through as `kk_context_t* ctx`.
* C's `/` and `%` are partial (`Option`): they are undefined for a zero divisor
  and for a quotient that does not fit the word.
* `kk_assert_internal` is compiled out in release builds and is not embedded in
  the functions; the asserted conditions of the Euclidean fast paths are
  separate definitions.
* Reference counts live in the world too: `kk_block_dup` and `kk_block_drop`
  are parameters, with an explicit reference-count state as one instance.
-/

namespace KK

/-! ## Build configuration -/

/-- The two build-time parameters the header depends on: the width of
`kk_intf_t` in bits and the choice between `__builtin_xxx_overflow` and the
portable sign-extension test. -/
structure Build where
  KK_INTF_BITS : Nat
  KK_USE_BUILTIN_OVF : Bool
deriving DecidableEq, Repr

/-- Size of `kk_intf_t` in bytes. -/
def KK_INTF_SIZE (p : Build) : Nat := p.KK_INTF_BITS / 8

/-- The word widths the header accepts ("platform must be 16, 32, 64, or 128 bits"). -/
def Build.supported (p : Build) : Prop :=
  p.KK_INTF_BITS = 16 ∨ p.KK_INTF_BITS = 32 ∨ p.KK_INTF_BITS = 64 ∨ p.KK_INTF_BITS = 128

instance (p : Build) : Decidable p.supported := by
  unfold Build.supported; infer_instance

/-- Bitwise `&` of C on signed words (two's complement). -/
instance : AndOp Int := ⟨Int.land⟩
/-- Bitwise `|` of C on signed words (two's complement). -/
instance : OrOp Int := ⟨Int.lor⟩
/-- Bitwise `^` of C on signed words (two's complement). -/
instance : Xor Int := ⟨Int.xor⟩

/-! ## Machine arithmetic on `kk_intf_t` -/

/-- Reinterpretation of an integer as a signed two's complement number of
`bits` bits: what a C cast to a signed type of that width does. -/
def to_signed (bits : Nat) (v : Int) : Int :=
  (v + 2 ^ (bits - 1)) % 2 ^ bits - 2 ^ (bits - 1)

/-- Reinterpretation as an unsigned number of `bits` bits: a C cast to an
unsigned type of that width. -/
def to_unsigned (bits : Nat) (v : Int) : Nat :=
  (v % 2 ^ bits).toNat

/-- Modelled from the spec: the macro `KK_INTF_MAX` (declared in the platform
header), the largest value of the signed word type `kk_intf_t`. -/
def KK_INTF_MAX (p : Build) : Int := 2 ^ (p.KK_INTF_BITS - 1) - 1

/-- Modelled from the spec: the macro `KK_INTF_MIN`, the least value of `kk_intf_t`. -/
def KK_INTF_MIN (p : Build) : Int := -(2 ^ (p.KK_INTF_BITS - 1))

/-- The cast `(kk_intf_t)v`. -/
def to_intf (p : Build) (v : Int) : Int := to_signed p.KK_INTF_BITS v

/-- Addition `a + b` on `kk_intf_t`, wrapping modulo the word size. -/
def intf_add (p : Build) (a b : Int) : Int := to_intf p (a + b)

/-- Subtraction `a - b` on `kk_intf_t`, wrapping modulo the word size. -/
def intf_sub (p : Build) (a b : Int) : Int := to_intf p (a - b)

/-- Multiplication `a * b` on `kk_intf_t`, wrapping modulo the word size. -/
def intf_mul (p : Build) (a b : Int) : Int := to_intf p (a * b)

/-- Unary minus `-a` on `kk_intf_t`, wrapping modulo the word size. -/
def intf_neg (p : Build) (a : Int) : Int := to_intf p (-a)

/-- C division `i / j` on `kk_intf_t`: truncation toward zero, undefined for
a zero divisor and for a quotient that is not representable. -/
def c_div (p : Build) (i j : Int) : Option Int :=
  if j = 0 ∨ (i = KK_INTF_MIN p ∧ j = -1) then none else some (Int.tdiv i j)

/-- C remainder `i % j` on `kk_intf_t`: the sign follows the dividend,
undefined exactly where `i / j` is. -/
def c_mod (p : Build) (i j : Int) : Option Int :=
  if j = 0 ∨ (i = KK_INTF_MIN p ∧ j = -1) then none else some (Int.tmod i j)

/-- The intrinsic `__builtin_add_overflow(a, b, &z)`: the overflow flag and
the wrapped sum stored in `z`. -/
def builtin_add_overflow (p : Build) (a b : Int) : Bool × Int :=
  (decide (to_intf p (a + b) ≠ a + b), to_intf p (a + b))

/-- The intrinsic `__builtin_sub_overflow(a, b, &z)`. -/
def builtin_sub_overflow (p : Build) (a b : Int) : Bool × Int :=
  (decide (to_intf p (a - b) ≠ a - b), to_intf p (a - b))

/-- The intrinsic `__builtin_mul_overflow(a, b, &z)`. -/
def builtin_mul_overflow (p : Build) (a b : Int) : Bool × Int :=
  (decide (to_intf p (a * b) ≠ a * b), to_intf p (a * b))

/-- Modelled from the spec: `kk_sar` (platform header), the arithmetic right
shift of a signed word. -/
def kk_sar (_p : Build) (i : Int) (shift : Nat) : Int := Int.shiftRight i shift

/-- Modelled from the spec: `kk_sarf` (platform header), the arithmetic right
shift on `kk_intf_t`. -/
def kk_sarf (_p : Build) (i : Int) (shift : Nat) : Int := Int.shiftRight i shift

/-- Modelled from the spec: `kk_shlp` (platform header), the left shift of a
signed word done on its unsigned representation, so that it wraps. -/
def kk_shlp (p : Build) (i : Int) (shift : Nat) : Int := to_intf p (i * 2 ^ shift)

/-- Modelled from the spec: `kk_shlf` (platform header), the wrapping left
shift on `kk_intf_t`. -/
def kk_shlf (p : Build) (i : Int) (shift : Nat) : Int := to_intf p (i * 2 ^ shift)

/-! ## Small integer range -/

/-- The `#if` chain defining `KK_SMALLINT_BITS`. -/
def KK_SMALLINT_BITS (p : Build) : Nat :=
  if p.KK_USE_BUILTIN_OVF then p.KK_INTF_BITS
  else if KK_INTF_SIZE p ≥ 16 then 64
  else if KK_INTF_SIZE p = 8 then 32
  else if KK_INTF_SIZE p = 4 then 16
  else if KK_INTF_SIZE p = 2 then 8
  else 0

/-- The cast `(kk_smallint_t)v`: truncation to `KK_SMALLINT_BITS` bits with
sign extension. -/
def to_smallint (p : Build) (v : Int) : Int := to_signed (KK_SMALLINT_BITS p) v

/-- `KK_SMALLINT_MAX`:
`(kk_intf_t)(((kk_uintf_t)KK_INTF_MAX >> (KK_INTF_BITS - KK_SMALLINT_BITS)) >> 2)`. -/
def KK_SMALLINT_MAX (p : Build) : Int :=
  to_intf p (((to_unsigned p.KK_INTF_BITS (KK_INTF_MAX p)
    >>> (p.KK_INTF_BITS - KK_SMALLINT_BITS p)) >>> 2 : Nat) : Int)

/-- `KK_SMALLINT_MIN`: `(-KK_SMALLINT_MAX - 1)`. -/
def KK_SMALLINT_MIN (p : Build) : Int := -KK_SMALLINT_MAX p - 1

/-! ## The tagged word -/

/-- The C struct `kk_integer_t`: one field `ibox` of type `uintptr_t`. -/
structure kk_integer_t where
  ibox : Nat
deriving DecidableEq, Repr

/-- `_kk_integer_value`: the word read as a `kk_intf_t`. -/
def _kk_integer_value (p : Build) (i : kk_integer_t) : Int := to_intf p (i.ibox : Int)

/-- `kk_is_smallint`: bit 0 is set. -/
def kk_is_smallint (p : Build) (i : kk_integer_t) : Bool :=
  (_kk_integer_value p i &&& 1) != 0

/-- `kk_is_bigint`: bit 0 is clear. -/
def kk_is_bigint (p : Build) (i : kk_integer_t) : Bool :=
  (_kk_integer_value p i &&& 1) == 0

/-- `_kk_new_integer`: the word stored as `uintptr_t`. -/
def _kk_new_integer (p : Build) (i : Int) : kk_integer_t :=
  { ibox := to_unsigned p.KK_INTF_BITS i }

/-- `kk_smallint_from_integer`: decode a known small integer. -/
def kk_smallint_from_integer (p : Build) (i : kk_integer_t) : Int :=
  kk_sarf p (_kk_integer_value p i) 2

/-- `kk_integer_from_small`: encode a known small integer. -/
def kk_integer_from_small (p : Build) (i : Int) : kk_integer_t :=
  _kk_new_integer p (kk_shlf p i 2 ||| 1)

/-- `kk_are_smallints`: bit 0 is set in both words. -/
def kk_are_smallints (p : Build) (i j : kk_integer_t) : Bool :=
  ((_kk_integer_value p i &&& _kk_integer_value p j) &&& 1) != 0

/-- The constant `kk_integer_zero`. -/
def kk_integer_zero (p : Build) : kk_integer_t := kk_integer_from_small p 0

/-- The constant `kk_integer_one`. -/
def kk_integer_one (p : Build) : kk_integer_t := kk_integer_from_small p 1

/-- The constant `kk_integer_min_one`. -/
def kk_integer_min_one (p : Build) : kk_integer_t := kk_integer_from_small p (-1)

/-! ## The bignum collaborator -/

/-- The generic entry points the header only declares (`kk_decl_export`).
Each takes the context and returns the context it leaves behind; the combined
division entries also return the word they store through `mod`. -/
structure Bigint (W : Type) where
  kk_integer_add_generic : kk_integer_t → kk_integer_t → W → kk_integer_t × W
  kk_integer_sub_generic : kk_integer_t → kk_integer_t → W → kk_integer_t × W
  kk_integer_mul_generic : kk_integer_t → kk_integer_t → W → kk_integer_t × W
  kk_integer_cdiv_generic : kk_integer_t → kk_integer_t → W → kk_integer_t × W
  kk_integer_cmod_generic : kk_integer_t → kk_integer_t → W → kk_integer_t × W
  kk_integer_cdiv_cmod_generic :
    kk_integer_t → kk_integer_t → W → (kk_integer_t × kk_integer_t) × W
  kk_integer_div_generic : kk_integer_t → kk_integer_t → W → kk_integer_t × W
  kk_integer_mod_generic : kk_integer_t → kk_integer_t → W → kk_integer_t × W
  kk_integer_div_mod_generic :
    kk_integer_t → kk_integer_t → W → (kk_integer_t × kk_integer_t) × W

/-! ## Addition, subtraction, multiplication -/

/-- `kk_integer_add`, both `#if KK_USE_BUILTIN_OVF` branches. -/
def kk_integer_add {W : Type} (p : Build) (E : Bigint W) (x y : kk_integer_t) (ctx : W) :
    kk_integer_t × W :=
  if p.KK_USE_BUILTIN_OVF then
    let r := builtin_add_overflow p (_kk_integer_value p x) (_kk_integer_value p y)
    let z := r.2
    if r.1 = false ∧ (z &&& 2) ≠ 0 then (_kk_new_integer p (z ^^^ 3), ctx)
    else E.kk_integer_add_generic x y ctx
  else
    let z := intf_add p (_kk_integer_value p x) (_kk_integer_value p y)
    if z = to_smallint p (z ||| 2) then (_kk_new_integer p (z ^^^ 3), ctx)
    else E.kk_integer_add_generic x y ctx

/-- `kk_integer_sub`, both `#if KK_USE_BUILTIN_OVF` branches. -/
def kk_integer_sub {W : Type} (p : Build) (E : Bigint W) (x y : kk_integer_t) (ctx : W) :
    kk_integer_t × W :=
  if p.KK_USE_BUILTIN_OVF then
    let r := builtin_sub_overflow p (_kk_integer_value p x ^^^ 3) (_kk_integer_value p y)
    let z := r.2
    if r.1 = false ∧ (z &&& 2) = 0 then (_kk_new_integer p z, ctx)
    else E.kk_integer_sub_generic x y ctx
  else
    let z := intf_sub p (_kk_integer_value p x ^^^ 3) (_kk_integer_value p y)
    if z = to_smallint p (z &&& ~~~(2 : Int)) then (_kk_new_integer p z, ctx)
    else E.kk_integer_sub_generic x y ctx

/-- `kk_integer_mul_small`, both `#if KK_USE_BUILTIN_OVF` branches. -/
def kk_integer_mul_small {W : Type} (p : Build) (E : Bigint W) (x y : kk_integer_t)
    (ctx : W) : kk_integer_t × W :=
  let i := kk_sar p (_kk_integer_value p x) 1
  let j := kk_sar p (_kk_integer_value p y) 1
  if p.KK_USE_BUILTIN_OVF then
    let r := builtin_mul_overflow p i j
    let z := r.2
    if r.1 = false then (_kk_new_integer p (z ||| 1), ctx)
    else E.kk_integer_mul_generic x y ctx
  else
    let z := intf_mul p i j
    if z = to_smallint p z then (_kk_new_integer p (z ||| 1), ctx)
    else E.kk_integer_mul_generic x y ctx

/-- `kk_integer_mul`. -/
def kk_integer_mul {W : Type} (p : Build) (E : Bigint W) (x y : kk_integer_t) (ctx : W) :
    kk_integer_t × W :=
  if kk_are_smallints p x y then kk_integer_mul_small p E x y ctx
  else E.kk_integer_mul_generic x y ctx

/-! ## Division and modulus -/

/-- `kk_integer_cdiv_small`: truncated division of two small integers. -/
def kk_integer_cdiv_small (p : Build) (x y : kk_integer_t) : Option kk_integer_t := do
  let i := kk_sar p (_kk_integer_value p x) 1
  let j := kk_sar p (_kk_integer_value p y) 1
  let q ← c_div p i j
  pure (_kk_new_integer p (kk_shlp p q 2 ||| 1))

/-- `kk_integer_div_small`: Euclidean division of two small integers. -/
def kk_integer_div_small (p : Build) (x y : kk_integer_t) : Option kk_integer_t := do
  let i := kk_sar p (_kk_integer_value p x) 2
  let j := kk_sar p (_kk_integer_value p y) 2
  if j = 0 then pure (kk_integer_zero p) else
  let d ← c_div p i j
  let m ← c_mod p i j
  let d := if i < 0 ∧ m < 0 then intf_sub p d (if j < 0 then -1 else 1) else d
  pure (_kk_new_integer p (kk_shlp p d 2 ||| 1))

/-- `kk_integer_cmod_small`: truncated remainder of two small integers. -/
def kk_integer_cmod_small (p : Build) (x y : kk_integer_t) : Option kk_integer_t := do
  let i := kk_sar p (_kk_integer_value p x) 1
  let j := kk_sar p (_kk_integer_value p y) 1
  let r ← c_mod p i j
  pure (_kk_new_integer p (kk_shlp p r 1 ||| 1))

/-- `kk_integer_mod_small`: Euclidean remainder of two small integers. -/
def kk_integer_mod_small (p : Build) (x y : kk_integer_t) : Option kk_integer_t := do
  let i := kk_sar p (_kk_integer_value p x) 2
  let j := kk_sar p (_kk_integer_value p y) 2
  let m ← if j = 0 then pure i else c_mod p i j
  let m := if i < 0 ∧ m < 0 then intf_add p m (if j < 0 then intf_neg p j else j) else m
  pure (_kk_new_integer p (kk_shlp p m 2 ||| 1))

/-- `kk_integer_cdiv_cmod_small`: the returned quotient word and the word
stored through `mod`, in that order. -/
def kk_integer_cdiv_cmod_small (p : Build) (x y : kk_integer_t) :
    Option (kk_integer_t × kk_integer_t) := do
  let i := kk_sar p (_kk_integer_value p x) 1
  let j := kk_sar p (_kk_integer_value p y) 1
  let r ← c_mod p i j
  let mod := _kk_new_integer p (kk_shlp p r 2 ||| 1)
  let q ← c_div p i j
  pure (_kk_new_integer p (kk_shlp p q 2 ||| 1), mod)

/-- `kk_integer_div_mod_small`: the returned quotient word and the word
stored through `mod`, in that order. -/
def kk_integer_div_mod_small (p : Build) (x y : kk_integer_t) :
    Option (kk_integer_t × kk_integer_t) := do
  let i := kk_sar p (_kk_integer_value p x) 2
  let j := kk_sar p (_kk_integer_value p y) 2
  if j = 0 then pure (kk_integer_zero p, x) else
  let d ← c_div p i j
  let m ← c_mod p i j
  let dm : Int × Int :=
    if i < 0 ∧ m < 0 then
      if j < 0 then (intf_add p d 1, intf_sub p m j)
      else (intf_sub p d 1, intf_add p m j)
    else (d, m)
  pure (_kk_new_integer p (kk_shlp p dm.1 2 ||| 1), _kk_new_integer p (kk_shlp p dm.2 2 ||| 1))

/-- `kk_integer_cdiv`. -/
def kk_integer_cdiv {W : Type} (p : Build) (E : Bigint W) (x y : kk_integer_t) (ctx : W) :
    Option (kk_integer_t × W) :=
  if kk_are_smallints p x y then (kk_integer_cdiv_small p x y).map (fun r => (r, ctx))
  else some (E.kk_integer_cdiv_generic x y ctx)

/-- `kk_integer_cmod`. -/
def kk_integer_cmod {W : Type} (p : Build) (E : Bigint W) (x y : kk_integer_t) (ctx : W) :
    Option (kk_integer_t × W) :=
  if kk_are_smallints p x y then (kk_integer_cmod_small p x y).map (fun r => (r, ctx))
  else some (E.kk_integer_cmod_generic x y ctx)

/-- `kk_integer_cdiv_cmod`: quotient word, word stored through `mod`, context. -/
def kk_integer_cdiv_cmod {W : Type} (p : Build) (E : Bigint W) (x y : kk_integer_t)
    (ctx : W) : Option ((kk_integer_t × kk_integer_t) × W) :=
  if kk_are_smallints p x y then (kk_integer_cdiv_cmod_small p x y).map (fun r => (r, ctx))
  else some (E.kk_integer_cdiv_cmod_generic x y ctx)

/-- `kk_integer_div`. -/
def kk_integer_div {W : Type} (p : Build) (E : Bigint W) (x y : kk_integer_t) (ctx : W) :
    Option (kk_integer_t × W) :=
  if kk_are_smallints p x y then (kk_integer_div_small p x y).map (fun r => (r, ctx))
  else some (E.kk_integer_div_generic x y ctx)

/-- `kk_integer_mod`. -/
def kk_integer_mod {W : Type} (p : Build) (E : Bigint W) (x y : kk_integer_t) (ctx : W) :
    Option (kk_integer_t × W) :=
  if kk_are_smallints p x y then (kk_integer_mod_small p x y).map (fun r => (r, ctx))
  else some (E.kk_integer_mod_generic x y ctx)

/-- `kk_integer_div_mod`: quotient word, word stored through `mod`, context. -/
def kk_integer_div_mod {W : Type} (p : Build) (E : Bigint W) (x y : kk_integer_t)
    (ctx : W) : Option ((kk_integer_t × kk_integer_t) × W) :=
  if kk_are_smallints p x y then (kk_integer_div_mod_small p x y).map (fun r => (r, ctx))
  else some (E.kk_integer_div_mod_generic x y ctx)

/-! ## Test harness: a collaborator that records its calls -/

/-- One invocation of a generic entry point, with the operand words it received. -/
inductive Call where
  | add_generic (x y : kk_integer_t)
  | sub_generic (x y : kk_integer_t)
  | mul_generic (x y : kk_integer_t)
  | cdiv_generic (x y : kk_integer_t)
  | cmod_generic (x y : kk_integer_t)
  | cdiv_cmod_generic (x y : kk_integer_t)
  | div_generic (x y : kk_integer_t)
  | mod_generic (x y : kk_integer_t)
  | div_mod_generic (x y : kk_integer_t)
deriving DecidableEq, Repr

/-- A collaborator whose context is the list of calls made so far (most recent
first); the word it returns is a null pointer. It computes nothing: it is
only used to observe whether and how the fast paths forward. -/
def recorder : Bigint (List Call) where
  kk_integer_add_generic x y log := (⟨0⟩, Call.add_generic x y :: log)
  kk_integer_sub_generic x y log := (⟨0⟩, Call.sub_generic x y :: log)
  kk_integer_mul_generic x y log := (⟨0⟩, Call.mul_generic x y :: log)
  kk_integer_cdiv_generic x y log := (⟨0⟩, Call.cdiv_generic x y :: log)
  kk_integer_cmod_generic x y log := (⟨0⟩, Call.cmod_generic x y :: log)
  kk_integer_cdiv_cmod_generic x y log := ((⟨0⟩, ⟨0⟩), Call.cdiv_cmod_generic x y :: log)
  kk_integer_div_generic x y log := (⟨0⟩, Call.div_generic x y :: log)
  kk_integer_mod_generic x y log := (⟨0⟩, Call.mod_generic x y :: log)
  kk_integer_div_mod_generic x y log := ((⟨0⟩, ⟨0⟩), Call.div_mod_generic x y :: log)

/-! ## Test harness: a collaborator that computes exactly -/

/-- The integer a word stands for when the bignums are the entries of `store`:
a small integer stands for its decoded value, a pointer word `4 * k` for the
`k`-th entry. -/
def denote (p : Build) (store : List Int) (x : kk_integer_t) : Int :=
  if kk_is_smallint p x then kk_smallint_from_integer p x else store.getD (x.ibox / 4) 0

/-- Allocation of a new bignum holding `v`: it is appended to the store and
the word returned is the (aligned) pointer to it. -/
def alloc (v : Int) (store : List Int) : kk_integer_t × List Int :=
  (⟨4 * store.length⟩, store ++ [v])

/-- A reference collaborator over a store of exact integers: every entry
point allocates the exact mathematical result (division by zero gives zero).
It stands in for the bignum engine when a theorem is run on a concrete input. -/
def exact (p : Build) : Bigint (List Int) where
  kk_integer_add_generic x y s := alloc (denote p s x + denote p s y) s
  kk_integer_sub_generic x y s := alloc (denote p s x - denote p s y) s
  kk_integer_mul_generic x y s := alloc (denote p s x * denote p s y) s
  kk_integer_cdiv_generic x y s := alloc (Int.tdiv (denote p s x) (denote p s y)) s
  kk_integer_cmod_generic x y s := alloc (Int.tmod (denote p s x) (denote p s y)) s
  kk_integer_cdiv_cmod_generic x y s :=
    let q := alloc (Int.tdiv (denote p s x) (denote p s y)) s
    let r := alloc (Int.tmod (denote p s x) (denote p s y)) q.2
    ((q.1, r.1), r.2)
  kk_integer_div_generic x y s := alloc (denote p s x / denote p s y) s
  kk_integer_mod_generic x y s := alloc (denote p s x % denote p s y) s
  kk_integer_div_mod_generic x y s :=
    let q := alloc (denote p s x / denote p s y) s
    let r := alloc (denote p s x % denote p s y) q.2
    ((q.1, r.1), r.2)

/-! ## Well-formed words -/

/-- A word of the machine: `ibox` fits in `KK_INTF_BITS` bits. -/
def is_word (p : Build) (x : kk_integer_t) : Prop := x.ibox < 2 ^ p.KK_INTF_BITS

instance (p : Build) (x : kk_integer_t) : Decidable (is_word p x) := by
  unfold is_word; infer_instance

/-- The integers that `kk_integer_from_small` accepts. -/
def in_small_range (p : Build) (n : Int) : Prop :=
  KK_SMALLINT_MIN p ≤ n ∧ n ≤ KK_SMALLINT_MAX p

instance (p : Build) (n : Int) : Decidable (in_small_range p n) := by
  unfold in_small_range; infer_instance

/-- The low two bits of a word are `01`: the tag of a small integer. -/
def is_inline_word (p : Build) (x : kk_integer_t) : Prop := _kk_integer_value p x &&& 3 = 1

instance (p : Build) (x : kk_integer_t) : Decidable (is_inline_word p x) := by
  unfold is_inline_word; infer_instance

/-- The low two bits of a word are `00`: an aligned pointer to a bignum. -/
def is_pointer_word (p : Build) (x : kk_integer_t) : Prop := _kk_integer_value p x &&& 3 = 0

instance (p : Build) (x : kk_integer_t) : Decidable (is_pointer_word p x) := by
  unfold is_pointer_word; infer_instance

/-! ## Blocks, conversions and comparison: the remaining collaborators -/

/-- `_kk_integer_ptr`: the word read as the address of a heap block
(`kk_ptr_t`). -/
def _kk_integer_ptr (i : kk_integer_t) : Nat := i.ibox

/-- The block primitives of the runtime that the header calls but does not
define: `kk_block_dup` and `kk_block_drop` on the address of a block, the tag
`kk_block_tag` reads from a block, and the constant `KK_TAG_BIGINT`. The
world `W` holds the heap. -/
structure Blocks (W : Type) where
  kk_block_dup : Nat → W → W
  kk_block_drop : Nat → W → W
  kk_block_tag : Nat → W → Nat
  KK_TAG_BIGINT : Nat

/-- The conversion entry points the header only declares: the bignum
constructors, which take the native value, and the bignum clamps, which read
the bignum from the world. -/
structure Convert (W : Type) where
  kk_integer_from_big : Int → W → kk_integer_t × W
  kk_integer_from_big64 : Int → W → kk_integer_t × W
  kk_integer_from_bigu64 : Int → W → kk_integer_t × W
  kk_integer_clamp32_bigint : kk_integer_t → W → Int
  kk_integer_clamp64_bigint : kk_integer_t → W → Int
  kk_integer_clamp_size_t_bigint : kk_integer_t → W → Nat

/-- The comparison and sign entry points the header only declares. -/
structure Compare (W : Type) where
  kk_integer_cmp_generic : kk_integer_t → kk_integer_t → W → Int × W
  kk_integer_neg_generic : kk_integer_t → W → kk_integer_t × W
  kk_integer_is_even_generic : kk_integer_t → W → Bool × W
  kk_integer_signum_generic_bigint : kk_integer_t → W → Int

/-- Modelled from the spec: `KK_INTX_SIZE` (platform header), the size in bytes
of `kk_intx_t`, the register-sized native integer: the size of `kk_intf_t`,
and at least the four bytes of a C `long`. -/
def KK_INTX_SIZE (p : Build) : Nat := max (KK_INTF_SIZE p) 4

/-- The cast `(kk_intx_t)v`. -/
def to_intx (p : Build) (v : Int) : Int := to_signed (8 * KK_INTX_SIZE p) v

/-! ## Well-formedness, dup and drop -/

/-- `kk_is_integer`: a small integer in range, or a pointer to a block tagged
as a bignum. -/
def kk_is_integer {W : Type} (p : Build) (B : Blocks W) (w : W) (i : kk_integer_t) : Bool :=
  (kk_is_smallint p i && decide (kk_smallint_from_integer p i ≥ KK_SMALLINT_MIN p)
      && decide (kk_smallint_from_integer p i ≤ KK_SMALLINT_MAX p))
    || (kk_is_bigint p i && B.kk_block_tag (_kk_integer_ptr i) w == B.KK_TAG_BIGINT)

/-- `kk_integer_dup`: the word returned and the world after the call. -/
def kk_integer_dup {W : Type} (p : Build) (B : Blocks W) (i : kk_integer_t) (w : W) :
    kk_integer_t × W :=
  if kk_is_bigint p i then (i, B.kk_block_dup (_kk_integer_ptr i) w) else (i, w)

/-- `kk_integer_drop`: the world after the call. -/
def kk_integer_drop {W : Type} (p : Build) (B : Blocks W) (i : kk_integer_t) (ctx : W) : W :=
  if kk_is_bigint p i then B.kk_block_drop (_kk_integer_ptr i) ctx else ctx

/-! ## Conversion -/

/-- `kk_integer_from_int`, on a `kk_intx_t` value. -/
def kk_integer_from_int {W : Type} (p : Build) (V : Convert W) (i : Int) (ctx : W) :
    kk_integer_t × W :=
  if i ≥ KK_SMALLINT_MIN p ∧ i ≤ KK_SMALLINT_MAX p then
    (kk_integer_from_small p (to_intf p i), ctx)
  else V.kk_integer_from_big i ctx

/-- `kk_integer_from_int32`, both `#if (KK_SMALLINT_BITS >= 34)` branches. The
arguments of `kk_integer_from_small` and `kk_integer_from_big` are converted
to `kk_intf_t` and `kk_intx_t`. -/
def kk_integer_from_int32 {W : Type} (p : Build) (V : Convert W) (i : Int) (ctx : W) :
    kk_integer_t × W :=
  if KK_SMALLINT_BITS p ≥ 34 then (kk_integer_from_small p (to_intf p i), ctx)
  else if i ≥ KK_SMALLINT_MIN p ∧ i ≤ KK_SMALLINT_MAX p then
    (kk_integer_from_small p (to_intf p i), ctx)
  else V.kk_integer_from_big (to_intx p i) ctx

/-- `kk_integer_from_int64`. -/
def kk_integer_from_int64 {W : Type} (p : Build) (V : Convert W) (i : Int) (ctx : W) :
    kk_integer_t × W :=
  if i ≥ KK_SMALLINT_MIN p ∧ i ≤ KK_SMALLINT_MAX p then
    (kk_integer_from_small p (to_intf p i), ctx)
  else V.kk_integer_from_big64 i ctx

/-- `kk_integer_from_uint64`. -/
def kk_integer_from_uint64 {W : Type} (p : Build) (V : Convert W) (i : Int) (ctx : W) :
    kk_integer_t × W :=
  if i ≤ KK_SMALLINT_MAX p then (kk_integer_from_small p (to_intf p i), ctx)
  else V.kk_integer_from_bigu64 i ctx

/-! ## Clamping -/

/-- `kk_integer_clamp32_borrow`. -/
def kk_integer_clamp32_borrow {W : Type} (p : Build) (V : Convert W) (x : kk_integer_t)
    (w : W) : Int :=
  if kk_is_smallint p x then to_signed 32 (kk_smallint_from_integer p x)
  else V.kk_integer_clamp32_bigint x w

/-- `kk_integer_clamp32`: the value returned and the world after the call. -/
def kk_integer_clamp32 {W : Type} (p : Build) (V : Convert W) (B : Blocks W)
    (x : kk_integer_t) (ctx : W) : Int × W :=
  if kk_is_smallint p x then (to_signed 32 (kk_smallint_from_integer p x), ctx)
  else
    let r := V.kk_integer_clamp32_bigint x ctx
    (r, kk_integer_drop p B x ctx)

/-- `kk_integer_clamp64_borrow`. -/
def kk_integer_clamp64_borrow {W : Type} (p : Build) (V : Convert W) (x : kk_integer_t)
    (w : W) : Int :=
  if kk_is_smallint p x then to_signed 64 (kk_smallint_from_integer p x)
  else V.kk_integer_clamp64_bigint x w

/-- `kk_integer_clamp64`: the value returned and the world after the call. -/
def kk_integer_clamp64 {W : Type} (p : Build) (V : Convert W) (B : Blocks W)
    (x : kk_integer_t) (ctx : W) : Int × W :=
  if kk_is_smallint p x then (to_signed 64 (kk_smallint_from_integer p x), ctx)
  else
    let r := V.kk_integer_clamp64_bigint x ctx
    (r, kk_integer_drop p B x ctx)

/-- `kk_integer_clamp_borrow`, both `#if KK_INTX_SIZE <= 4` branches. -/
def kk_integer_clamp_borrow {W : Type} (p : Build) (V : Convert W) (x : kk_integer_t)
    (w : W) : Int :=
  if kk_is_smallint p x then to_intx p (kk_smallint_from_integer p x)
  else if KK_INTX_SIZE p ≤ 4 then V.kk_integer_clamp32_bigint x w
  else V.kk_integer_clamp64_bigint x w

/-! ## Comparison, maximum and minimum -/

/-- `kk_integer_lte_borrow`. -/
def kk_integer_lte_borrow {W : Type} (p : Build) (C : Compare W) (x y : kk_integer_t)
    (ctx : W) : Bool × W :=
  if kk_are_smallints p x y then (decide (_kk_integer_value p x ≤ _kk_integer_value p y), ctx)
  else
    let r := C.kk_integer_cmp_generic x y ctx
    (decide (r.1 ≤ 0), r.2)

/-- `kk_integer_gte_borrow`. -/
def kk_integer_gte_borrow {W : Type} (p : Build) (C : Compare W) (x y : kk_integer_t)
    (ctx : W) : Bool × W :=
  if kk_are_smallints p x y then (decide (_kk_integer_value p x ≥ _kk_integer_value p y), ctx)
  else
    let r := C.kk_integer_cmp_generic x y ctx
    (decide (r.1 ≥ 0), r.2)

/-- `kk_integer_max`: the word returned and the world after the call. -/
def kk_integer_max {W : Type} (p : Build) (C : Compare W) (B : Blocks W)
    (x y : kk_integer_t) (ctx : W) : kk_integer_t × W :=
  if kk_are_smallints p x y then
    (if _kk_integer_value p x ≥ _kk_integer_value p y then x else y, ctx)
  else
    let r := kk_integer_gte_borrow p C x y ctx
    if r.1 then (x, kk_integer_drop p B y r.2) else (y, kk_integer_drop p B x r.2)

/-- `kk_integer_min`: the word returned and the world after the call. -/
def kk_integer_min {W : Type} (p : Build) (C : Compare W) (B : Blocks W)
    (x y : kk_integer_t) (ctx : W) : kk_integer_t × W :=
  if kk_are_smallints p x y then
    (if _kk_integer_value p x ≤ _kk_integer_value p y then x else y, ctx)
  else
    let r := kk_integer_lte_borrow p C x y ctx
    if r.1 then (x, kk_integer_drop p B y r.2) else (y, kk_integer_drop p B x r.2)

/-! ## The debug assertions of the Euclidean fast paths -/

/-- The condition of `kk_assert_internal(m >= 0)` in `kk_integer_mod_small`,
evaluated where the assertion stands: the body of the function up to the
assertion, returning the asserted condition. -/
def kk_integer_mod_small_assert (p : Build) (x y : kk_integer_t) : Option Bool := do
  let i := kk_sar p (_kk_integer_value p x) 2
  let j := kk_sar p (_kk_integer_value p y) 2
  let m ← if j = 0 then pure i else c_mod p i j
  let m := if i < 0 ∧ m < 0 then intf_add p m (if j < 0 then intf_neg p j else j) else m
  pure (decide (m ≥ 0))

/-- The conditions of `kk_assert_internal(m >= 0)` and
`kk_assert_internal(d*j + m == i)` in `kk_integer_div_mod_small`, in that
order, evaluated where the assertions stand; `none` inside when the function
returns before reaching them (zero divisor). -/
def kk_integer_div_mod_small_assert (p : Build) (x y : kk_integer_t) :
    Option (Option (Bool × Bool)) := do
  let i := kk_sar p (_kk_integer_value p x) 2
  let j := kk_sar p (_kk_integer_value p y) 2
  if j = 0 then pure none else
  let d ← c_div p i j
  let m ← c_mod p i j
  let dm : Int × Int :=
    if i < 0 ∧ m < 0 then
      if j < 0 then (intf_add p d 1, intf_sub p m j)
      else (intf_sub p d 1, intf_add p m j)
    else (d, m)
  pure (some (decide (dm.2 ≥ 0), decide (intf_add p (intf_mul p dm.1 j) dm.2 = i)))

/-! ## Test harness: an explicit reference-count state -/

/-- Modelled from the spec: the heap as far as this header is concerned, the
number of owners of the block at each address and the addresses freed so far
(most recent first). -/
structure Heap where
  count : Nat → Nat
  freed : List Nat

/-- Modelled from the spec: `kk_block_dup`, "increase use count". -/
def heap_dup (a : Nat) (h : Heap) : Heap :=
  { count := Function.update h.count a (h.count a + 1), freed := h.freed }

/-- Modelled from the spec: `kk_block_drop`, "decrease use count and free at
zero". -/
def heap_drop (a : Nat) (h : Heap) : Heap :=
  { count := Function.update h.count a (h.count a - 1),
    freed := if h.count a - 1 = 0 then a :: h.freed else h.freed }

/-- The block primitives on the explicit reference-count state; every block
carries the bignum tag `1`. -/
def heap_blocks : Blocks Heap where
  kk_block_dup := heap_dup
  kk_block_drop := heap_drop
  kk_block_tag _ _ := 1
  KK_TAG_BIGINT := 1

/-- A comparison collaborator on the explicit reference-count state that
orders words by `cmp` and leaves the heap alone. -/
def heap_compare (cmp : kk_integer_t → kk_integer_t → Int) : Compare Heap where
  kk_integer_cmp_generic x y h := (cmp x y, h)
  kk_integer_neg_generic x h := (x, h)
  kk_integer_is_even_generic _ h := (true, h)
  kk_integer_signum_generic_bigint _ _ := 0

/-- One reference-count operation on a word. -/
inductive RcOp where
  | dup
  | drop
deriving DecidableEq, Repr

/-- A sequence of `kk_integer_dup` and `kk_integer_drop` calls on one word,
run in order. -/
def run_ops {W : Type} (p : Build) (B : Blocks W) (x : kk_integer_t) : List RcOp → W → W
  | [], w => w
  | RcOp.dup :: t, w => run_ops p B x t (kk_integer_dup p B x w).2
  | RcOp.drop :: t, w => run_ops p B x t (kk_integer_drop p B x w)

/-- Every operation of the sequence finds the block alive, starting from
`c` owners: no dup or drop is made once the count is zero. -/
def alive_throughout : Nat → List RcOp → Bool
  | _, [] => true
  | c, RcOp.dup :: t => decide (0 < c) && alive_throughout (c + 1) t
  | c, RcOp.drop :: t => decide (0 < c) && alive_throughout (c - 1) t

/-- Number of dups in a sequence. -/
def count_dups (ops : List RcOp) : Nat := ops.count RcOp.dup

/-- Number of drops in a sequence. -/
def count_drops (ops : List RcOp) : Nat := ops.count RcOp.drop

/-- A balanced sequence on a block with `c` owners: as many drops as dups
plus the `c` owners there were, and every operation made while an owner is
left. -/
def balanced (c : Nat) (ops : List RcOp) : Bool :=
  decide (count_drops ops = count_dups ops + c) && alive_throughout c ops

/-- A conversion collaborator over a store of exact integers, the companion
of `exact`: the constructors allocate the value, the clamps read it back,
truncated to the target width. -/
def exact_convert (p : Build) : Convert (List Int) where
  kk_integer_from_big i s := alloc i s
  kk_integer_from_big64 i s := alloc i s
  kk_integer_from_bigu64 i s := alloc i s
  kk_integer_clamp32_bigint x s := to_signed 32 (denote p s x)
  kk_integer_clamp64_bigint x s := to_signed 64 (denote p s x)
  kk_integer_clamp_size_t_bigint x s := (denote p s x).toNat

/-- Block primitives that do nothing, for worlds without reference counts. -/
def no_blocks (W : Type) : Blocks W where
  kk_block_dup _ w := w
  kk_block_drop _ w := w
  kk_block_tag _ _ := 1
  KK_TAG_BIGINT := 1

/-! ## Negation and absolute value -/

/-- `kk_integer_neg_small`: `0 - x`, through `kk_integer_sub` because the
negation can overflow. -/
def kk_integer_neg_small {W : Type} (p : Build) (E : Bigint W) (x : kk_integer_t) (ctx : W) :
    kk_integer_t × W :=
  kk_integer_sub p E (kk_integer_zero p) x ctx

/-- `kk_integer_neg`. -/
def kk_integer_neg {W : Type} (p : Build) (E : Bigint W) (C : Compare W) (x : kk_integer_t)
    (ctx : W) : kk_integer_t × W :=
  if kk_is_smallint p x then kk_integer_neg_small p E x ctx
  else C.kk_integer_neg_generic x ctx

/-- `kk_integer_abs`. -/
def kk_integer_abs {W : Type} (p : Build) (E : Bigint W) (C : Compare W) (x : kk_integer_t)
    (ctx : W) : kk_integer_t × W :=
  if kk_is_smallint p x then
    (if _kk_integer_value p x < 0 then kk_integer_neg_small p E x ctx else (x, ctx))
  else
    (if C.kk_integer_signum_generic_bigint x ctx < 0 then C.kk_integer_neg_generic x ctx
     else (x, ctx))

/-! ## Comparison -/

/-- `kk_integer_cmp_borrow`. -/
def kk_integer_cmp_borrow {W : Type} (p : Build) (C : Compare W) (x y : kk_integer_t)
    (ctx : W) : Int × W :=
  if kk_are_smallints p x y then
    (if _kk_integer_value p x = _kk_integer_value p y then 0
     else (if _kk_integer_value p x > _kk_integer_value p y then 1 else -1), ctx)
  else C.kk_integer_cmp_generic x y ctx

/-- `kk_integer_lt_borrow`. -/
def kk_integer_lt_borrow {W : Type} (p : Build) (C : Compare W) (x y : kk_integer_t)
    (ctx : W) : Bool × W :=
  if kk_are_smallints p x y then (decide (_kk_integer_value p x < _kk_integer_value p y), ctx)
  else
    let r := C.kk_integer_cmp_generic x y ctx
    (decide (r.1 = -1), r.2)

/-- `kk_integer_gt_borrow`. -/
def kk_integer_gt_borrow {W : Type} (p : Build) (C : Compare W) (x y : kk_integer_t)
    (ctx : W) : Bool × W :=
  if kk_are_smallints p x y then (decide (_kk_integer_value p x > _kk_integer_value p y), ctx)
  else
    let r := C.kk_integer_cmp_generic x y ctx
    (decide (r.1 = 1), r.2)

/-- `kk_integer_eq_borrow`. -/
def kk_integer_eq_borrow {W : Type} (p : Build) (C : Compare W) (x y : kk_integer_t)
    (ctx : W) : Bool × W :=
  if kk_are_smallints p x y then (decide (_kk_integer_value p x = _kk_integer_value p y), ctx)
  else
    let r := C.kk_integer_cmp_generic x y ctx
    (decide (r.1 = 0), r.2)

/-- `kk_integer_neq_borrow`. -/
def kk_integer_neq_borrow {W : Type} (p : Build) (C : Compare W) (x y : kk_integer_t)
    (ctx : W) : Bool × W :=
  if kk_are_smallints p x y then (decide (_kk_integer_value p x ≠ _kk_integer_value p y), ctx)
  else
    let r := C.kk_integer_cmp_generic x y ctx
    (decide (r.1 ≠ 0), r.2)

/-! ## Sign and parity tests -/

/-- `kk_integer_is_zero_borrow`. -/
def kk_integer_is_zero_borrow (p : Build) (x : kk_integer_t) : Bool :=
  if kk_is_smallint p x then
    decide (_kk_integer_value p x = _kk_integer_value p (kk_integer_zero p))
  else false

/-- `kk_integer_is_one_borrow`. -/
def kk_integer_is_one_borrow (p : Build) (x : kk_integer_t) : Bool :=
  if kk_is_smallint p x then
    decide (_kk_integer_value p x = _kk_integer_value p (kk_integer_one p))
  else false

/-- `kk_integer_is_minus_one_borrow`. -/
def kk_integer_is_minus_one_borrow (p : Build) (x : kk_integer_t) : Bool :=
  if kk_is_smallint p x then
    decide (_kk_integer_value p x = _kk_integer_value p (kk_integer_min_one p))
  else false

/-- `kk_integer_is_even`. -/
def kk_integer_is_even {W : Type} (p : Build) (C : Compare W) (x : kk_integer_t) (ctx : W) :
    Bool × W :=
  if kk_is_smallint p x then (decide ((_kk_integer_value p x &&& 4) = 0), ctx)
  else C.kk_integer_is_even_generic x ctx

/-- `kk_integer_is_odd`. -/
def kk_integer_is_odd {W : Type} (p : Build) (C : Compare W) (x : kk_integer_t) (ctx : W) :
    Bool × W :=
  if kk_is_smallint p x then (decide ((_kk_integer_value p x &&& 4) ≠ 0), ctx)
  else
    let r := C.kk_integer_is_even_generic x ctx
    (!r.1, r.2)

/-- `kk_integer_signum_borrow`: `(v > 1) - (v < 0)` on the word `v`, the two
comparisons being the C integers `0` and `1`. -/
def kk_integer_signum_borrow {W : Type} (p : Build) (C : Compare W) (x : kk_integer_t)
    (w : W) : Int :=
  if kk_is_smallint p x then
    (if _kk_integer_value p x > 1 then 1 else 0) - (if _kk_integer_value p x < 0 then 1 else 0)
  else C.kk_integer_signum_generic_bigint x w

/-- `kk_integer_is_pos_borrow`. -/
def kk_integer_is_pos_borrow {W : Type} (p : Build) (C : Compare W) (x : kk_integer_t)
    (w : W) : Bool :=
  if kk_is_smallint p x then decide (_kk_integer_value p x > 1)
  else decide (C.kk_integer_signum_generic_bigint x w > 0)

/-- `kk_integer_is_neg_borrow`. -/
def kk_integer_is_neg_borrow {W : Type} (p : Build) (C : Compare W) (x : kk_integer_t)
    (w : W) : Bool :=
  if kk_is_smallint p x then decide (_kk_integer_value p x < 0)
  else decide (C.kk_integer_signum_generic_bigint x w < 0)

/-! ## Clamping to a byte and to `size_t` -/

/-- `kk_integer_clamp_byte`: the `uint8_t` returned and the world after the
call. -/
def kk_integer_clamp_byte {W : Type} (p : Build) (V : Convert W) (B : Blocks W)
    (x : kk_integer_t) (ctx : W) : Nat × W :=
  let r := kk_integer_clamp32 p V B x ctx
  let i := r.1
  (to_unsigned 8 (if i < 0 then 0 else (if i > 255 then 255 else (to_unsigned 8 i : Int))), r.2)

/-- Modelled from the spec: `PTRDIFF_MAX` (`<stdint.h>`); `ptrdiff_t` is taken
to have the width of `kk_intf_t`, the pointer-sized integer. -/
def PTRDIFF_MAX (p : Build) : Int := KK_INTF_MAX p

/-- Modelled from the spec: `PTRDIFF_MIN` (`<stdint.h>`), see `PTRDIFF_MAX`. -/
def PTRDIFF_MIN (p : Build) : Int := KK_INTF_MIN p

/-- The cast `(size_t)v`; `size_t` is taken to have the width of `kk_intf_t`. -/
def to_size_t (p : Build) (v : Int) : Nat := to_unsigned p.KK_INTF_BITS v

/-- `kk_integer_clamp_size_t_borrow`, with its fall through to the bignum
clamp. -/
def kk_integer_clamp_size_t_borrow {W : Type} (p : Build) (V : Convert W) (x : kk_integer_t)
    (w : W) : Nat :=
  if kk_is_smallint p x then
    let i := kk_smallint_from_integer p x
    if i ≥ PTRDIFF_MIN p ∧ i ≤ PTRDIFF_MAX p then to_size_t p i
    else V.kk_integer_clamp_size_t_bigint x w
  else V.kk_integer_clamp_size_t_bigint x w

/-- A comparison collaborator over a store of exact integers, the companion
of `exact`: it compares, negates and tests what the words denote. -/
def exact_compare (p : Build) : Compare (List Int) where
  kk_integer_cmp_generic x y s :=
    (if denote p s x < denote p s y then -1 else (if denote p s x = denote p s y then 0 else 1), s)
  kk_integer_neg_generic x s := alloc (-(denote p s x)) s
  kk_integer_is_even_generic x s := (decide (denote p s x % 2 = 0), s)
  kk_integer_signum_generic_bigint x s := Int.sign (denote p s x)

/-! ## Arithmetic reading of the bitwise operators -/

theorem land_zero_right (x : Int) : Int.land x 0 = 0 := by
  cases x <;> simp [Int.land, Nat.ldiff]

theorem lor_zero_right (x : Int) : Int.lor x 0 = x := by
  cases x <;> simp [Int.lor, Nat.ldiff]

theorem xor_zero_right (x : Int) : Int.xor x 0 = x := by
  cases x <;> simp [Int.xor]

theorem land_neg_one_right (x : Int) : Int.land x (Int.negSucc 0) = x := by
  cases x <;> simp [Int.land, Nat.ldiff]

theorem two_bits (x : Int) : ∃ (a b : Bool) (r : Int), x = Int.bit a (Int.bit b r) :=
  ⟨x.bodd, x.div2.bodd, x.div2.div2, by rw [Int.bit_decomp, Int.bit_decomp]⟩

theorem and_one_eq (x : Int) : x &&& 1 = x % 2 := by
  obtain ⟨a, b, r, rfl⟩ := two_bits x
  have h1 : (1 : Int) = Int.bit true 0 := by simp [Int.bit_val]
  show Int.land _ 1 = _
  rw [h1, Int.land_bit, land_zero_right]
  cases a <;> cases b <;> simp [Int.bit_val] <;> omega

theorem and_two_eq (x : Int) : x &&& 2 = x % 4 - x % 2 := by
  obtain ⟨a, b, r, rfl⟩ := two_bits x
  have h1 : (2 : Int) = Int.bit false (Int.bit true 0) := by simp [Int.bit_val]
  show Int.land _ 2 = _
  rw [h1, Int.land_bit, Int.land_bit, land_zero_right]
  cases a <;> cases b <;> simp [Int.bit_val] <;> omega

theorem and_three_eq (x : Int) : x &&& 3 = x % 4 := by
  obtain ⟨a, b, r, rfl⟩ := two_bits x
  have h1 : (3 : Int) = Int.bit true (Int.bit true 0) := by simp [Int.bit_val]
  show Int.land _ 3 = _
  rw [h1, Int.land_bit, Int.land_bit, land_zero_right]
  cases a <;> cases b <;> simp [Int.bit_val] <;> omega

theorem and_not_two_eq (x : Int) : x &&& ~~~(2 : Int) = x - (x % 4 - x % 2) := by
  obtain ⟨a, b, r, rfl⟩ := two_bits x
  have h1 : ~~~(2 : Int) = Int.bit true (Int.bit false (Int.negSucc 0)) := by decide
  show Int.land _ _ = _
  rw [h1, Int.land_bit, Int.land_bit, land_neg_one_right]
  cases a <;> cases b <;> simp [Int.bit_val] <;> omega

theorem or_one_eq (x : Int) : x ||| 1 = x + 1 - x % 2 := by
  obtain ⟨a, b, r, rfl⟩ := two_bits x
  have h1 : (1 : Int) = Int.bit true 0 := by simp [Int.bit_val]
  show Int.lor _ 1 = _
  rw [h1, Int.lor_bit, lor_zero_right]
  cases a <;> cases b <;> simp [Int.bit_val] <;> omega

theorem or_two_eq (x : Int) : x ||| 2 = x + 2 - (x % 4 - x % 2) := by
  obtain ⟨a, b, r, rfl⟩ := two_bits x
  have h1 : (2 : Int) = Int.bit false (Int.bit true 0) := by simp [Int.bit_val]
  show Int.lor _ 2 = _
  rw [h1, Int.lor_bit, Int.lor_bit, lor_zero_right]
  cases a <;> cases b <;> simp [Int.bit_val] <;> omega

theorem xor_three_eq (x : Int) : x ^^^ 3 = x + 3 - 2 * (x % 4) := by
  obtain ⟨a, b, r, rfl⟩ := two_bits x
  have h1 : (3 : Int) = Int.bit true (Int.bit true 0) := by simp [Int.bit_val]
  show Int.xor _ 3 = _
  rw [h1, Int.lxor_bit, Int.lxor_bit, xor_zero_right]
  cases a <;> cases b <;> simp [Int.bit_val] <;> omega

theorem and_and_one_eq (x y : Int) : (x &&& y) &&& 1 = (x % 2) * (y % 2) := by
  obtain ⟨a, b, r, rfl⟩ := two_bits x
  obtain ⟨c, d, s, rfl⟩ := two_bits y
  have h1 : (1 : Int) = Int.bit true 0 := by simp [Int.bit_val]
  show Int.land (Int.land _ _) 1 = _
  rw [h1, Int.land_bit, Int.land_bit, land_zero_right]
  have e1 : ∀ (u : Bool) (t : Int), Int.bit u t % 2 = bif u then 1 else 0 := by
    intro u t; cases u <;> simp [Int.bit_val]; omega
  rw [e1, e1]
  cases a <;> cases c <;> simp [Int.bit_val]

theorem sar_one_eq (x : Int) : Int.shiftRight x 1 = x / 2 := by
  have h := Int.shiftRight_eq_div_pow x 1
  simpa using h

theorem sar_two_eq (x : Int) : Int.shiftRight x 2 = x / 4 := by
  have h := Int.shiftRight_eq_div_pow x 2
  simpa using h

/-! ## The supported builds, one by one -/

theorem supported_cases (p : Build) (hp : p.supported) :
    p = ⟨16, true⟩ ∨ p = ⟨32, true⟩ ∨ p = ⟨64, true⟩ ∨ p = ⟨128, true⟩ ∨
    p = ⟨16, false⟩ ∨ p = ⟨32, false⟩ ∨ p = ⟨64, false⟩ ∨ p = ⟨128, false⟩ := by
  obtain ⟨w, b⟩ := p
  simp only [Build.supported] at hp
  cases b <;> simp only [Build.mk.injEq, and_true, and_false, or_false, false_or] <;> omega

theorem smallint_max_eq (p : Build) (hp : p.supported) :
    KK_SMALLINT_MAX p = 2 ^ (KK_SMALLINT_BITS p - 3) - 1 := by
  rcases supported_cases p hp with h | h | h | h | h | h | h | h <;> subst h <;> decide

theorem value_new_integer (p : Build) (hp : p.supported) (v : Int) :
    _kk_integer_value p (_kk_new_integer p v) = to_intf p v := by
  rcases supported_cases p hp with h | h | h | h | h | h | h | h <;> subst h <;>
    simp [_kk_integer_value, _kk_new_integer, to_intf, to_signed, to_unsigned] <;> omega

theorem value_from_small (p : Build) (hp : p.supported) (n : Int) (hn : in_small_range p n) :
    _kk_integer_value p (kk_integer_from_small p n) = 4 * n + 1 := by
  have hmax := smallint_max_eq p hp
  rw [kk_integer_from_small, value_new_integer p hp, or_one_eq]
  simp only [in_small_range, KK_SMALLINT_MIN, hmax] at hn
  rcases supported_cases p hp with h | h | h | h | h | h | h | h <;> subst h <;>
    simp [KK_SMALLINT_BITS, KK_INTF_SIZE, kk_shlf, to_intf, to_signed] at hn ⊢ <;> omega

/-! ## Fast paths of addition, subtraction and multiplication -/

theorem from_small_eq (p : Build) (hp : p.supported) (n : Int) (hn : in_small_range p n) :
    kk_integer_from_small p n = _kk_new_integer p (4 * n + 1) := by
  have hmax := smallint_max_eq p hp
  rw [kk_integer_from_small, or_one_eq]
  simp only [in_small_range, KK_SMALLINT_MIN, hmax] at hn
  congr 1
  rcases supported_cases p hp with h | h | h | h | h | h | h | h <;> subst h <;>
    simp [KK_SMALLINT_BITS, KK_INTF_SIZE, kk_shlf, to_intf, to_signed] at hn ⊢ <;> omega

theorem add_small_small {W : Type} (p : Build) (hp : p.supported) (E : Bigint W) (ctx : W)
    (n m : Int) (hn : in_small_range p n) (hm : in_small_range p m) :
    kk_integer_add p E (kk_integer_from_small p n) (kk_integer_from_small p m) ctx =
      if in_small_range p (n + m) then (_kk_new_integer p (4 * (n + m) + 1), ctx)
      else E.kk_integer_add_generic (kk_integer_from_small p n) (kk_integer_from_small p m) ctx := by
  have hmax := smallint_max_eq p hp
  unfold kk_integer_add
  simp only [value_from_small p hp n hn, value_from_small p hp m hm, builtin_add_overflow,
    intf_add, and_two_eq, or_two_eq, xor_three_eq, to_smallint]
  simp only [in_small_range, KK_SMALLINT_MIN, hmax] at hn hm ⊢
  rcases supported_cases p hp with h | h | h | h | h | h | h | h <;> subst h <;>
    simp [KK_SMALLINT_BITS, KK_INTF_SIZE, to_intf, to_signed] at hn hm ⊢ <;>
    split_ifs <;>
    first | omega | rfl | (refine congrArg (fun v => (_kk_new_integer _ v, ctx)) ?_; omega)

theorem add_pointer_defers {W : Type} (p : Build) (hp : p.supported) (E : Bigint W) (ctx : W)
    (x y : kk_integer_t)
    (hx : _kk_integer_value p x % 4 = 1 ∨ _kk_integer_value p x % 4 = 0)
    (hy : _kk_integer_value p y % 4 = 1 ∨ _kk_integer_value p y % 4 = 0)
    (h : _kk_integer_value p x % 4 = 0 ∨ _kk_integer_value p y % 4 = 0) :
    kk_integer_add p E x y ctx = E.kk_integer_add_generic x y ctx := by
  unfold kk_integer_add
  simp only [builtin_add_overflow, intf_add, and_two_eq, or_two_eq, xor_three_eq, to_smallint]
  generalize _kk_integer_value p x = a at *
  generalize _kk_integer_value p y = b at *
  rcases supported_cases p hp with h | h | h | h | h | h | h | h <;> subst h <;>
    simp [KK_SMALLINT_BITS, KK_INTF_SIZE, to_intf, to_signed] <;>
    intros <;> exfalso <;> omega

theorem sub_pointer_defers {W : Type} (p : Build) (hp : p.supported) (E : Bigint W) (ctx : W)
    (x y : kk_integer_t)
    (hx : _kk_integer_value p x % 4 = 1 ∨ _kk_integer_value p x % 4 = 0)
    (hy : _kk_integer_value p y % 4 = 1 ∨ _kk_integer_value p y % 4 = 0)
    (h : _kk_integer_value p x % 4 = 0 ∨ _kk_integer_value p y % 4 = 0) :
    kk_integer_sub p E x y ctx = E.kk_integer_sub_generic x y ctx := by
  unfold kk_integer_sub
  simp only [builtin_sub_overflow, intf_sub, and_two_eq, and_not_two_eq, xor_three_eq,
    to_smallint]
  generalize _kk_integer_value p x = a at *
  generalize _kk_integer_value p y = b at *
  rcases supported_cases p hp with h | h | h | h | h | h | h | h <;> subst h <;>
    simp [KK_SMALLINT_BITS, KK_INTF_SIZE, to_intf, to_signed] <;>
    intros <;> exfalso <;> omega

theorem add_fast_result_tag {W : Type} (p : Build) (hp : p.supported) (E : Bigint W) (ctx : W)
    (x y : kk_integer_t)
    (hx : _kk_integer_value p x % 4 = 1) (hy : _kk_integer_value p y % 4 = 1) :
    kk_integer_add p E x y ctx = E.kk_integer_add_generic x y ctx ∨
    _kk_integer_value p (kk_integer_add p E x y ctx).1 % 4 = 1 := by
  unfold kk_integer_add
  simp only [builtin_add_overflow, intf_add, and_two_eq, or_two_eq, xor_three_eq, to_smallint]
  split_ifs
  · right
    rw [value_new_integer p hp]
    generalize _kk_integer_value p x = a at *
    generalize _kk_integer_value p y = b at *
    rcases supported_cases p hp with h | h | h | h | h | h | h | h <;> subst h <;>
      simp [to_intf, to_signed] <;> omega
  · left; rfl
  · right
    rw [value_new_integer p hp]
    generalize _kk_integer_value p x = a at *
    generalize _kk_integer_value p y = b at *
    rcases supported_cases p hp with h | h | h | h | h | h | h | h <;> subst h <;>
      simp [to_intf, to_signed] <;> omega
  · left; rfl

theorem sub_fast_result_tag {W : Type} (p : Build) (hp : p.supported) (E : Bigint W) (ctx : W)
    (x y : kk_integer_t)
    (hx : _kk_integer_value p x % 4 = 1) (hy : _kk_integer_value p y % 4 = 1) :
    kk_integer_sub p E x y ctx = E.kk_integer_sub_generic x y ctx ∨
    _kk_integer_value p (kk_integer_sub p E x y ctx).1 % 4 = 1 := by
  unfold kk_integer_sub
  simp only [builtin_sub_overflow, intf_sub, and_two_eq, and_not_two_eq, xor_three_eq,
    to_smallint]
  split_ifs
  · right
    rw [value_new_integer p hp]
    generalize _kk_integer_value p x = a at *
    generalize _kk_integer_value p y = b at *
    rcases supported_cases p hp with h | h | h | h | h | h | h | h <;> subst h <;>
      simp [to_intf, to_signed] <;> omega
  · left; rfl
  · right
    rw [value_new_integer p hp]
    generalize _kk_integer_value p x = a at *
    generalize _kk_integer_value p y = b at *
    rcases supported_cases p hp with h | h | h | h | h | h | h | h <;> subst h <;>
      simp [to_intf, to_signed] <;> omega
  · left; rfl

theorem sub_small_small {W : Type} (p : Build) (hp : p.supported) (E : Bigint W) (ctx : W)
    (n m : Int) (hn : in_small_range p n) (hm : in_small_range p m) :
    kk_integer_sub p E (kk_integer_from_small p n) (kk_integer_from_small p m) ctx =
      if in_small_range p (n - m) then (_kk_new_integer p (4 * (n - m) + 1), ctx)
      else E.kk_integer_sub_generic (kk_integer_from_small p n) (kk_integer_from_small p m) ctx := by
  have hmax := smallint_max_eq p hp
  have hx : _kk_integer_value p (kk_integer_from_small p n) ^^^ 3 = 4 * n + 2 := by
    rw [value_from_small p hp n hn, xor_three_eq]; omega
  have hz : 4 * n + 2 - (4 * m + 1) = 4 * (n - m) + 1 := by ring
  unfold kk_integer_sub
  simp only [hx, value_from_small p hp m hm, hz, builtin_sub_overflow, intf_sub, and_two_eq,
    and_not_two_eq, to_smallint]
  have hk : 2 * KK_SMALLINT_MIN p ≤ n - m ∧ n - m ≤ 2 * KK_SMALLINT_MAX p + 1 := by
    simp only [in_small_range, KK_SMALLINT_MIN] at hn hm ⊢; omega
  generalize n - m = k at hk ⊢
  generalize E.kk_integer_sub_generic _ _ _ = G
  simp only [in_small_range, KK_SMALLINT_MIN, hmax] at hk ⊢
  rcases supported_cases p hp with h | h | h | h | h | h | h | h <;> subst h <;>
    simp [KK_SMALLINT_BITS, KK_INTF_SIZE, to_intf, to_signed] at hk ⊢ <;>
    split_ifs <;>
    first | omega | rfl | (refine congrArg (fun v => (_kk_new_integer _ v, ctx)) ?_; omega)

theorem mul_bound (B n m : Int) (hn : -B ≤ n ∧ n ≤ B) (hm : -B ≤ m ∧ m ≤ B) :
    -(B * B) ≤ n * m ∧ n * m ≤ B * B := by
  constructor
  · nlinarith [mul_nonneg (sub_nonneg.2 hn.2) (sub_nonneg.2 hm.2),
      mul_nonneg (sub_nonneg.2 (neg_le.1 hn.1)) (sub_nonneg.2 (neg_le.1 hm.1))]
  · nlinarith [mul_nonneg (sub_nonneg.2 hn.2) (sub_nonneg.2 (neg_le.1 hm.1)),
      mul_nonneg (sub_nonneg.2 (neg_le.1 hn.1)) (sub_nonneg.2 hm.2)]

theorem are_smallints_small (p : Build) (hp : p.supported) (n m : Int)
    (hn : in_small_range p n) (hm : in_small_range p m) :
    kk_are_smallints p (kk_integer_from_small p n) (kk_integer_from_small p m) = true := by
  have e1 : (4 * n + 1) % 2 = 1 := by omega
  have e2 : (4 * m + 1) % 2 = 1 := by omega
  simp [kk_are_smallints, value_from_small p hp n hn, value_from_small p hp m hm,
    and_and_one_eq, e1, e2]

theorem are_smallints_bigint (p : Build) (x y : kk_integer_t)
    (h : kk_is_bigint p x = true ∨ kk_is_bigint p y = true) :
    kk_are_smallints p x y = false := by
  simp only [kk_is_bigint, and_one_eq, beq_iff_eq] at h
  simp only [kk_are_smallints, and_and_one_eq, bne_eq_false_iff_eq]
  rcases h with h | h <;> rw [h] <;> simp

theorem mul_small_small {W : Type} (p : Build) (hp : p.supported) (E : Bigint W) (ctx : W)
    (n m : Int) (hn : in_small_range p n) (hm : in_small_range p m) :
    kk_integer_mul p E (kk_integer_from_small p n) (kk_integer_from_small p m) ctx =
      if in_small_range p (n * m) then (_kk_new_integer p (4 * (n * m) + 1), ctx)
      else E.kk_integer_mul_generic (kk_integer_from_small p n) (kk_integer_from_small p m) ctx := by
  have hmax := smallint_max_eq p hp
  have hi : kk_sar p (4 * n + 1) 1 = 2 * n := by rw [kk_sar, sar_one_eq]; omega
  have hj : kk_sar p (4 * m + 1) 1 = 2 * m := by rw [kk_sar, sar_one_eq]; omega
  have hz : 2 * n * (2 * m) = 4 * (n * m) := by ring
  have hk := mul_bound (KK_SMALLINT_MAX p + 1) n m
    (by simp only [in_small_range, KK_SMALLINT_MIN] at hn; omega)
    (by simp only [in_small_range, KK_SMALLINT_MIN] at hm; omega)
  unfold kk_integer_mul kk_integer_mul_small
  simp only [are_smallints_small p hp n m hn hm, if_true, value_from_small p hp n hn,
    value_from_small p hp m hm, hi, hj, hz, builtin_mul_overflow, intf_mul, or_one_eq,
    to_smallint]
  generalize n * m = k at hk ⊢
  generalize E.kk_integer_mul_generic _ _ _ = G
  simp only [in_small_range, KK_SMALLINT_MIN, hmax] at hk ⊢
  rcases supported_cases p hp with h | h | h | h | h | h | h | h <;> subst h <;>
    simp [KK_SMALLINT_BITS, KK_INTF_SIZE, to_intf, to_signed] at hk ⊢ <;>
    split_ifs <;>
    first | omega | rfl | (refine congrArg (fun v => (_kk_new_integer _ v, ctx)) ?_; omega)

/-! ## Truncated and Euclidean division -/

theorem neg_tmod_eq (a b : Int) : Int.tmod (-a) b = -(Int.tmod a b) := by
  rw [Int.tmod_def, Int.tmod_def, Int.neg_tdiv]; ring

/-- What C guarantees of `/` and `%`: the division identity, a remainder
with the sign of the dividend and smaller in magnitude than the divisor. -/
theorem tdiv_tmod_spec (n m : Int) :
    Int.tmod n m + m * Int.tdiv n m = n ∧
    (0 ≤ n → 0 ≤ Int.tmod n m) ∧ (n ≤ 0 → Int.tmod n m ≤ 0) ∧
    (0 < m → -m < Int.tmod n m ∧ Int.tmod n m < m) ∧
    (m < 0 → m < Int.tmod n m ∧ Int.tmod n m < -m) := by
  have hpos : ∀ a b : Int, 0 < b → -b < Int.tmod a b ∧ Int.tmod a b < b := by
    intro a b hb
    refine ⟨?_, Int.tmod_lt_of_pos a hb⟩
    rcases le_total 0 a with ha | ha
    · have := Int.tmod_nonneg b ha; omega
    · have h1 := Int.tmod_lt_of_pos (-a) hb
      rw [neg_tmod_eq] at h1; omega
  refine ⟨Int.tmod_add_tdiv n m, fun h => Int.tmod_nonneg m h, fun h => ?_, hpos n m, fun h => ?_⟩
  · have h1 := Int.tmod_nonneg m (a := -n) (by omega)
    rw [neg_tmod_eq] at h1; omega
  · have h1 := hpos n (-m) (by omega)
    rw [Int.tmod_neg] at h1; omega

theorem ediv_emod_spec (n m : Int) (hm : m ≠ 0) :
    n % m + m * (n / m) = n ∧ 0 ≤ n % m ∧ (0 < m → n % m < m) ∧ (m < 0 → n % m < -m) := by
  refine ⟨Int.emod_add_ediv n m, Int.emod_nonneg n hm, fun h => Int.emod_lt_of_pos n h, fun h => ?_⟩
  have := Int.emod_lt_of_pos n (b := -m) (by omega)
  rwa [Int.emod_neg] at this

theorem euclid_unique (n m q r q' r' : Int)
    (h : r + m * q = n) (h' : r' + m * q' = n)
    (hr : 0 ≤ r) (hr' : 0 ≤ r')
    (hpos : 0 < m → r < m ∧ r' < m) (hneg : m < 0 → r < -m ∧ r' < -m) (hm : m ≠ 0) :
    q = q' ∧ r = r' := by
  have hq : q = q' := by
    rcases lt_or_gt_of_ne hm with hm' | hm'
    · have := hneg hm'
      by_contra hne
      rcases lt_or_gt_of_ne hne with h1 | h1 <;> nlinarith
    · have := hpos hm'
      by_contra hne
      rcases lt_or_gt_of_ne hne with h1 | h1 <;> nlinarith
  subst hq
  exact ⟨rfl, by omega⟩

/-- The adjustment made by `kk_integer_div_small`, `kk_integer_mod_small` and
`kk_integer_div_mod_small` turns C's truncated quotient and remainder into
the Euclidean ones. -/
theorem euclid_adjust (n m : Int) (hm : m ≠ 0) :
    (if n < 0 ∧ Int.tmod n m < 0 then Int.tdiv n m - (if m < 0 then -1 else 1) else Int.tdiv n m)
      = n / m ∧
    (if n < 0 ∧ Int.tmod n m < 0 then Int.tmod n m + (if m < 0 then -m else m) else Int.tmod n m)
      = n % m := by
  obtain ⟨t1, t2, t3, t4, t5⟩ := tdiv_tmod_spec n m
  obtain ⟨e1, e2, e3, e4⟩ := ediv_emod_spec n m hm
  generalize Int.tdiv n m = d at *
  generalize Int.tmod n m = r at *
  split_ifs with hc hs
  · have hmul : m * (d - -1) = m * d + m := by ring
    exact euclid_unique n m _ _ _ _ (by rw [hmul]; omega) e1 (by omega) e2
      (fun h => by omega) (fun h => ⟨by omega, e4 h⟩) hm
  · have hmul : m * (d - 1) = m * d - m := by ring
    exact euclid_unique n m _ _ _ _ (by rw [hmul]; omega) e1 (by omega) e2
      (fun h => ⟨by omega, e3 h⟩) (fun h => by omega) hm
  · exact euclid_unique n m _ _ _ _ t1 e1 (by
      by_cases h0 : n < 0
      · have : ¬ r < 0 := fun h => hc ⟨h0, h⟩
        omega
      · exact t2 (by omega)) e2
      (fun h => ⟨(t4 h).2, e3 h⟩) (fun h => ⟨(t5 h).2, e4 h⟩) hm

theorem trunc_unique (n m q r q' r' : Int)
    (h : r + m * q = n) (h' : r' + m * q' = n)
    (hs : 0 ≤ n → 0 ≤ r ∧ 0 ≤ r') (hs' : n ≤ 0 → r ≤ 0 ∧ r' ≤ 0)
    (hpos : 0 < m → (-m < r ∧ r < m) ∧ (-m < r' ∧ r' < m))
    (hneg : m < 0 → (m < r ∧ r < -m) ∧ (m < r' ∧ r' < -m)) (hm : m ≠ 0) :
    q = q' ∧ r = r' := by
  have hq : q = q' := by
    rcases le_total 0 n with hn | hn
    · have := hs hn
      rcases lt_or_gt_of_ne hm with hm' | hm'
      · have := hneg hm'
        by_contra hne
        rcases lt_or_gt_of_ne hne with h1 | h1 <;> nlinarith
      · have := hpos hm'
        by_contra hne
        rcases lt_or_gt_of_ne hne with h1 | h1 <;> nlinarith
    · have := hs' hn
      rcases lt_or_gt_of_ne hm with hm' | hm'
      · have := hneg hm'
        by_contra hne
        rcases lt_or_gt_of_ne hne with h1 | h1 <;> nlinarith
      · have := hpos hm'
        by_contra hne
        rcases lt_or_gt_of_ne hne with h1 | h1 <;> nlinarith
  subst hq
  exact ⟨rfl, by omega⟩

theorem tdiv_tmod_double (n m : Int) (hm : m ≠ 0) :
    Int.tdiv (2 * n) (2 * m) = Int.tdiv n m ∧ Int.tmod (2 * n) (2 * m) = 2 * Int.tmod n m := by
  obtain ⟨t1, t2, t3, t4, t5⟩ := tdiv_tmod_spec n m
  obtain ⟨u1, u2, u3, u4, u5⟩ := tdiv_tmod_spec (2 * n) (2 * m)
  have hmul : 2 * m * Int.tdiv n m = 2 * (m * Int.tdiv n m) := by ring
  exact trunc_unique (2 * n) (2 * m) _ _ _ _ u1 (by rw [hmul]; omega)
    (fun h => ⟨u2 h, by have := t2 (by omega); omega⟩)
    (fun h => ⟨u3 h, by have := t3 (by omega); omega⟩)
    (fun h => ⟨u4 h, by have := t4 (by omega); omega⟩)
    (fun h => ⟨u5 h, by have := t5 (by omega); omega⟩) (by omega)

theorem ediv_bound (B n m : Int) (hn : -B ≤ n ∧ n ≤ B) : -B ≤ n / m ∧ n / m ≤ B := by
  have := Int.natAbs_div_le_natAbs n m
  omega

theorem tdiv_bound (B n m : Int) (hn : -B ≤ n ∧ n ≤ B) :
    -B ≤ Int.tdiv n m ∧ Int.tdiv n m ≤ B := by
  have h1 := Int.natAbs_tdiv n m
  have h2 : (Int.natAbs n).div (Int.natAbs m) ≤ Int.natAbs n := Nat.div_le_self _ _
  omega

/-! ## Closed forms of the division fast paths -/

theorem small_fits (p : Build) (hp : p.supported) (v : Int)
    (hv : -(KK_SMALLINT_MAX p + 1) ≤ v ∧ v ≤ KK_SMALLINT_MAX p + 1) :
    to_intf p v = v ∧ to_intf p (2 * v) = 2 * v ∧ v ≠ KK_INTF_MIN p ∧ 2 * v ≠ KK_INTF_MIN p := by
  have hmax := smallint_max_eq p hp
  simp only [hmax] at hv
  rcases supported_cases p hp with h | h | h | h | h | h | h | h <;> subst h <;>
    simp [KK_SMALLINT_BITS, KK_INTF_SIZE, KK_INTF_MIN, to_intf, to_signed] at hv ⊢ <;> omega

theorem wide (p : Build) (n : Int) (hn : in_small_range p n) :
    -(KK_SMALLINT_MAX p + 1) ≤ n ∧ n ≤ KK_SMALLINT_MAX p + 1 := by
  simp only [in_small_range, KK_SMALLINT_MIN] at hn; omega

theorem sar_two_small (p : Build) (hp : p.supported) (n : Int) (hn : in_small_range p n) :
    kk_sar p (_kk_integer_value p (kk_integer_from_small p n)) 2 = n := by
  rw [value_from_small p hp n hn, kk_sar, sar_two_eq]; omega

theorem sar_one_small (p : Build) (hp : p.supported) (n : Int) (hn : in_small_range p n) :
    kk_sar p (_kk_integer_value p (kk_integer_from_small p n)) 1 = 2 * n := by
  rw [value_from_small p hp n hn, kk_sar, sar_one_eq]; omega

theorem div_small_eq (p : Build) (hp : p.supported) (n m : Int)
    (hn : in_small_range p n) (hm : in_small_range p m) :
    kk_integer_div_small p (kk_integer_from_small p n) (kk_integer_from_small p m) =
      some (kk_integer_from_small p (n / m)) := by
  unfold kk_integer_div_small
  simp only [sar_two_small p hp n hn, sar_two_small p hp m hm]
  by_cases h0 : m = 0
  · subst h0; simp [kk_integer_zero]
  · have hni := (small_fits p hp n (wide p n hn)).2.2.1
    have hfit := (small_fits p hp _ (ediv_bound _ n m (wide p n hn))).1
    have hadj := (euclid_adjust n m h0).1
    have key : (if n < 0 ∧ Int.tmod n m < 0
        then to_intf p (Int.tdiv n m - if m < 0 then -1 else 1) else Int.tdiv n m) = n / m := by
      by_cases hc : n < 0 ∧ Int.tmod n m < 0
      · rw [if_pos hc] at hadj ⊢; rw [hadj, hfit]
      · rw [if_neg hc] at hadj ⊢; exact hadj
    simp only [c_div, c_mod, h0, hni, false_and, or_self, if_false, intf_sub, pure, bind,
      Option.bind, key, kk_integer_from_small, kk_shlf, kk_shlp]

theorem emod_fits (p : Build) (hp : p.supported) (n m : Int) (hm : in_small_range p m)
    (h0 : m ≠ 0) : to_intf p (n % m) = n % m ∧ to_intf p (-m) = -m := by
  obtain ⟨_, e2, e3, e4⟩ := ediv_emod_spec n m h0
  have hw := wide p m hm
  exact ⟨(small_fits p hp (n % m) ⟨by omega, by omega⟩).1,
    (small_fits p hp (-m) ⟨by omega, by omega⟩).1⟩

theorem mod_small_eq (p : Build) (hp : p.supported) (n m : Int)
    (hn : in_small_range p n) (hm : in_small_range p m) :
    kk_integer_mod_small p (kk_integer_from_small p n) (kk_integer_from_small p m) =
      some (kk_integer_from_small p (n % m)) := by
  unfold kk_integer_mod_small
  simp only [sar_two_small p hp n hn, sar_two_small p hp m hm]
  by_cases h0 : m = 0
  · subst h0
    have hfit := (small_fits p hp n (wide p n hn)).1
    simp [intf_add, hfit, kk_integer_from_small, kk_shlf, kk_shlp]
  · have hni := (small_fits p hp n (wide p n hn)).2.2.1
    obtain ⟨hfit, hneg⟩ := emod_fits p hp n m hm h0
    have hadj := (euclid_adjust n m h0).2
    have key : (if n < 0 ∧ Int.tmod n m < 0
        then to_intf p (Int.tmod n m + if m < 0 then to_intf p (-m) else m)
        else Int.tmod n m) = n % m := by
      rw [hneg]
      by_cases hc : n < 0 ∧ Int.tmod n m < 0
      · rw [if_pos hc] at hadj ⊢; rw [hadj, hfit]
      · rw [if_neg hc] at hadj ⊢; exact hadj
    simp only [c_mod, h0, hni, false_and, or_self, if_false, intf_add, intf_neg, pure, bind,
      Option.bind, key, kk_integer_from_small, kk_shlf, kk_shlp]

theorem div_mod_small_eq (p : Build) (hp : p.supported) (n m : Int)
    (hn : in_small_range p n) (hm : in_small_range p m) :
    kk_integer_div_mod_small p (kk_integer_from_small p n) (kk_integer_from_small p m) =
      some (kk_integer_from_small p (n / m), kk_integer_from_small p (n % m)) := by
  unfold kk_integer_div_mod_small
  simp only [sar_two_small p hp n hn, sar_two_small p hp m hm]
  by_cases h0 : m = 0
  · subst h0; simp [kk_integer_zero]
  · have hni := (small_fits p hp n (wide p n hn)).2.2.1
    have hfitq := (small_fits p hp _ (ediv_bound _ n m (wide p n hn))).1
    obtain ⟨hfitr, _⟩ := emod_fits p hp n m hm h0
    obtain ⟨hq, hr⟩ := euclid_adjust n m h0
    have key : (if n < 0 ∧ Int.tmod n m < 0 then
          if m < 0 then (to_intf p (Int.tdiv n m + 1), to_intf p (Int.tmod n m - m))
          else (to_intf p (Int.tdiv n m - 1), to_intf p (Int.tmod n m + m))
        else (Int.tdiv n m, Int.tmod n m)) = (n / m, n % m) := by
      by_cases hc : n < 0 ∧ Int.tmod n m < 0
      · rw [if_pos hc] at hq hr ⊢
        by_cases hs : m < 0
        · rw [if_pos hs] at hq hr ⊢
          rw [show Int.tdiv n m + 1 = n / m by omega, show Int.tmod n m - m = n % m by omega,
            hfitq, hfitr]
        · rw [if_neg hs] at hq hr ⊢
          rw [hq, hr, hfitq, hfitr]
      · rw [if_neg hc] at hq hr ⊢; rw [hq, hr]
    simp only [c_div, c_mod, h0, hni, false_and, or_self, if_false, intf_add, intf_sub, pure,
      bind, Option.bind, key, kk_integer_from_small, kk_shlf, kk_shlp]

theorem cdiv_small_eq (p : Build) (hp : p.supported) (n m : Int)
    (hn : in_small_range p n) (hm : in_small_range p m) (h0 : m ≠ 0) :
    kk_integer_cdiv_small p (kk_integer_from_small p n) (kk_integer_from_small p m) =
      some (kk_integer_from_small p (Int.tdiv n m)) := by
  unfold kk_integer_cdiv_small
  have hni := (small_fits p hp n (wide p n hn)).2.2.2
  have h2 : 2 * m ≠ 0 := by omega
  simp only [sar_one_small p hp n hn, sar_one_small p hp m hm]
  simp only [c_div, h2, hni, false_and,
    or_self, if_false, pure, bind, Option.bind, (tdiv_tmod_double n m h0).1,
    kk_integer_from_small, kk_shlf, kk_shlp]

theorem cmod_small_eq (p : Build) (hp : p.supported) (n m : Int)
    (hn : in_small_range p n) (hm : in_small_range p m) (h0 : m ≠ 0) :
    kk_integer_cmod_small p (kk_integer_from_small p n) (kk_integer_from_small p m) =
      some (kk_integer_from_small p (Int.tmod n m)) := by
  unfold kk_integer_cmod_small
  have hni := (small_fits p hp n (wide p n hn)).2.2.2
  have h2 : 2 * m ≠ 0 := by omega
  have hsh : 2 * Int.tmod n m * 2 ^ 1 = Int.tmod n m * 2 ^ 2 := by ring
  simp only [sar_one_small p hp n hn, sar_one_small p hp m hm]
  simp only [c_mod, h2, hni, false_and,
    or_self, if_false, pure, bind, Option.bind, (tdiv_tmod_double n m h0).2,
    kk_integer_from_small, kk_shlf, kk_shlp, hsh]

theorem cdiv_cmod_small_eq (p : Build) (hp : p.supported) (n m : Int)
    (hn : in_small_range p n) (hm : in_small_range p m) (h0 : m ≠ 0) :
    kk_integer_cdiv_cmod_small p (kk_integer_from_small p n) (kk_integer_from_small p m) =
      some (kk_integer_from_small p (Int.tdiv n m),
        kk_integer_from_small p (2 * Int.tmod n m)) := by
  unfold kk_integer_cdiv_cmod_small
  have hni := (small_fits p hp n (wide p n hn)).2.2.2
  have h2 : 2 * m ≠ 0 := by omega
  simp only [sar_one_small p hp n hn, sar_one_small p hp m hm]
  simp only [c_div, c_mod, h2, hni,
    false_and, or_self, if_false, pure, bind, Option.bind, (tdiv_tmod_double n m h0).1,
    (tdiv_tmod_double n m h0).2, kk_integer_from_small, kk_shlf, kk_shlp]

theorem div_dispatch {W : Type} (p : Build) (hp : p.supported) (E : Bigint W) (ctx : W)
    (n m : Int) (hn : in_small_range p n) (hm : in_small_range p m) :
    kk_integer_div p E (kk_integer_from_small p n) (kk_integer_from_small p m) ctx =
      some (kk_integer_from_small p (n / m), ctx) ∧
    kk_integer_mod p E (kk_integer_from_small p n) (kk_integer_from_small p m) ctx =
      some (kk_integer_from_small p (n % m), ctx) ∧
    kk_integer_div_mod p E (kk_integer_from_small p n) (kk_integer_from_small p m) ctx =
      some ((kk_integer_from_small p (n / m), kk_integer_from_small p (n % m)), ctx) := by
  simp [kk_integer_div, kk_integer_mod, kk_integer_div_mod, are_smallints_small p hp n m hn hm,
    div_small_eq p hp n m hn hm, mod_small_eq p hp n m hn hm, div_mod_small_eq p hp n m hn hm]

theorem cdiv_dispatch {W : Type} (p : Build) (hp : p.supported) (E : Bigint W) (ctx : W)
    (n m : Int) (hn : in_small_range p n) (hm : in_small_range p m) (h0 : m ≠ 0) :
    kk_integer_cdiv p E (kk_integer_from_small p n) (kk_integer_from_small p m) ctx =
      some (kk_integer_from_small p (Int.tdiv n m), ctx) ∧
    kk_integer_cmod p E (kk_integer_from_small p n) (kk_integer_from_small p m) ctx =
      some (kk_integer_from_small p (Int.tmod n m), ctx) ∧
    kk_integer_cdiv_cmod p E (kk_integer_from_small p n) (kk_integer_from_small p m) ctx =
      some ((kk_integer_from_small p (Int.tdiv n m),
        kk_integer_from_small p (2 * Int.tmod n m)), ctx) := by
  simp [kk_integer_cdiv, kk_integer_cmod, kk_integer_cdiv_cmod,
    are_smallints_small p hp n m hn hm, cdiv_small_eq p hp n m hn hm h0,
    cmod_small_eq p hp n m hn hm h0, cdiv_cmod_small_eq p hp n m hn hm h0]

theorem decode_small (p : Build) (hp : p.supported) (n : Int) (hn : in_small_range p n) :
    kk_smallint_from_integer p (kk_integer_from_small p n) = n := by
  rw [kk_smallint_from_integer, value_from_small p hp n hn, kk_sarf, sar_two_eq]; omega

/-- The encoding of `KK_SMALLINT_MAX + 1`, which is not a small integer: on a
builtin build the shift wraps and the word is the encoding of
`KK_SMALLINT_MIN`; on a portable build the word still decodes to
`KK_SMALLINT_MAX + 1`. -/
theorem decode_max_succ (p : Build) (hp : p.supported) :
    kk_smallint_from_integer p (kk_integer_from_small p (KK_SMALLINT_MAX p + 1)) =
      if p.KK_USE_BUILTIN_OVF then KK_SMALLINT_MIN p else KK_SMALLINT_MAX p + 1 := by
  have hmax := smallint_max_eq p hp
  rw [kk_smallint_from_integer, kk_integer_from_small, value_new_integer p hp, or_one_eq,
    kk_sarf, sar_two_eq, KK_SMALLINT_MIN, hmax]
  rcases supported_cases p hp with h | h | h | h | h | h | h | h <;> subst h <;>
    simp [KK_SMALLINT_BITS, KK_INTF_SIZE, kk_shlf, to_intf, to_signed]

theorem ediv_in_range (B n m : Int) (hB : 2 ≤ B) (hn : -B ≤ n ∧ n ≤ B - 1) (hm : m ≠ 0)
    (hx : ¬ (n = -B ∧ m = -1)) : -B ≤ n / m ∧ n / m ≤ B - 1 := by
  obtain ⟨e1, e2, e3, e4⟩ := ediv_emod_spec n m hm
  have hb := ediv_bound B n m ⟨hn.1, by omega⟩
  refine ⟨hb.1, ?_⟩
  by_contra hq
  have hqB : n / m = B := by omega
  rw [hqB] at e1
  rcases lt_or_gt_of_ne hm with h | h
  · have := e4 h
    by_cases hm1 : m = -1
    · subst hm1; omega
    · have : m ≤ -2 := by omega
      nlinarith
  · nlinarith

theorem tdiv_in_range (B n m : Int) (hB : 2 ≤ B) (hn : -B ≤ n ∧ n ≤ B - 1) (hm : m ≠ 0)
    (hx : ¬ (n = -B ∧ m = -1)) : -B ≤ Int.tdiv n m ∧ Int.tdiv n m ≤ B - 1 := by
  obtain ⟨t1, t2, t3, t4, t5⟩ := tdiv_tmod_spec n m
  have hb := tdiv_bound B n m ⟨hn.1, by omega⟩
  refine ⟨hb.1, ?_⟩
  by_contra hq
  have hqB : Int.tdiv n m = B := by omega
  rw [hqB] at t1
  rcases lt_or_gt_of_ne hm with h | h
  · have := t5 h
    by_cases hm1 : m = -1
    · subst hm1; omega
    · have : m ≤ -2 := by omega
      rcases le_total 0 n with h0 | h0
      · have := t2 h0; nlinarith
      · have := t3 h0; nlinarith
  · have := t4 h
    rcases le_total 0 n with h0 | h0
    · have := t2 h0; nlinarith
    · have := t3 h0; nlinarith

theorem two_le_max_succ (p : Build) (hp : p.supported) : 2 ≤ KK_SMALLINT_MAX p + 1 := by
  rcases supported_cases p hp with h | h | h | h | h | h | h | h <;> subst h <;> decide

theorem emod_in_range (p : Build) (n m : Int) (hm : in_small_range p m) (h0 : m ≠ 0) :
    in_small_range p (n % m) := by
  obtain ⟨_, e2, e3, e4⟩ := ediv_emod_spec n m h0
  simp only [in_small_range, KK_SMALLINT_MIN] at hm ⊢
  omega

theorem tmod_in_range (p : Build) (n m : Int) (hm : in_small_range p m) (h0 : m ≠ 0) :
    in_small_range p (Int.tmod n m) := by
  obtain ⟨_, _, _, t4, t5⟩ := tdiv_tmod_spec n m
  simp only [in_small_range, KK_SMALLINT_MIN] at hm ⊢
  omega

/-- The Euclidean law on the fast paths, wherever the quotient is re-encoded
without wrapping: every small `n` and nonzero small `m`, except
`n = KK_SMALLINT_MIN`, `m = -1` on a builtin build. -/
theorem euclid_law_small {W : Type} (p : Build) (hp : p.supported) (E : Bigint W) (ctx : W)
    (n m : Int) (hn : in_small_range p n) (hm : in_small_range p m) (h0 : m ≠ 0)
    (hx : ¬ (p.KK_USE_BUILTIN_OVF = true ∧ n = KK_SMALLINT_MIN p ∧ m = -1)) :
    ∃ q r : kk_integer_t,
      kk_integer_div p E (kk_integer_from_small p n) (kk_integer_from_small p m) ctx
        = some (q, ctx) ∧
      kk_integer_mod p E (kk_integer_from_small p n) (kk_integer_from_small p m) ctx
        = some (r, ctx) ∧
      kk_smallint_from_integer p q * m + kk_smallint_from_integer p r = n ∧
      0 ≤ kk_smallint_from_integer p r ∧ kk_smallint_from_integer p r < |m| := by
  obtain ⟨d1, d2, _⟩ := div_dispatch p hp E ctx n m hn hm
  obtain ⟨e1, e2, e3, e4⟩ := ediv_emod_spec n m h0
  refine ⟨_, _, d1, d2, ?_⟩
  rw [decode_small p hp _ (emod_in_range p n m hm h0)]
  have hq : kk_smallint_from_integer p (kk_integer_from_small p (n / m)) = n / m := by
    by_cases hc : n = KK_SMALLINT_MIN p ∧ m = -1
    · obtain ⟨rfl, rfl⟩ := hc
      have hb : p.KK_USE_BUILTIN_OVF = false := by
        cases h : p.KK_USE_BUILTIN_OVF
        · rfl
        · exact absurd ⟨h, rfl, rfl⟩ hx
      have hv : KK_SMALLINT_MIN p / -1 = KK_SMALLINT_MAX p + 1 := by
        simp only [KK_SMALLINT_MIN]; omega
      rw [hv, decode_max_succ p hp, hb]; rfl
    · refine decode_small p hp _ ?_
      have := ediv_in_range (KK_SMALLINT_MAX p + 1) n m (two_le_max_succ p hp)
        (by simp only [in_small_range, KK_SMALLINT_MIN] at hn; omega) h0
        (by simp only [KK_SMALLINT_MIN] at hc; intro h; exact hc ⟨by omega, h.2⟩)
      simp only [in_small_range, KK_SMALLINT_MIN]; omega
  rw [hq]
  refine ⟨by rw [mul_comm]; omega, e2, ?_⟩
  rcases lt_or_gt_of_ne h0 with h | h
  · rw [abs_of_neg h]; exact e4 h
  · rw [abs_of_pos h]; exact e3 h

/-- The truncating law on the fast paths, wherever the quotient is re-encoded
without wrapping: every small `n` and nonzero small `m`, except
`n = KK_SMALLINT_MIN`, `m = -1` on a builtin build. -/
theorem trunc_law_small {W : Type} (p : Build) (hp : p.supported) (E : Bigint W) (ctx : W)
    (n m : Int) (hn : in_small_range p n) (hm : in_small_range p m) (h0 : m ≠ 0)
    (hx : ¬ (p.KK_USE_BUILTIN_OVF = true ∧ n = KK_SMALLINT_MIN p ∧ m = -1)) :
    ∃ q r : kk_integer_t,
      kk_integer_cdiv p E (kk_integer_from_small p n) (kk_integer_from_small p m) ctx
        = some (q, ctx) ∧
      kk_integer_cmod p E (kk_integer_from_small p n) (kk_integer_from_small p m) ctx
        = some (r, ctx) ∧
      kk_smallint_from_integer p q * m + kk_smallint_from_integer p r = n ∧
      (kk_smallint_from_integer p r = 0 ∨
        Int.sign (kk_smallint_from_integer p r) = Int.sign n) := by
  obtain ⟨d1, d2, _⟩ := cdiv_dispatch p hp E ctx n m hn hm h0
  obtain ⟨t1, t2, t3, t4, t5⟩ := tdiv_tmod_spec n m
  refine ⟨_, _, d1, d2, ?_⟩
  rw [decode_small p hp _ (tmod_in_range p n m hm h0)]
  have hq : kk_smallint_from_integer p (kk_integer_from_small p (Int.tdiv n m))
      = Int.tdiv n m := by
    by_cases hc : n = KK_SMALLINT_MIN p ∧ m = -1
    · obtain ⟨rfl, rfl⟩ := hc
      have hb : p.KK_USE_BUILTIN_OVF = false := by
        cases h : p.KK_USE_BUILTIN_OVF
        · rfl
        · exact absurd ⟨h, rfl, rfl⟩ hx
      have hv : Int.tdiv (KK_SMALLINT_MIN p) (-1) = KK_SMALLINT_MAX p + 1 := by
        rw [Int.tdiv_neg, Int.tdiv_one]; simp only [KK_SMALLINT_MIN]; omega
      rw [hv, decode_max_succ p hp, hb]; rfl
    · refine decode_small p hp _ ?_
      have := tdiv_in_range (KK_SMALLINT_MAX p + 1) n m (two_le_max_succ p hp)
        (by simp only [in_small_range, KK_SMALLINT_MIN] at hn; omega) h0
        (by simp only [KK_SMALLINT_MIN] at hc; intro h; exact hc ⟨by omega, h.2⟩)
      simp only [in_small_range, KK_SMALLINT_MIN]; omega
  rw [hq]
  refine ⟨by rw [mul_comm]; omega, ?_⟩
  by_cases hr : Int.tmod n m = 0
  · exact Or.inl hr
  · right
    rcases lt_trichotomy n 0 with h | h | h
    · have := t3 (by omega)
      rw [Int.sign_eq_neg_one_of_neg h, Int.sign_eq_neg_one_of_neg (by omega)]
    · subst h; simp at hr
    · have := t2 (by omega)
      rw [Int.sign_eq_one_of_pos h, Int.sign_eq_one_of_pos (by omega)]

/-! ## Encoding -/

/-- C1: for every supported build (both strategies) and every integer `n` with
`KK_SMALLINT_MIN ≤ n ≤ KK_SMALLINT_MAX`, decoding the encoded word gives `n`
back, the encoded word read as `kk_intf_t` is `4 * n + 1`, its low two bits
are `01`, and `kk_is_smallint` holds of it. -/
theorem C1_encode_decode (p : Build) (hp : p.supported) (n : Int)
    (hn : KK_SMALLINT_MIN p ≤ n ∧ n ≤ KK_SMALLINT_MAX p) :
    kk_smallint_from_integer p (kk_integer_from_small p n) = n ∧
    _kk_integer_value p (kk_integer_from_small p n) = 4 * n + 1 ∧
    _kk_integer_value p (kk_integer_from_small p n) &&& 3 = 1 ∧
    kk_is_smallint p (kk_integer_from_small p n) = true := by
  have hv := value_from_small p hp n hn
  refine ⟨?_, hv, ?_, ?_⟩
  · rw [kk_smallint_from_integer, hv, kk_sarf, sar_two_eq]; omega
  · rw [hv, and_three_eq]; omega
  · simp only [kk_is_smallint, hv, and_one_eq, bne_iff_ne]; omega

/-- C1 on the 64-bit builtin build at `n = -7`. -/
theorem C1_encode_decode_witness :
    (KK_SMALLINT_MIN ⟨64, true⟩ ≤ -7 ∧ -7 ≤ KK_SMALLINT_MAX ⟨64, true⟩) ∧
    kk_smallint_from_integer ⟨64, true⟩ (kk_integer_from_small ⟨64, true⟩ (-7)) = -7 ∧
    _kk_integer_value ⟨64, true⟩ (kk_integer_from_small ⟨64, true⟩ (-7)) = 4 * -7 + 1 ∧
    _kk_integer_value ⟨64, true⟩ (kk_integer_from_small ⟨64, true⟩ (-7)) &&& 3 = 1 ∧
    kk_is_smallint ⟨64, true⟩ (kk_integer_from_small ⟨64, true⟩ (-7)) = true :=
  ⟨by decide, C1_encode_decode ⟨64, true⟩ (by decide) (-7) (by decide)⟩

/-! ## Addition -/

/-- C2: in every supported build (builtin and portable), for small integers
`n`, `m` whose sum is again in the small range, `kk_integer_add` on their
encodings returns the encoding of `n + m`, the word `4 * (n + m) + 1`, and
leaves the context as it was whatever the collaborator is: no generic entry
point is called (a recording collaborator records nothing). -/
theorem C2_add_fast_path {W : Type} (p : Build) (hp : p.supported) (E : Bigint W) (ctx : W)
    (n m : Int) (hn : in_small_range p n) (hm : in_small_range p m)
    (hs : in_small_range p (n + m)) :
    kk_integer_add p E (kk_integer_from_small p n) (kk_integer_from_small p m) ctx =
      (kk_integer_from_small p (n + m), ctx) ∧
    _kk_integer_value p (kk_integer_from_small p (n + m)) = 4 * (n + m) + 1 ∧
    (kk_integer_add p recorder (kk_integer_from_small p n) (kk_integer_from_small p m) []).2
      = [] := by
  refine ⟨?_, value_from_small p hp _ hs, ?_⟩
  · rw [add_small_small p hp E ctx n m hn hm, if_pos hs, from_small_eq p hp _ hs]
  · rw [add_small_small p hp recorder [] n m hn hm, if_pos hs]

/-- C2 on the 64-bit portable build: `add(encode 3, encode 4) = encode 7`. -/
theorem C2_add_fast_path_witness :
    in_small_range ⟨64, false⟩ 3 ∧ in_small_range ⟨64, false⟩ 4 ∧
    in_small_range ⟨64, false⟩ (3 + 4) ∧
    kk_integer_add ⟨64, false⟩ (exact ⟨64, false⟩) (kk_integer_from_small ⟨64, false⟩ 3)
      (kk_integer_from_small ⟨64, false⟩ 4) [] = (kk_integer_from_small ⟨64, false⟩ 7, []) :=
  ⟨by decide, by decide, by decide,
    (C2_add_fast_path ⟨64, false⟩ (by decide) (exact ⟨64, false⟩) [] 3 4
      (by decide) (by decide) (by decide)).1⟩

/-- C3: in every supported build, for small integers `n`, `m` whose sum is
outside the small range, `kk_integer_add` on their encodings is exactly
`kk_integer_add_generic` on the same two words and the same context: one
forwarding call (a recording collaborator records this call and nothing
else). Hence, if the collaborator's result denotes the sum of what its
operands denote, the result of `kk_integer_add` denotes `n + m`. -/
theorem C3_add_overflow_defers {W : Type} (p : Build) (hp : p.supported) (E : Bigint W)
    (ctx : W) (n m : Int) (hn : in_small_range p n) (hm : in_small_range p m)
    (hs : ¬ in_small_range p (n + m)) :
    kk_integer_add p E (kk_integer_from_small p n) (kk_integer_from_small p m) ctx =
      E.kk_integer_add_generic (kk_integer_from_small p n) (kk_integer_from_small p m) ctx ∧
    (kk_integer_add p recorder (kk_integer_from_small p n) (kk_integer_from_small p m) []).2
      = [Call.add_generic (kk_integer_from_small p n) (kk_integer_from_small p m)] ∧
    ∀ den : W → kk_integer_t → Int,
      den ctx (kk_integer_from_small p n) = n → den ctx (kk_integer_from_small p m) = m →
      den (E.kk_integer_add_generic (kk_integer_from_small p n)
            (kk_integer_from_small p m) ctx).2
          (E.kk_integer_add_generic (kk_integer_from_small p n)
            (kk_integer_from_small p m) ctx).1
        = den ctx (kk_integer_from_small p n) + den ctx (kk_integer_from_small p m) →
      den (kk_integer_add p E (kk_integer_from_small p n) (kk_integer_from_small p m) ctx).2
          (kk_integer_add p E (kk_integer_from_small p n) (kk_integer_from_small p m) ctx).1
        = n + m := by
  have h := add_small_small p hp E ctx n m hn hm
  rw [if_neg hs] at h
  refine ⟨h, ?_, ?_⟩
  · rw [add_small_small p hp recorder [] n m hn hm, if_neg hs]; rfl
  · intro den h1 h2 h3
    rw [h, h3, h1, h2]

/-- C3 on the 64-bit builtin build: `add(encode MAX, encode 1)` is forwarded,
and with the exact collaborator the result denotes `MAX + 1`. -/
theorem C3_add_overflow_defers_witness :
    in_small_range ⟨64, true⟩ (KK_SMALLINT_MAX ⟨64, true⟩) ∧ in_small_range ⟨64, true⟩ 1 ∧
    ¬ in_small_range ⟨64, true⟩ (KK_SMALLINT_MAX ⟨64, true⟩ + 1) ∧
    denote ⟨64, true⟩
      (kk_integer_add ⟨64, true⟩ (exact ⟨64, true⟩)
        (kk_integer_from_small ⟨64, true⟩ (KK_SMALLINT_MAX ⟨64, true⟩))
        (kk_integer_from_small ⟨64, true⟩ 1) []).2
      (kk_integer_add ⟨64, true⟩ (exact ⟨64, true⟩)
        (kk_integer_from_small ⟨64, true⟩ (KK_SMALLINT_MAX ⟨64, true⟩))
        (kk_integer_from_small ⟨64, true⟩ 1) []).1
      = KK_SMALLINT_MAX ⟨64, true⟩ + 1 :=
  ⟨by decide, by decide, by decide,
    (C3_add_overflow_defers ⟨64, true⟩ (by decide) (exact ⟨64, true⟩) []
      (KK_SMALLINT_MAX ⟨64, true⟩) 1 (by decide) (by decide) (by decide)).2.2
      (denote ⟨64, true⟩) (by decide) (by decide) (by decide)⟩

/-- C4: in every supported build, for operand words `x`, `y` that are each
either tagged as a small integer (low two bits `01`) or an aligned pointer
(low two bits `00`): if at least one is a pointer, `kk_integer_add` and
`kk_integer_sub` are exactly the generic entry point on `x`, `y` and the
context; and conversely, when no generic call is made (the recording
collaborator records nothing) both operands are small integers and the word
returned has low two bits `01`. -/
theorem C4_reference_never_fast {W : Type} (p : Build) (hp : p.supported) (E : Bigint W)
    (ctx : W) (x y : kk_integer_t)
    (hx : is_inline_word p x ∨ is_pointer_word p x)
    (hy : is_inline_word p y ∨ is_pointer_word p y) :
    (is_pointer_word p x ∨ is_pointer_word p y →
      kk_integer_add p E x y ctx = E.kk_integer_add_generic x y ctx ∧
      kk_integer_sub p E x y ctx = E.kk_integer_sub_generic x y ctx) ∧
    ((kk_integer_add p recorder x y []).2 = [] →
      is_inline_word p x ∧ is_inline_word p y ∧
      is_inline_word p (kk_integer_add p recorder x y []).1) ∧
    ((kk_integer_sub p recorder x y []).2 = [] →
      is_inline_word p x ∧ is_inline_word p y ∧
      is_inline_word p (kk_integer_sub p recorder x y []).1) := by
  simp only [is_inline_word, is_pointer_word, and_three_eq] at hx hy ⊢
  refine ⟨fun h => ⟨add_pointer_defers p hp E ctx x y hx hy h,
    sub_pointer_defers p hp E ctx x y hx hy h⟩, ?_, ?_⟩
  · intro hlog
    by_cases h : _kk_integer_value p x % 4 = 0 ∨ _kk_integer_value p y % 4 = 0
    · rw [add_pointer_defers p hp recorder [] x y hx hy h] at hlog
      simp [recorder] at hlog
    · have h1 : _kk_integer_value p x % 4 = 1 := by tauto
      have h2 : _kk_integer_value p y % 4 = 1 := by tauto
      refine ⟨h1, h2, ?_⟩
      rcases add_fast_result_tag p hp recorder [] x y h1 h2 with e | e
      · rw [e] at hlog; simp [recorder] at hlog
      · exact e
  · intro hlog
    by_cases h : _kk_integer_value p x % 4 = 0 ∨ _kk_integer_value p y % 4 = 0
    · rw [sub_pointer_defers p hp recorder [] x y hx hy h] at hlog
      simp [recorder] at hlog
    · have h1 : _kk_integer_value p x % 4 = 1 := by tauto
      have h2 : _kk_integer_value p y % 4 = 1 := by tauto
      refine ⟨h1, h2, ?_⟩
      rcases sub_fast_result_tag p hp recorder [] x y h1 h2 with e | e
      · rw [e] at hlog; simp [recorder] at hlog
      · exact e

/-- C4 on the 64-bit portable build: the small integer 5 (word 21) added to
or subtracted from the pointer word 4096 is forwarded unchanged. -/
theorem C4_reference_never_fast_witness :
    (is_inline_word ⟨64, false⟩ ⟨21⟩ ∨ is_pointer_word ⟨64, false⟩ ⟨21⟩) ∧
    (is_inline_word ⟨64, false⟩ ⟨4096⟩ ∨ is_pointer_word ⟨64, false⟩ ⟨4096⟩) ∧
    (is_pointer_word ⟨64, false⟩ ⟨21⟩ ∨ is_pointer_word ⟨64, false⟩ ⟨4096⟩) ∧
    kk_integer_add ⟨64, false⟩ recorder ⟨21⟩ ⟨4096⟩ [] = (⟨0⟩, [Call.add_generic ⟨21⟩ ⟨4096⟩]) ∧
    kk_integer_sub ⟨64, false⟩ recorder ⟨21⟩ ⟨4096⟩ [] = (⟨0⟩, [Call.sub_generic ⟨21⟩ ⟨4096⟩]) :=
  ⟨Or.inl (by decide), Or.inr (by decide), Or.inr (by decide),
    ((C4_reference_never_fast ⟨64, false⟩ (by decide) recorder [] ⟨21⟩ ⟨4096⟩
      (Or.inl (by decide)) (Or.inr (by decide))).1 (Or.inr (by decide)))⟩

/-! ## Subtraction -/

/-- C5: in every supported build, for small integers `n`, `m`:
if `n - m` is in the small range, `kk_integer_sub` on their encodings returns
the encoding of `n - m`, which is the raw value `(x ^ 3) - y`, and leaves the
context alone; otherwise it is exactly `kk_integer_sub_generic` on the two
operand words. With the recording collaborator, no call is recorded if and
only if `n - m` is in the small range. -/
theorem C5_sub_fast_iff_in_range {W : Type} (p : Build) (hp : p.supported) (E : Bigint W)
    (ctx : W) (n m : Int) (hn : in_small_range p n) (hm : in_small_range p m) :
    (in_small_range p (n - m) →
      kk_integer_sub p E (kk_integer_from_small p n) (kk_integer_from_small p m) ctx =
        (kk_integer_from_small p (n - m), ctx) ∧
      _kk_integer_value p (kk_integer_from_small p (n - m)) =
        (_kk_integer_value p (kk_integer_from_small p n) ^^^ 3)
          - _kk_integer_value p (kk_integer_from_small p m)) ∧
    (¬ in_small_range p (n - m) →
      kk_integer_sub p E (kk_integer_from_small p n) (kk_integer_from_small p m) ctx =
        E.kk_integer_sub_generic (kk_integer_from_small p n) (kk_integer_from_small p m) ctx) ∧
    ((kk_integer_sub p recorder (kk_integer_from_small p n) (kk_integer_from_small p m) []).2
        = [] ↔ in_small_range p (n - m)) := by
  have h := sub_small_small p hp E ctx n m hn hm
  have hr := sub_small_small p hp recorder [] n m hn hm
  refine ⟨fun hs => ⟨?_, ?_⟩, fun hs => ?_, ?_⟩
  · rw [h, if_pos hs, from_small_eq p hp _ hs]
  · rw [value_from_small p hp _ hs, value_from_small p hp n hn, value_from_small p hp m hm,
      xor_three_eq]
    omega
  · rw [h, if_neg hs]
  · by_cases hs : in_small_range p (n - m)
    · rw [hr, if_pos hs]; simp [hs]
    · rw [hr, if_neg hs]; simp [hs, recorder]

/-- C5 on the 64-bit builtin build at `n = 3`, `m = 10`: the fast path
returns the encoding of `-7`. -/
theorem C5_sub_fast_iff_in_range_witness :
    in_small_range ⟨64, true⟩ 3 ∧ in_small_range ⟨64, true⟩ 10 ∧
    in_small_range ⟨64, true⟩ (3 - 10) ∧
    kk_integer_sub ⟨64, true⟩ recorder (kk_integer_from_small ⟨64, true⟩ 3)
      (kk_integer_from_small ⟨64, true⟩ 10) [] = (kk_integer_from_small ⟨64, true⟩ (3 - 10), []) :=
  ⟨by decide, by decide, by decide,
    ((C5_sub_fast_iff_in_range ⟨64, true⟩ (by decide) recorder [] 3 10
      (by decide) (by decide)).1 (by decide)).1⟩

/-! ## Multiplication -/

/-- C6: in every supported build, `kk_integer_mul` on the encodings of small
integers `n`, `m` returns the encoding of `n * m` (context untouched) when the
product is in the small range and is exactly `kk_integer_mul_generic` on the
two operand words when it is not; and for any operand words `x`, `y` of which
at least one is a reference (`kk_is_bigint`), it is exactly
`kk_integer_mul_generic` on `x`, `y`. -/
theorem C6_mul_dispatch {W : Type} (p : Build) (hp : p.supported) (E : Bigint W) (ctx : W)
    (n m : Int) (hn : in_small_range p n) (hm : in_small_range p m)
    (x y : kk_integer_t) (hxy : kk_is_bigint p x = true ∨ kk_is_bigint p y = true) :
    (in_small_range p (n * m) →
      kk_integer_mul p E (kk_integer_from_small p n) (kk_integer_from_small p m) ctx =
        (kk_integer_from_small p (n * m), ctx)) ∧
    (¬ in_small_range p (n * m) →
      kk_integer_mul p E (kk_integer_from_small p n) (kk_integer_from_small p m) ctx =
        E.kk_integer_mul_generic (kk_integer_from_small p n) (kk_integer_from_small p m) ctx) ∧
    kk_integer_mul p E x y ctx = E.kk_integer_mul_generic x y ctx := by
  have h := mul_small_small p hp E ctx n m hn hm
  refine ⟨fun hs => ?_, fun hs => ?_, ?_⟩
  · rw [h, if_pos hs, from_small_eq p hp _ hs]
  · rw [h, if_neg hs]
  · simp [kk_integer_mul, are_smallints_bigint p x y hxy]

/-- C6 on the 64-bit portable build: `mul(encode (-6), encode 7) = encode (-42)`,
and a product with the pointer word 4096 is forwarded. -/
theorem C6_mul_dispatch_witness :
    in_small_range ⟨64, false⟩ (-6) ∧ in_small_range ⟨64, false⟩ 7 ∧
    (kk_is_bigint ⟨64, false⟩ ⟨21⟩ = true ∨ kk_is_bigint ⟨64, false⟩ ⟨4096⟩ = true) ∧
    in_small_range ⟨64, false⟩ (-6 * 7) ∧
    kk_integer_mul ⟨64, false⟩ recorder (kk_integer_from_small ⟨64, false⟩ (-6))
      (kk_integer_from_small ⟨64, false⟩ 7) [] = (kk_integer_from_small ⟨64, false⟩ (-6 * 7), []) ∧
    kk_integer_mul ⟨64, false⟩ recorder ⟨21⟩ ⟨4096⟩ [] =
      recorder.kk_integer_mul_generic ⟨21⟩ ⟨4096⟩ [] :=
  ⟨by decide, by decide, Or.inr (by decide), by decide,
    (C6_mul_dispatch ⟨64, false⟩ (by decide) recorder [] (-6) 7 (by decide) (by decide)
      ⟨21⟩ ⟨4096⟩ (Or.inr (by decide))).1 (by decide),
    (C6_mul_dispatch ⟨64, false⟩ (by decide) recorder [] (-6) 7 (by decide) (by decide)
      ⟨21⟩ ⟨4096⟩ (Or.inr (by decide))).2.2⟩

/-! ## Division and modulus -/

/-- C7 (the code at its failing input): on the 64-bit builtin build, for
`n = KK_SMALLINT_MIN` and `m = -1`, `kk_integer_div` returns the encoding of
`KK_SMALLINT_MIN` (the quotient `KK_SMALLINT_MAX + 1` wraps in the
re-encoding shift) and `kk_integer_mod` returns the encoding of `0`, so the
decoded results have `q * m + r = -KK_SMALLINT_MIN`, not `n`: the Euclidean
law `q * m + r = n` fails there. Elsewhere it holds (`euclid_law_small`). -/
theorem C7_euclid_law_fails_at_min {W : Type} (E : Bigint W) (ctx : W) :
    kk_integer_div ⟨64, true⟩ E (kk_integer_from_small ⟨64, true⟩ (KK_SMALLINT_MIN ⟨64, true⟩))
        (kk_integer_from_small ⟨64, true⟩ (-1)) ctx
      = some (kk_integer_from_small ⟨64, true⟩ (KK_SMALLINT_MIN ⟨64, true⟩), ctx) ∧
    kk_integer_mod ⟨64, true⟩ E (kk_integer_from_small ⟨64, true⟩ (KK_SMALLINT_MIN ⟨64, true⟩))
        (kk_integer_from_small ⟨64, true⟩ (-1)) ctx
      = some (kk_integer_from_small ⟨64, true⟩ 0, ctx) ∧
    kk_smallint_from_integer ⟨64, true⟩
        (kk_integer_from_small ⟨64, true⟩ (KK_SMALLINT_MIN ⟨64, true⟩)) * (-1)
      + kk_smallint_from_integer ⟨64, true⟩ (kk_integer_from_small ⟨64, true⟩ 0)
      ≠ KK_SMALLINT_MIN ⟨64, true⟩ := by
  have hp : (⟨64, true⟩ : Build).supported := by decide
  have hmin : KK_SMALLINT_MIN ⟨64, true⟩ = -2305843009213693952 := by decide
  obtain ⟨d1, d2, _⟩ := div_dispatch ⟨64, true⟩ hp E ctx (KK_SMALLINT_MIN ⟨64, true⟩) (-1)
    (by decide) (by decide)
  have hw : kk_integer_from_small ⟨64, true⟩ (KK_SMALLINT_MIN ⟨64, true⟩ / -1)
      = kk_integer_from_small ⟨64, true⟩ (KK_SMALLINT_MIN ⟨64, true⟩) := by
    rw [hmin]
    simp [kk_integer_from_small, kk_shlf, to_intf, to_signed]
  have hr : KK_SMALLINT_MIN ⟨64, true⟩ % -1 = 0 := by rw [hmin]; decide
  rw [hw] at d1
  rw [hr] at d2
  refine ⟨d1, d2, ?_⟩
  rw [decode_small ⟨64, true⟩ hp _ (by decide), decode_small ⟨64, true⟩ hp 0 (by decide), hmin]
  decide

/-- C8 (the code at its failing input): on the 64-bit builtin build, for
`n = KK_SMALLINT_MIN` and `m = -1`, `kk_integer_cdiv` returns the encoding of
`KK_SMALLINT_MIN` (the quotient `KK_SMALLINT_MAX + 1` wraps in the
re-encoding shift) and `kk_integer_cmod` returns the encoding of `0`, so the
decoded results have `q * m + r = -KK_SMALLINT_MIN`, not `n`: the truncating
law `q * m + r = n` fails there. Elsewhere it holds (`trunc_law_small`). -/
theorem C8_trunc_law_fails_at_min {W : Type} (E : Bigint W) (ctx : W) :
    kk_integer_cdiv ⟨64, true⟩ E (kk_integer_from_small ⟨64, true⟩ (KK_SMALLINT_MIN ⟨64, true⟩))
        (kk_integer_from_small ⟨64, true⟩ (-1)) ctx
      = some (kk_integer_from_small ⟨64, true⟩ (KK_SMALLINT_MIN ⟨64, true⟩), ctx) ∧
    kk_integer_cmod ⟨64, true⟩ E (kk_integer_from_small ⟨64, true⟩ (KK_SMALLINT_MIN ⟨64, true⟩))
        (kk_integer_from_small ⟨64, true⟩ (-1)) ctx
      = some (kk_integer_from_small ⟨64, true⟩ 0, ctx) ∧
    kk_smallint_from_integer ⟨64, true⟩
        (kk_integer_from_small ⟨64, true⟩ (KK_SMALLINT_MIN ⟨64, true⟩)) * (-1)
      + kk_smallint_from_integer ⟨64, true⟩ (kk_integer_from_small ⟨64, true⟩ 0)
      ≠ KK_SMALLINT_MIN ⟨64, true⟩ := by
  have hp : (⟨64, true⟩ : Build).supported := by decide
  have hmin : KK_SMALLINT_MIN ⟨64, true⟩ = -2305843009213693952 := by decide
  obtain ⟨d1, d2, _⟩ := cdiv_dispatch ⟨64, true⟩ hp E ctx (KK_SMALLINT_MIN ⟨64, true⟩) (-1)
    (by decide) (by decide) (by decide)
  have hw : kk_integer_from_small ⟨64, true⟩ (Int.tdiv (KK_SMALLINT_MIN ⟨64, true⟩) (-1))
      = kk_integer_from_small ⟨64, true⟩ (KK_SMALLINT_MIN ⟨64, true⟩) := by
    rw [hmin, Int.tdiv_neg, Int.tdiv_one]
    simp [kk_integer_from_small, kk_shlf, to_intf, to_signed]
  have hr : Int.tmod (KK_SMALLINT_MIN ⟨64, true⟩) (-1) = 0 := by rw [hmin]; decide
  rw [hw] at d1
  rw [hr] at d2
  refine ⟨d1, d2, ?_⟩
  rw [decode_small ⟨64, true⟩ hp _ (by decide), decode_small ⟨64, true⟩ hp 0 (by decide), hmin]
  decide

/-- C9 (the code at its failing input): on the 64-bit builds, for `n = 7` and
`m = 3`, `kk_integer_cdiv_cmod` returns the quotient word of
`kk_integer_cdiv` (the encoding of `2`) but stores through `mod` the encoding
of `2`, twice the remainder, where `kk_integer_cmod` returns the encoding of
`1`; the stored pair has `q * m + r = 8`, not `7`. -/
theorem C9_cdiv_cmod_remainder_doubled {W : Type} (E : Bigint W) (ctx : W) (b : Bool) :
    kk_integer_cdiv_cmod ⟨64, b⟩ E (kk_integer_from_small ⟨64, b⟩ 7)
        (kk_integer_from_small ⟨64, b⟩ 3) ctx
      = some ((kk_integer_from_small ⟨64, b⟩ 2, kk_integer_from_small ⟨64, b⟩ 2), ctx) ∧
    kk_integer_cdiv ⟨64, b⟩ E (kk_integer_from_small ⟨64, b⟩ 7)
        (kk_integer_from_small ⟨64, b⟩ 3) ctx
      = some (kk_integer_from_small ⟨64, b⟩ 2, ctx) ∧
    kk_integer_cmod ⟨64, b⟩ E (kk_integer_from_small ⟨64, b⟩ 7)
        (kk_integer_from_small ⟨64, b⟩ 3) ctx
      = some (kk_integer_from_small ⟨64, b⟩ 1, ctx) ∧
    kk_integer_from_small ⟨64, b⟩ 2 ≠ kk_integer_from_small ⟨64, b⟩ 1 ∧
    kk_smallint_from_integer ⟨64, b⟩ (kk_integer_from_small ⟨64, b⟩ 2) * 3
      + kk_smallint_from_integer ⟨64, b⟩ (kk_integer_from_small ⟨64, b⟩ 2) = 8 := by
  have hp : (⟨64, b⟩ : Build).supported := by cases b <;> decide
  have h7 : in_small_range ⟨64, b⟩ 7 := by cases b <;> decide
  have h3 : in_small_range ⟨64, b⟩ 3 := by cases b <;> decide
  have h2 : in_small_range ⟨64, b⟩ 2 := by cases b <;> decide
  obtain ⟨d1, d2, d3⟩ := cdiv_dispatch ⟨64, b⟩ hp E ctx 7 3 h7 h3 (by decide)
  have hq : Int.tdiv 7 3 = 2 := by decide
  have hr : Int.tmod 7 3 = 1 := by decide
  rw [hq] at d1
  rw [hr] at d2
  rw [hq, hr] at d3
  refine ⟨d3, d1, d2, ?_, ?_⟩
  · cases b <;> decide
  · rw [decode_small ⟨64, b⟩ hp 2 h2]; decide

/-- C10: in every supported build, for small integers `n`, `m` (the divisor
may be zero), `kk_integer_div_mod` on their encodings returns the quotient
word of `kk_integer_div` and stores through `mod` the word returned by
`kk_integer_mod`, the context untouched; both words are built from the
adjusted pair `d = n / m`, `r = n % m` (Euclidean division), which for a
nonzero divisor satisfies `d * m + r = n` and `0 ≤ r`. -/
theorem C10_div_mod_agrees {W : Type} (p : Build) (hp : p.supported) (E : Bigint W) (ctx : W)
    (n m : Int) (hn : in_small_range p n) (hm : in_small_range p m) :
    kk_integer_div_mod p E (kk_integer_from_small p n) (kk_integer_from_small p m) ctx =
      some ((_kk_new_integer p (kk_shlp p (n / m) 2 ||| 1),
        _kk_new_integer p (kk_shlp p (n % m) 2 ||| 1)), ctx) ∧
    kk_integer_div p E (kk_integer_from_small p n) (kk_integer_from_small p m) ctx =
      some (_kk_new_integer p (kk_shlp p (n / m) 2 ||| 1), ctx) ∧
    kk_integer_mod p E (kk_integer_from_small p n) (kk_integer_from_small p m) ctx =
      some (_kk_new_integer p (kk_shlp p (n % m) 2 ||| 1), ctx) ∧
    (m ≠ 0 → n / m * m + n % m = n ∧ 0 ≤ n % m) := by
  obtain ⟨d1, d2, d3⟩ := div_dispatch p hp E ctx n m hn hm
  refine ⟨d3, d1, d2, fun h0 => ?_⟩
  obtain ⟨e1, e2, _, _⟩ := ediv_emod_spec n m h0
  exact ⟨by rw [mul_comm]; omega, e2⟩

/-- C10 on the 64-bit portable build at `n = -7`, `m = 3`: quotient `-3`,
remainder `2`, from the combined and from the separate operations. -/
theorem C10_div_mod_agrees_witness :
    in_small_range ⟨64, false⟩ (-7) ∧ in_small_range ⟨64, false⟩ 3 ∧
    kk_integer_div_mod ⟨64, false⟩ recorder (kk_integer_from_small ⟨64, false⟩ (-7))
        (kk_integer_from_small ⟨64, false⟩ 3) [] =
      some ((_kk_new_integer ⟨64, false⟩ (kk_shlp ⟨64, false⟩ (-7 / 3) 2 ||| 1),
        _kk_new_integer ⟨64, false⟩ (kk_shlp ⟨64, false⟩ (-7 % 3) 2 ||| 1)), []) ∧
    kk_integer_div ⟨64, false⟩ recorder (kk_integer_from_small ⟨64, false⟩ (-7))
        (kk_integer_from_small ⟨64, false⟩ 3) [] =
      some (_kk_new_integer ⟨64, false⟩ (kk_shlp ⟨64, false⟩ (-7 / 3) 2 ||| 1), []) ∧
    kk_integer_mod ⟨64, false⟩ recorder (kk_integer_from_small ⟨64, false⟩ (-7))
        (kk_integer_from_small ⟨64, false⟩ 3) [] =
      some (_kk_new_integer ⟨64, false⟩ (kk_shlp ⟨64, false⟩ (-7 % 3) 2 ||| 1), []) ∧
    ((3 : Int) ≠ 0 → -7 / 3 * 3 + -7 % 3 = (-7 : Int) ∧ (0 : Int) ≤ -7 % 3) :=
  ⟨by decide, by decide,
    C10_div_mod_agrees ⟨64, false⟩ (by decide) recorder [] (-7) 3 (by decide) (by decide)⟩

/-! ## Zero divisors and the range of quotients -/

theorem small_literals (p : Build) (hp : p.supported) :
    in_small_range p 0 ∧ in_small_range p 1 ∧ in_small_range p (-1) ∧
    in_small_range p (KK_SMALLINT_MIN p) ∧ in_small_range p (KK_SMALLINT_MAX p) := by
  rcases supported_cases p hp with h | h | h | h | h | h | h | h <;> subst h <;> decide

/-- C11: in every supported build, for every small integer `n`, Euclidean
division of its encoding by the encoding of zero returns the encoding of
zero: `kk_integer_div` gives `encode 0`, and `kk_integer_div_mod` gives the
quotient `encode 0` (storing the dividend through `mod`). The result exists
(no native division by zero is executed) and the context is returned
untouched for every collaborator (no generic call; the recording collaborator
records nothing). -/
theorem C11_div_by_zero_is_zero {W : Type} (p : Build) (hp : p.supported) (E : Bigint W)
    (ctx : W) (n : Int) (hn : in_small_range p n) :
    kk_integer_div p E (kk_integer_from_small p n) (kk_integer_from_small p 0) ctx =
      some (kk_integer_from_small p 0, ctx) ∧
    kk_integer_div_mod p E (kk_integer_from_small p n) (kk_integer_from_small p 0) ctx =
      some ((kk_integer_from_small p 0, kk_integer_from_small p n), ctx) ∧
    kk_integer_div p recorder (kk_integer_from_small p n) (kk_integer_from_small p 0) [] =
      some (kk_integer_from_small p 0, []) ∧
    kk_integer_div_mod p recorder (kk_integer_from_small p n) (kk_integer_from_small p 0) [] =
      some ((kk_integer_from_small p 0, kk_integer_from_small p n), []) := by
  have h0 := (small_literals p hp).1
  obtain ⟨d1, _, d3⟩ := div_dispatch p hp E ctx n 0 hn h0
  obtain ⟨r1, _, r3⟩ := div_dispatch p hp recorder [] n 0 hn h0
  rw [Int.ediv_zero] at d1 d3 r1 r3
  rw [Int.emod_zero] at d3 r3
  exact ⟨d1, d3, r1, r3⟩

/-- C11 on the 64-bit builtin build: `div(encode 7, encode 0) = encode 0`. -/
theorem C11_div_by_zero_is_zero_witness :
    in_small_range ⟨64, true⟩ 7 ∧
    kk_integer_div ⟨64, true⟩ recorder (kk_integer_from_small ⟨64, true⟩ 7)
      (kk_integer_from_small ⟨64, true⟩ 0) [] = some (kk_integer_from_small ⟨64, true⟩ 0, []) :=
  ⟨by decide, (C11_div_by_zero_is_zero ⟨64, true⟩ (by decide) recorder [] 7 (by decide)).1⟩

/-- C12 as stated fails: on the 64-bit builtin build
`kk_integer_mod(encode 7, encode 0)` is the encoding of `7`, not of `0`. -/
theorem C12_mod_by_zero_not_zero :
    kk_integer_mod ⟨64, true⟩ recorder (kk_integer_from_small ⟨64, true⟩ 7)
        (kk_integer_from_small ⟨64, true⟩ 0) []
      = some (kk_integer_from_small ⟨64, true⟩ 7, []) ∧
    kk_integer_mod ⟨64, true⟩ recorder (kk_integer_from_small ⟨64, true⟩ 7)
        (kk_integer_from_small ⟨64, true⟩ 0) []
      ≠ some (kk_integer_from_small ⟨64, true⟩ 0, []) := by
  have h := (div_dispatch ⟨64, true⟩ (by decide) recorder [] 7 0 (by decide) (by decide)).2.1
  rw [Int.emod_zero] at h
  refine ⟨h, ?_⟩
  rw [h]
  decide

/-- C12 (amended): in every supported build, for every small integer `n`,
Euclidean modulo of its encoding by the encoding of zero returns the
dividend: `kk_integer_mod(encode n, encode 0) = encode n`, with the context
untouched for every collaborator (no generic call). -/
theorem C12_mod_by_zero_is_dividend {W : Type} (p : Build) (hp : p.supported) (E : Bigint W)
    (ctx : W) (n : Int) (hn : in_small_range p n) :
    kk_integer_mod p E (kk_integer_from_small p n) (kk_integer_from_small p 0) ctx =
      some (kk_integer_from_small p n, ctx) := by
  have h := (div_dispatch p hp E ctx n 0 hn (small_literals p hp).1).2.1
  rwa [Int.emod_zero] at h

/-- C12 (amended) on the 64-bit portable build at `n = -7`. -/
theorem C12_mod_by_zero_is_dividend_witness :
    in_small_range ⟨64, false⟩ (-7) ∧
    kk_integer_mod ⟨64, false⟩ recorder (kk_integer_from_small ⟨64, false⟩ (-7))
      (kk_integer_from_small ⟨64, false⟩ 0) [] =
      some (kk_integer_from_small ⟨64, false⟩ (-7), []) :=
  ⟨by decide, C12_mod_by_zero_is_dividend ⟨64, false⟩ (by decide) recorder [] (-7) (by decide)⟩

/-- The quotient words of the four division operations are well-formed
small integers, except for `KK_SMALLINT_MIN / -1`. -/
theorem quotient_well_formed {W : Type} (p : Build) (hp : p.supported) (B : Blocks W) (w : W)
    (n m : Int) (hn : in_small_range p n) (h0 : m ≠ 0)
    (hx : ¬ (n = KK_SMALLINT_MIN p ∧ m = -1)) :
    kk_is_integer p B w (kk_integer_from_small p (n / m)) = true ∧
    kk_is_integer p B w (kk_integer_from_small p (Int.tdiv n m)) = true := by
  have key : ∀ k, in_small_range p k → kk_is_integer p B w (kk_integer_from_small p k) = true := by
    intro k hk
    have hv := value_from_small p hp k hk
    have hd := decode_small p hp k hk
    have hs : kk_is_smallint p (kk_integer_from_small p k) = true := by
      simp only [kk_is_smallint, hv, and_one_eq, bne_iff_ne]; omega
    simp only [in_small_range] at hk
    simp [kk_is_integer, hs, hd, hk.1, hk.2]
  have hw : -(KK_SMALLINT_MAX p + 1) ≤ n ∧ n ≤ KK_SMALLINT_MAX p + 1 - 1 := by
    simp only [in_small_range, KK_SMALLINT_MIN] at hn; omega
  have hx' : ¬ (n = -(KK_SMALLINT_MAX p + 1) ∧ m = -1) := by
    simp only [KK_SMALLINT_MIN] at hx; intro h; exact hx ⟨by omega, h.2⟩
  have h1 := ediv_in_range (KK_SMALLINT_MAX p + 1) n m (two_le_max_succ p hp) hw h0 hx'
  have h2 := tdiv_in_range (KK_SMALLINT_MAX p + 1) n m (two_le_max_succ p hp) hw h0 hx'
  exact ⟨key _ (by simp only [in_small_range, KK_SMALLINT_MIN]; omega),
    key _ (by simp only [in_small_range, KK_SMALLINT_MIN]; omega)⟩

/-- C13 (the code at its failing input): for `n = KK_SMALLINT_MIN`, `m = -1`
the quotient `KK_SMALLINT_MAX + 1` is not a small integer. On the 64-bit
portable build `kk_integer_div`, `kk_integer_cdiv`, `kk_integer_div_mod` and
`kk_integer_cdiv_cmod` all return the word that decodes to
`KK_SMALLINT_MAX + 1`, of which `kk_is_integer` is false; on the 64-bit
builtin build the re-encoding shift wraps and they all return the encoding of
`KK_SMALLINT_MIN`. -/
theorem C13_quotient_out_of_range_at_min {W : Type} (E : Bigint W) (B : Blocks W) (ctx : W) :
    (kk_integer_div ⟨64, false⟩ E (kk_integer_from_small ⟨64, false⟩ (KK_SMALLINT_MIN ⟨64, false⟩))
        (kk_integer_from_small ⟨64, false⟩ (-1)) ctx
      = some (kk_integer_from_small ⟨64, false⟩ (KK_SMALLINT_MAX ⟨64, false⟩ + 1), ctx) ∧
    kk_integer_cdiv ⟨64, false⟩ E (kk_integer_from_small ⟨64, false⟩ (KK_SMALLINT_MIN ⟨64, false⟩))
        (kk_integer_from_small ⟨64, false⟩ (-1)) ctx
      = some (kk_integer_from_small ⟨64, false⟩ (KK_SMALLINT_MAX ⟨64, false⟩ + 1), ctx) ∧
    (kk_integer_div_mod ⟨64, false⟩ E
        (kk_integer_from_small ⟨64, false⟩ (KK_SMALLINT_MIN ⟨64, false⟩))
        (kk_integer_from_small ⟨64, false⟩ (-1)) ctx).map (fun r => r.1.1)
      = some (kk_integer_from_small ⟨64, false⟩ (KK_SMALLINT_MAX ⟨64, false⟩ + 1)) ∧
    (kk_integer_cdiv_cmod ⟨64, false⟩ E
        (kk_integer_from_small ⟨64, false⟩ (KK_SMALLINT_MIN ⟨64, false⟩))
        (kk_integer_from_small ⟨64, false⟩ (-1)) ctx).map (fun r => r.1.1)
      = some (kk_integer_from_small ⟨64, false⟩ (KK_SMALLINT_MAX ⟨64, false⟩ + 1)) ∧
    kk_smallint_from_integer ⟨64, false⟩
        (kk_integer_from_small ⟨64, false⟩ (KK_SMALLINT_MAX ⟨64, false⟩ + 1))
      = KK_SMALLINT_MAX ⟨64, false⟩ + 1 ∧
    kk_is_integer ⟨64, false⟩ B ctx
        (kk_integer_from_small ⟨64, false⟩ (KK_SMALLINT_MAX ⟨64, false⟩ + 1)) = false) ∧
    (kk_integer_div ⟨64, true⟩ E (kk_integer_from_small ⟨64, true⟩ (KK_SMALLINT_MIN ⟨64, true⟩))
        (kk_integer_from_small ⟨64, true⟩ (-1)) ctx
      = some (kk_integer_from_small ⟨64, true⟩ (KK_SMALLINT_MIN ⟨64, true⟩), ctx) ∧
    kk_integer_cdiv ⟨64, true⟩ E (kk_integer_from_small ⟨64, true⟩ (KK_SMALLINT_MIN ⟨64, true⟩))
        (kk_integer_from_small ⟨64, true⟩ (-1)) ctx
      = some (kk_integer_from_small ⟨64, true⟩ (KK_SMALLINT_MIN ⟨64, true⟩), ctx) ∧
    (kk_integer_div_mod ⟨64, true⟩ E
        (kk_integer_from_small ⟨64, true⟩ (KK_SMALLINT_MIN ⟨64, true⟩))
        (kk_integer_from_small ⟨64, true⟩ (-1)) ctx).map (fun r => r.1.1)
      = some (kk_integer_from_small ⟨64, true⟩ (KK_SMALLINT_MIN ⟨64, true⟩)) ∧
    (kk_integer_cdiv_cmod ⟨64, true⟩ E
        (kk_integer_from_small ⟨64, true⟩ (KK_SMALLINT_MIN ⟨64, true⟩))
        (kk_integer_from_small ⟨64, true⟩ (-1)) ctx).map (fun r => r.1.1)
      = some (kk_integer_from_small ⟨64, true⟩ (KK_SMALLINT_MIN ⟨64, true⟩)) ∧
    Int.tdiv (KK_SMALLINT_MIN ⟨64, true⟩) (-1) = KK_SMALLINT_MAX ⟨64, true⟩ + 1 ∧
    KK_SMALLINT_MIN ⟨64, true⟩ / -1 = KK_SMALLINT_MAX ⟨64, true⟩ + 1) := by
  have hq : ∀ b : Bool, KK_SMALLINT_MIN ⟨64, b⟩ / -1 = KK_SMALLINT_MAX ⟨64, b⟩ + 1 := by
    intro b; simp only [KK_SMALLINT_MIN]; omega
  have ht : ∀ b : Bool, Int.tdiv (KK_SMALLINT_MIN ⟨64, b⟩) (-1) = KK_SMALLINT_MAX ⟨64, b⟩ + 1 := by
    intro b; rw [Int.tdiv_neg, Int.tdiv_one]; simp only [KK_SMALLINT_MIN]; omega
  have hwrap : kk_integer_from_small ⟨64, true⟩ (KK_SMALLINT_MAX ⟨64, true⟩ + 1)
      = kk_integer_from_small ⟨64, true⟩ (KK_SMALLINT_MIN ⟨64, true⟩) := by
    have hmax : KK_SMALLINT_MAX ⟨64, true⟩ = 2305843009213693951 := by decide
    simp [kk_integer_from_small, kk_shlf, to_intf, to_signed, KK_SMALLINT_MIN, hmax]
  constructor
  · have hp : (⟨64, false⟩ : Build).supported := by decide
    obtain ⟨d1, _, d3⟩ := div_dispatch ⟨64, false⟩ hp E ctx (KK_SMALLINT_MIN ⟨64, false⟩) (-1)
      (by decide) (by decide)
    obtain ⟨c1, _, c3⟩ := cdiv_dispatch ⟨64, false⟩ hp E ctx (KK_SMALLINT_MIN ⟨64, false⟩) (-1)
      (by decide) (by decide) (by decide)
    rw [hq] at d1 d3
    rw [ht] at c1 c3
    have hdec := decode_max_succ ⟨64, false⟩ hp
    simp only [Bool.false_eq_true, if_false] at hdec
    refine ⟨d1, c1, by rw [d3]; rfl, by rw [c3]; rfl, hdec, ?_⟩
    have hmax : KK_SMALLINT_MAX ⟨64, false⟩ = 536870911 := by decide
    have hbig : kk_is_bigint ⟨64, false⟩
        (kk_integer_from_small ⟨64, false⟩ (KK_SMALLINT_MAX ⟨64, false⟩ + 1)) = false := by
      rw [hmax]; decide
    simp [kk_is_integer, hdec, hbig]
  · have hp : (⟨64, true⟩ : Build).supported := by decide
    obtain ⟨d1, _, d3⟩ := div_dispatch ⟨64, true⟩ hp E ctx (KK_SMALLINT_MIN ⟨64, true⟩) (-1)
      (by decide) (by decide)
    obtain ⟨c1, _, c3⟩ := cdiv_dispatch ⟨64, true⟩ hp E ctx (KK_SMALLINT_MIN ⟨64, true⟩) (-1)
      (by decide) (by decide) (by decide)
    rw [hq, hwrap] at d1 d3
    rw [ht, hwrap] at c1 c3
    exact ⟨d1, c1, by rw [d3]; rfl, by rw [c3]; rfl, ht true, hq true⟩

/-! ## Conversion and clamping -/

theorem casts_small (p : Build) (hp : p.supported) (n : Int) (hn : in_small_range p n) :
    to_intf p n = n ∧ to_intx p n = n := by
  have hmax := smallint_max_eq p hp
  simp only [in_small_range, KK_SMALLINT_MIN, hmax] at hn
  rcases supported_cases p hp with h | h | h | h | h | h | h | h <;> subst h <;>
    simp [KK_SMALLINT_BITS, KK_INTF_SIZE, KK_INTX_SIZE, to_intf, to_intx, to_signed]
      at hn ⊢ <;> omega

theorem int32_fits (p : Build) (hp : p.supported) (i : Int)
    (hi : -2 ^ 31 ≤ i ∧ i < 2 ^ 31) :
    to_intx p i = i ∧ (KK_SMALLINT_BITS p ≥ 34 → in_small_range p i) := by
  have hmax := smallint_max_eq p hp
  simp only [in_small_range, KK_SMALLINT_MIN, hmax]
  rcases supported_cases p hp with h | h | h | h | h | h | h | h <;> subst h <;>
    simp [KK_SMALLINT_BITS, KK_INTF_SIZE, KK_INTX_SIZE, to_intx, to_signed] at hi ⊢ <;> omega

theorem is_smallint_small (p : Build) (hp : p.supported) (n : Int) (hn : in_small_range p n) :
    kk_is_smallint p (kk_integer_from_small p n) = true := by
  simp only [kk_is_smallint, value_from_small p hp n hn, and_one_eq, bne_iff_ne]; omega

theorem smallint_of_not_bigint (p : Build) (x : kk_integer_t) :
    kk_is_smallint p x = !kk_is_bigint p x := by
  simp [kk_is_smallint, kk_is_bigint, bne]

/-- C14: in every supported build, `kk_integer_from_int`,
`kk_integer_from_int32` (for an `int32_t` value), `kk_integer_from_int64` and
`kk_integer_from_uint64` (for a non-negative value) return the encoding of
`i`, the word `4 * i + 1`, with the context untouched for every collaborator,
when `i` is in the small range, and otherwise are exactly the collaborator
constructor (`kk_integer_from_big`, `kk_integer_from_big`,
`kk_integer_from_big64`, `kk_integer_from_bigu64`) applied to `i` and the
context. -/
theorem C14_promotion {W : Type} (p : Build) (hp : p.supported) (V : Convert W) (ctx : W)
    (i i32 u : Int) (h32 : -2 ^ 31 ≤ i32 ∧ i32 < 2 ^ 31) (hu : 0 ≤ u) :
    (in_small_range p i →
      kk_integer_from_int p V i ctx = (kk_integer_from_small p i, ctx) ∧
      kk_integer_from_int64 p V i ctx = (kk_integer_from_small p i, ctx) ∧
      _kk_integer_value p (kk_integer_from_small p i) = 4 * i + 1) ∧
    (¬ in_small_range p i →
      kk_integer_from_int p V i ctx = V.kk_integer_from_big i ctx ∧
      kk_integer_from_int64 p V i ctx = V.kk_integer_from_big64 i ctx) ∧
    (in_small_range p i32 →
      kk_integer_from_int32 p V i32 ctx = (kk_integer_from_small p i32, ctx)) ∧
    (¬ in_small_range p i32 →
      kk_integer_from_int32 p V i32 ctx = V.kk_integer_from_big i32 ctx) ∧
    (u ≤ KK_SMALLINT_MAX p →
      kk_integer_from_uint64 p V u ctx = (kk_integer_from_small p u, ctx)) ∧
    (¬ u ≤ KK_SMALLINT_MAX p →
      kk_integer_from_uint64 p V u ctx = V.kk_integer_from_bigu64 u ctx) := by
  refine ⟨fun h => ?_, fun h => ?_, fun h => ?_, fun h => ?_, fun h => ?_, fun h => ?_⟩
  · have hc : i ≥ KK_SMALLINT_MIN p ∧ i ≤ KK_SMALLINT_MAX p := h
    simp [kk_integer_from_int, kk_integer_from_int64, hc, (casts_small p hp i h).1,
      value_from_small p hp i h]
  · have hc : ¬ (i ≥ KK_SMALLINT_MIN p ∧ i ≤ KK_SMALLINT_MAX p) := h
    simp only [kk_integer_from_int, kk_integer_from_int64, if_neg hc, and_self]
  · have hc : i32 ≥ KK_SMALLINT_MIN p ∧ i32 ≤ KK_SMALLINT_MAX p := h
    simp [kk_integer_from_int32, hc, (casts_small p hp i32 h).1]
  · have hc : ¬ (i32 ≥ KK_SMALLINT_MIN p ∧ i32 ≤ KK_SMALLINT_MAX p) := h
    have h34 : ¬ KK_SMALLINT_BITS p ≥ 34 := fun hb => h ((int32_fits p hp i32 h32).2 hb)
    simp only [kk_integer_from_int32, if_neg h34, if_neg hc, (int32_fits p hp i32 h32).1]
  · have hr : in_small_range p u := by
      simp only [in_small_range, KK_SMALLINT_MIN] at *
      have := two_le_max_succ p hp
      omega
    simp [kk_integer_from_uint64, h, (casts_small p hp u hr).1]
  · simp only [kk_integer_from_uint64, if_neg h]

/-- C14 on the 64-bit portable build: `42` is encoded inline by all four
promotions, and the `int32_t` value `-2^31` goes to `kk_integer_from_big`. -/
theorem C14_promotion_witness :
    (-2 ^ 31 ≤ (-2147483648 : Int) ∧ (-2147483648 : Int) < 2 ^ 31) ∧ (0 : Int) ≤ 42 ∧
    kk_integer_from_int ⟨64, false⟩ (exact_convert ⟨64, false⟩) 42 []
      = (kk_integer_from_small ⟨64, false⟩ 42, []) ∧
    kk_integer_from_uint64 ⟨64, false⟩ (exact_convert ⟨64, false⟩) 42 []
      = (kk_integer_from_small ⟨64, false⟩ 42, []) ∧
    kk_integer_from_int32 ⟨64, false⟩ (exact_convert ⟨64, false⟩) (-2147483648) []
      = (exact_convert ⟨64, false⟩).kk_integer_from_big (-2147483648) [] :=
  ⟨by decide, by decide,
   ((C14_promotion ⟨64, false⟩ (by decide) (exact_convert ⟨64, false⟩) [] 42 (-2147483648) 42
      (by decide) (by decide)).1 (by decide)).1,
   (C14_promotion ⟨64, false⟩ (by decide) (exact_convert ⟨64, false⟩) [] 42 (-2147483648) 42
      (by decide) (by decide)).2.2.2.2.1 (by decide),
   (C14_promotion ⟨64, false⟩ (by decide) (exact_convert ⟨64, false⟩) [] 42 (-2147483648) 42
      (by decide) (by decide)).2.2.2.1 (by decide)⟩

theorem signed64_id (i : Int) (hi : -2 ^ 63 ≤ i ∧ i < 2 ^ 63) : to_signed 64 i = i := by
  simp [to_signed] at hi ⊢; omega

theorem signed32_id (i : Int) (hi : -2 ^ 31 ≤ i ∧ i < 2 ^ 31) : to_signed 32 i = i := by
  simp [to_signed] at hi ⊢; omega

/-- C15: in every supported build, for every `int64_t` value `i`: if `i` is in
the small range, `kk_integer_clamp64` and `kk_integer_clamp64_borrow` of
`kk_integer_from_int64(i)` return `i` (context untouched); if it is not, and
the word the constructor `kk_integer_from_big64(i)` returns is a reference
(the constructor builds a bignum) on which `kk_integer_clamp64_bigint`
returns `i`, they return `i` as well. -/
theorem C15_round_trip64 {W : Type} (p : Build) (hp : p.supported) (V : Convert W)
    (B : Blocks W) (ctx : W) (i : Int) (hi : -2 ^ 63 ≤ i ∧ i < 2 ^ 63) :
    (in_small_range p i →
      kk_integer_clamp64 p V B (kk_integer_from_int64 p V i ctx).1
        (kk_integer_from_int64 p V i ctx).2 = (i, ctx) ∧
      kk_integer_clamp64_borrow p V (kk_integer_from_int64 p V i ctx).1
        (kk_integer_from_int64 p V i ctx).2 = i) ∧
    (¬ in_small_range p i →
      kk_is_bigint p (V.kk_integer_from_big64 i ctx).1 = true →
      V.kk_integer_clamp64_bigint (V.kk_integer_from_big64 i ctx).1
        (V.kk_integer_from_big64 i ctx).2 = i →
      (kk_integer_clamp64 p V B (kk_integer_from_int64 p V i ctx).1
        (kk_integer_from_int64 p V i ctx).2).1 = i ∧
      kk_integer_clamp64_borrow p V (kk_integer_from_int64 p V i ctx).1
        (kk_integer_from_int64 p V i ctx).2 = i) := by
  refine ⟨fun h => ?_, fun h hb hc => ?_⟩
  · have hc : i ≥ KK_SMALLINT_MIN p ∧ i ≤ KK_SMALLINT_MAX p := h
    simp [kk_integer_from_int64, hc, (casts_small p hp i h).1, kk_integer_clamp64,
      kk_integer_clamp64_borrow, is_smallint_small p hp i h, decode_small p hp i h,
      signed64_id i hi]
  · have hn : ¬ (i ≥ KK_SMALLINT_MIN p ∧ i ≤ KK_SMALLINT_MAX p) := h
    have hs : kk_is_smallint p (V.kk_integer_from_big64 i ctx).1 = false := by
      rw [smallint_of_not_bigint, hb]; rfl
    simp [kk_integer_from_int64, hn, kk_integer_clamp64, kk_integer_clamp64_borrow, hs, hc]

/-- C15 on the 64-bit builtin build with the exact collaborator: `2^62` is
outside the small range, is allocated as a bignum and is read back. -/
theorem C15_round_trip64_witness :
    (-2 ^ 63 ≤ (4611686018427387904 : Int) ∧ (4611686018427387904 : Int) < 2 ^ 63) ∧
    ¬ in_small_range ⟨64, true⟩ 4611686018427387904 ∧
    (kk_integer_clamp64 ⟨64, true⟩ (exact_convert ⟨64, true⟩) (no_blocks (List Int))
        (kk_integer_from_int64 ⟨64, true⟩ (exact_convert ⟨64, true⟩) 4611686018427387904 []).1
        (kk_integer_from_int64 ⟨64, true⟩ (exact_convert ⟨64, true⟩) 4611686018427387904 []).2).1
      = 4611686018427387904 :=
  ⟨by decide, by decide,
   ((C15_round_trip64 ⟨64, true⟩ (by decide) (exact_convert ⟨64, true⟩) (no_blocks (List Int)) []
      4611686018427387904 (by decide)).2 (by decide) (by decide) (by decide)).1⟩

/-- C16 as stated fails: on the 64-bit builtin build the small integer `2^31`
is narrowed by `kk_integer_clamp32` and `kk_integer_clamp32_borrow` to
`-2^31`. -/
theorem C16_clamp32_narrows :
    kk_integer_clamp32 ⟨64, true⟩ (exact_convert ⟨64, true⟩) (no_blocks (List Int))
        (kk_integer_from_small ⟨64, true⟩ 2147483648) [] = (-2147483648, []) ∧
    kk_integer_clamp32_borrow ⟨64, true⟩ (exact_convert ⟨64, true⟩)
        (kk_integer_from_small ⟨64, true⟩ 2147483648) [] = -2147483648 ∧
    in_small_range ⟨64, true⟩ 2147483648 ∧
    kk_integer_clamp32 ⟨64, true⟩ (exact_convert ⟨64, true⟩) (no_blocks (List Int))
        (kk_integer_from_small ⟨64, true⟩ 2147483648) [] ≠ (2147483648, []) := by
  decide

/-- C16 (amended): in every supported build, for the encoding `x` of a small
integer `n`: `kk_integer_clamp32` and `kk_integer_clamp32_borrow` return `n`
when `n` is an `int32_t` value, `kk_integer_clamp64` and
`kk_integer_clamp64_borrow` return `n` when `n` is an `int64_t` value, and
`kk_integer_clamp_borrow` returns `n`; the context is untouched whatever the
collaborators are (no clamp collaborator and no drop is called). -/
theorem C16_clamp_inline_decodes {W : Type} (p : Build) (hp : p.supported) (V : Convert W)
    (B : Blocks W) (ctx : W) (n : Int) (hn : in_small_range p n) :
    (-2 ^ 31 ≤ n ∧ n < 2 ^ 31 →
      kk_integer_clamp32 p V B (kk_integer_from_small p n) ctx = (n, ctx) ∧
      kk_integer_clamp32_borrow p V (kk_integer_from_small p n) ctx = n) ∧
    (-2 ^ 63 ≤ n ∧ n < 2 ^ 63 →
      kk_integer_clamp64 p V B (kk_integer_from_small p n) ctx = (n, ctx) ∧
      kk_integer_clamp64_borrow p V (kk_integer_from_small p n) ctx = n) ∧
    kk_integer_clamp_borrow p V (kk_integer_from_small p n) ctx = n := by
  have hs := is_smallint_small p hp n hn
  have hd := decode_small p hp n hn
  refine ⟨fun h => ?_, fun h => ?_, ?_⟩
  · simp [kk_integer_clamp32, kk_integer_clamp32_borrow, hs, hd, signed32_id n h]
  · simp [kk_integer_clamp64, kk_integer_clamp64_borrow, hs, hd, signed64_id n h]
  · simp [kk_integer_clamp_borrow, hs, hd, (casts_small p hp n hn).2]

/-- C16 (amended) on the 64-bit builtin build at `n = -7`. -/
theorem C16_clamp_inline_decodes_witness :
    in_small_range ⟨64, true⟩ (-7) ∧ (-2 ^ 31 ≤ (-7 : Int) ∧ (-7 : Int) < 2 ^ 31) ∧
    kk_integer_clamp32 ⟨64, true⟩ (exact_convert ⟨64, true⟩) (no_blocks (List Int))
      (kk_integer_from_small ⟨64, true⟩ (-7)) [] = (-7, []) :=
  ⟨by decide, by decide,
   ((C16_clamp_inline_decodes ⟨64, true⟩ (by decide) (exact_convert ⟨64, true⟩)
      (no_blocks (List Int)) [] (-7) (by decide)).1 (by decide)).1⟩

/-! ## Ownership: dup, drop, minimum and maximum -/

theorem heap_dup_count (a b : Nat) (h : Heap) :
    (heap_dup a h).count b = if b = a then h.count a + 1 else h.count b := by
  by_cases hb : b = a
  · subst hb; simp [heap_dup]
  · simp [heap_dup, hb]

theorem heap_drop_count (a b : Nat) (h : Heap) :
    (heap_drop a h).count b = if b = a then h.count a - 1 else h.count b := by
  by_cases hb : b = a
  · subst hb; simp [heap_drop]
  · simp [heap_drop, hb]

theorem dup_heap (p : Build) (r : kk_integer_t) (hr : kk_is_bigint p r = true) (h : Heap) :
    (kk_integer_dup p heap_blocks r h).2 = heap_dup (_kk_integer_ptr r) h := by
  simp [kk_integer_dup, hr, heap_blocks]

theorem drop_heap (p : Build) (r : kk_integer_t) (hr : kk_is_bigint p r = true) (h : Heap) :
    kk_integer_drop p heap_blocks r h = heap_drop (_kk_integer_ptr r) h := by
  simp [kk_integer_drop, hr, heap_blocks]

theorem run_ops_balanced (p : Build) (r : kk_integer_t) (hr : kk_is_bigint p r = true)
    (ops : List RcOp) :
    ∀ (h : Heap), 0 < h.count (_kk_integer_ptr r) →
      balanced (h.count (_kk_integer_ptr r)) ops = true →
      (run_ops p heap_blocks r ops h).count (_kk_integer_ptr r) = 0 ∧
      (run_ops p heap_blocks r ops h).freed = _kk_integer_ptr r :: h.freed ∧
      ∀ a, a ≠ _kk_integer_ptr r → (run_ops p heap_blocks r ops h).count a = h.count a := by
  induction ops with
  | nil =>
    intro h hc hb
    simp [balanced, count_drops, count_dups] at hb
    omega
  | cons op t ih =>
    intro h hc hb
    cases op with
    | dup =>
      simp only [balanced, count_drops, count_dups, alive_throughout, Bool.and_eq_true,
        decide_eq_true_eq] at hb
      have hcd : List.count RcOp.drop (RcOp.dup :: t) = List.count RcOp.drop t := by simp
      have hcu : List.count RcOp.dup (RcOp.dup :: t) = List.count RcOp.dup t + 1 := by simp
      rw [hcd, hcu] at hb
      have h1 : (heap_dup (_kk_integer_ptr r) h).count (_kk_integer_ptr r)
          = h.count (_kk_integer_ptr r) + 1 := by rw [heap_dup_count]; simp
      have := ih (heap_dup (_kk_integer_ptr r) h) (by omega) (by
        rw [h1]
        simp only [balanced, count_drops, count_dups, Bool.and_eq_true, decide_eq_true_eq]
        exact ⟨by omega, hb.2.2⟩)
      simp only [run_ops, dup_heap p r hr]
      refine ⟨this.1, this.2.1, fun a ha => ?_⟩
      rw [this.2.2 a ha, heap_dup_count, if_neg ha]
    | drop =>
      simp only [balanced, count_drops, count_dups, alive_throughout, Bool.and_eq_true,
        decide_eq_true_eq] at hb
      have hcd : List.count RcOp.drop (RcOp.drop :: t) = List.count RcOp.drop t + 1 := by simp
      have hcu : List.count RcOp.dup (RcOp.drop :: t) = List.count RcOp.dup t := by simp
      rw [hcd, hcu] at hb
      have h1 : (heap_drop (_kk_integer_ptr r) h).count (_kk_integer_ptr r)
          = h.count (_kk_integer_ptr r) - 1 := by rw [heap_drop_count]; simp
      simp only [run_ops, drop_heap p r hr]
      by_cases hz : h.count (_kk_integer_ptr r) - 1 = 0
      · have ht : t = [] := by
          cases t with
          | nil => rfl
          | cons o t' =>
            have h2 := hb.2.2
            rw [hz] at h2
            cases o <;> simp [alive_throughout] at h2
        subst ht
        refine ⟨by simp only [run_ops]; rw [h1, hz], ?_, fun a ha => ?_⟩
        · simp only [run_ops, heap_drop, if_pos hz]
        · simp only [run_ops]; rw [heap_drop_count, if_neg ha]
      · have := ih (heap_drop (_kk_integer_ptr r) h) (by omega) (by
          rw [h1]
          simp only [balanced, count_drops, count_dups, Bool.and_eq_true, decide_eq_true_eq]
          exact ⟨by omega, hb.2.2⟩)
        refine ⟨this.1, ?_, fun a ha => ?_⟩
        · rw [this.2.1]; simp only [heap_drop, if_neg hz]
        · rw [this.2.2 a ha, heap_drop_count, if_neg ha]

theorem min_max_small {W : Type} (p : Build) (hp : p.supported) (C : Compare W)
    (B : Blocks W) (ctx : W) (n m : Int) (hn : in_small_range p n) (hm : in_small_range p m) :
    kk_integer_min p C B (kk_integer_from_small p n) (kk_integer_from_small p m) ctx =
      (if n ≤ m then kk_integer_from_small p n else kk_integer_from_small p m, ctx) ∧
    kk_integer_max p C B (kk_integer_from_small p n) (kk_integer_from_small p m) ctx =
      (if n ≥ m then kk_integer_from_small p n else kk_integer_from_small p m, ctx) := by
  have e1 : (4 * n + 1 ≤ 4 * m + 1) = (n ≤ m) := by apply propext; omega
  have e2 : (4 * n + 1 ≥ 4 * m + 1) = (n ≥ m) := by apply propext; omega
  simp only [kk_integer_min, kk_integer_max, are_smallints_small p hp n m hn hm, if_true,
    value_from_small p hp n hn, value_from_small p hp m hm, e1, e2, and_self]

/-- C17: in every supported build. On the encodings of small integers `n`,
`m`, `kk_integer_min` returns the encoding of the smaller (the first operand
when `n ≤ m`) and `kk_integer_max` that of the larger (the first operand when
`n ≥ m`), the world untouched whatever the collaborators are. On words `x`,
`y` that are not both small, with `c` the result of `kk_integer_cmp_generic`,
`kk_integer_min` returns `x` if `c ≤ 0` and else `y` (`kk_integer_max`: `x` if
`c ≥ 0`, else `y`), the word unchanged, and the world is that of one
`kk_integer_drop` of the other operand after the comparison. On the explicit
reference-count state, for two references to distinct blocks, the count of
the block not returned goes down by one and the count of the block returned
stays as it was. -/
theorem C17_min_max_ownership {W : Type} (p : Build) (hp : p.supported) (C : Compare W)
    (B : Blocks W) (ctx : W) (n m : Int) (hn : in_small_range p n) (hm : in_small_range p m)
    (x y : kk_integer_t) (hxy : kk_are_smallints p x y = false) :
    (kk_integer_min p C B (kk_integer_from_small p n) (kk_integer_from_small p m) ctx =
      (if n ≤ m then kk_integer_from_small p n else kk_integer_from_small p m, ctx) ∧
    kk_integer_max p C B (kk_integer_from_small p n) (kk_integer_from_small p m) ctx =
      (if n ≥ m then kk_integer_from_small p n else kk_integer_from_small p m, ctx)) ∧
    (kk_integer_min p C B x y ctx =
      if (C.kk_integer_cmp_generic x y ctx).1 ≤ 0
      then (x, kk_integer_drop p B y (C.kk_integer_cmp_generic x y ctx).2)
      else (y, kk_integer_drop p B x (C.kk_integer_cmp_generic x y ctx).2)) ∧
    (kk_integer_max p C B x y ctx =
      if (C.kk_integer_cmp_generic x y ctx).1 ≥ 0
      then (x, kk_integer_drop p B y (C.kk_integer_cmp_generic x y ctx).2)
      else (y, kk_integer_drop p B x (C.kk_integer_cmp_generic x y ctx).2)) ∧
    (∀ (cmp : kk_integer_t → kk_integer_t → Int) (h : Heap),
      kk_is_bigint p x = true → kk_is_bigint p y = true →
      _kk_integer_ptr x ≠ _kk_integer_ptr y →
      (cmp x y ≤ 0 →
        (kk_integer_min p (heap_compare cmp) heap_blocks x y h).1 = x ∧
        (kk_integer_min p (heap_compare cmp) heap_blocks x y h).2.count (_kk_integer_ptr x)
          = h.count (_kk_integer_ptr x) ∧
        (kk_integer_min p (heap_compare cmp) heap_blocks x y h).2.count (_kk_integer_ptr y)
          = h.count (_kk_integer_ptr y) - 1) ∧
      (¬ cmp x y ≤ 0 →
        (kk_integer_min p (heap_compare cmp) heap_blocks x y h).1 = y ∧
        (kk_integer_min p (heap_compare cmp) heap_blocks x y h).2.count (_kk_integer_ptr y)
          = h.count (_kk_integer_ptr y) ∧
        (kk_integer_min p (heap_compare cmp) heap_blocks x y h).2.count (_kk_integer_ptr x)
          = h.count (_kk_integer_ptr x) - 1) ∧
      (cmp x y ≥ 0 →
        (kk_integer_max p (heap_compare cmp) heap_blocks x y h).1 = x ∧
        (kk_integer_max p (heap_compare cmp) heap_blocks x y h).2.count (_kk_integer_ptr x)
          = h.count (_kk_integer_ptr x) ∧
        (kk_integer_max p (heap_compare cmp) heap_blocks x y h).2.count (_kk_integer_ptr y)
          = h.count (_kk_integer_ptr y) - 1) ∧
      (¬ cmp x y ≥ 0 →
        (kk_integer_max p (heap_compare cmp) heap_blocks x y h).1 = y ∧
        (kk_integer_max p (heap_compare cmp) heap_blocks x y h).2.count (_kk_integer_ptr y)
          = h.count (_kk_integer_ptr y) ∧
        (kk_integer_max p (heap_compare cmp) heap_blocks x y h).2.count (_kk_integer_ptr x)
          = h.count (_kk_integer_ptr x) - 1)) := by
  have hmin : ∀ (W' : Type) (C' : Compare W') (B' : Blocks W') (c' : W'),
      kk_integer_min p C' B' x y c' =
        if (C'.kk_integer_cmp_generic x y c').1 ≤ 0
        then (x, kk_integer_drop p B' y (C'.kk_integer_cmp_generic x y c').2)
        else (y, kk_integer_drop p B' x (C'.kk_integer_cmp_generic x y c').2) := by
    intro W' C' B' c'
    simp only [kk_integer_min, kk_integer_lte_borrow, hxy, Bool.false_eq_true, if_false,
      decide_eq_true_eq]
  have hmax : ∀ (W' : Type) (C' : Compare W') (B' : Blocks W') (c' : W'),
      kk_integer_max p C' B' x y c' =
        if (C'.kk_integer_cmp_generic x y c').1 ≥ 0
        then (x, kk_integer_drop p B' y (C'.kk_integer_cmp_generic x y c').2)
        else (y, kk_integer_drop p B' x (C'.kk_integer_cmp_generic x y c').2) := by
    intro W' C' B' c'
    simp only [kk_integer_max, kk_integer_gte_borrow, hxy, Bool.false_eq_true, if_false,
      decide_eq_true_eq]
  refine ⟨min_max_small p hp C B ctx n m hn hm, hmin W C B ctx, hmax W C B ctx, ?_⟩
  intro cmp h hx hy hne
  have hne' : _kk_integer_ptr y ≠ _kk_integer_ptr x := fun e => hne e.symm
  have cx : (heap_compare cmp).kk_integer_cmp_generic x y h = (cmp x y, h) := rfl
  refine ⟨fun hc => ?_, fun hc => ?_, fun hc => ?_, fun hc => ?_⟩
  · rw [hmin, cx, if_pos hc, drop_heap p y hy, heap_drop_count, heap_drop_count, if_neg hne]
    simp
  · rw [hmin, cx, if_neg hc, drop_heap p x hx, heap_drop_count, heap_drop_count, if_neg hne']
    simp
  · rw [hmax, cx, if_pos hc, drop_heap p y hy, heap_drop_count, heap_drop_count, if_neg hne]
    simp
  · rw [hmax, cx, if_neg hc, drop_heap p x hx, heap_drop_count, heap_drop_count, if_neg hne']
    simp

/-- C17 on the 64-bit builtin build: `min`/`max` of the encodings of `3` and
`-5`, and of the references at addresses `4096` and `8192`, the first of which
compares smaller. -/
theorem C17_min_max_ownership_witness :
    in_small_range ⟨64, true⟩ 3 ∧ in_small_range ⟨64, true⟩ (-5) ∧
    kk_are_smallints ⟨64, true⟩ ⟨4096⟩ ⟨8192⟩ = false ∧
    kk_integer_min ⟨64, true⟩ (heap_compare (fun _ _ => -1)) heap_blocks
      (kk_integer_from_small ⟨64, true⟩ 3) (kk_integer_from_small ⟨64, true⟩ (-5))
      ⟨fun _ => 1, []⟩ =
      (if (3 : Int) ≤ -5 then kk_integer_from_small ⟨64, true⟩ 3
        else kk_integer_from_small ⟨64, true⟩ (-5), ⟨fun _ => 1, []⟩) ∧
    (kk_integer_min ⟨64, true⟩ (heap_compare (fun _ _ => -1)) heap_blocks ⟨4096⟩ ⟨8192⟩
      ⟨fun _ => 1, []⟩).1 = ⟨4096⟩ ∧
    (kk_integer_min ⟨64, true⟩ (heap_compare (fun _ _ => -1)) heap_blocks ⟨4096⟩ ⟨8192⟩
      ⟨fun _ => 1, []⟩).2.count (_kk_integer_ptr ⟨4096⟩) = 1 ∧
    (kk_integer_min ⟨64, true⟩ (heap_compare (fun _ _ => -1)) heap_blocks ⟨4096⟩ ⟨8192⟩
      ⟨fun _ => 1, []⟩).2.count (_kk_integer_ptr ⟨8192⟩) = 1 - 1 :=
  ⟨by decide, by decide, by decide,
   (C17_min_max_ownership ⟨64, true⟩ (by decide) (heap_compare (fun _ _ => -1)) heap_blocks
      ⟨fun _ => 1, []⟩ 3 (-5) (by decide) (by decide) ⟨4096⟩ ⟨8192⟩ (by decide)).1.1,
   ((C17_min_max_ownership ⟨64, true⟩ (by decide) (heap_compare (fun _ _ => -1)) heap_blocks
      ⟨fun _ => 1, []⟩ 3 (-5) (by decide) (by decide) ⟨4096⟩ ⟨8192⟩ (by decide)).2.2.2
      (fun _ _ => -1) ⟨fun _ => 1, []⟩ (by decide) (by decide) (by decide)).1 (by decide)⟩

/-- C18: in every supported build. For a small integer word `x`,
`kk_integer_dup` returns `x` and `kk_integer_dup` and `kk_integer_drop` leave
the world as it was, whatever the block primitives are. For a reference `r`,
`kk_integer_dup` returns `r` after exactly one `kk_block_dup` on the address
of `r`, and `kk_integer_drop` is exactly one `kk_block_drop` on it. On the
explicit reference-count state the dup adds one owner to that block, the drop
removes one, and no other block changes; hence a balanced sequence of dups
and drops on `r`, starting from the one owner that holds `r`, ends with the
count at zero and the block freed once, every other block as it was. -/
theorem C18_dup_drop {W : Type} (p : Build) (B : Blocks W) (w : W) (x r : kk_integer_t)
    (hx : kk_is_smallint p x = true) (hr : kk_is_bigint p r = true)
    (h : Heap) (hone : h.count (_kk_integer_ptr r) = 1)
    (ops : List RcOp) (hbal : balanced 1 ops = true) :
    (kk_integer_dup p B x w = (x, w) ∧ kk_integer_drop p B x w = w) ∧
    (kk_integer_dup p B r w = (r, B.kk_block_dup (_kk_integer_ptr r) w) ∧
      kk_integer_drop p B r w = B.kk_block_drop (_kk_integer_ptr r) w) ∧
    ((kk_integer_dup p heap_blocks r h).2.count (_kk_integer_ptr r)
        = h.count (_kk_integer_ptr r) + 1 ∧
      (kk_integer_drop p heap_blocks r h).count (_kk_integer_ptr r)
        = h.count (_kk_integer_ptr r) - 1 ∧
      ∀ a, a ≠ _kk_integer_ptr r →
        (kk_integer_dup p heap_blocks r h).2.count a = h.count a ∧
        (kk_integer_drop p heap_blocks r h).count a = h.count a) ∧
    ((run_ops p heap_blocks r ops h).count (_kk_integer_ptr r) = 0 ∧
      (run_ops p heap_blocks r ops h).freed = _kk_integer_ptr r :: h.freed ∧
      ∀ a, a ≠ _kk_integer_ptr r → (run_ops p heap_blocks r ops h).count a = h.count a) := by
  have hxb : kk_is_bigint p x = false := by
    rw [smallint_of_not_bigint] at hx
    cases hb : kk_is_bigint p x
    · rfl
    · rw [hb] at hx; simp at hx
  refine ⟨⟨by simp [kk_integer_dup, hxb], by simp [kk_integer_drop, hxb]⟩,
    ⟨by simp [kk_integer_dup, hr], by simp [kk_integer_drop, hr]⟩, ⟨?_, ?_, fun a ha => ⟨?_, ?_⟩⟩,
    run_ops_balanced p r hr ops h (by omega) (by rw [hone]; exact hbal)⟩
  · rw [dup_heap p r hr, heap_dup_count]; simp
  · rw [drop_heap p r hr, heap_drop_count]; simp
  · rw [dup_heap p r hr, heap_dup_count, if_neg ha]
  · rw [drop_heap p r hr, heap_drop_count, if_neg ha]

/-- C18 on the 64-bit builtin build: the small word `29`, the reference at
address `4096` held by one owner, and the sequence dup, drop, dup, drop,
drop. -/
theorem C18_dup_drop_witness :
    kk_is_smallint ⟨64, true⟩ ⟨29⟩ = true ∧ kk_is_bigint ⟨64, true⟩ ⟨4096⟩ = true ∧
    (⟨fun _ => 1, []⟩ : Heap).count (_kk_integer_ptr ⟨4096⟩) = 1 ∧
    balanced 1 [RcOp.dup, RcOp.drop, RcOp.dup, RcOp.drop, RcOp.drop] = true ∧
    (run_ops ⟨64, true⟩ heap_blocks ⟨4096⟩
      [RcOp.dup, RcOp.drop, RcOp.dup, RcOp.drop, RcOp.drop] ⟨fun _ => 1, []⟩).count
        (_kk_integer_ptr ⟨4096⟩) = 0 ∧
    (run_ops ⟨64, true⟩ heap_blocks ⟨4096⟩
      [RcOp.dup, RcOp.drop, RcOp.dup, RcOp.drop, RcOp.drop] ⟨fun _ => 1, []⟩).freed
        = [_kk_integer_ptr ⟨4096⟩] :=
  ⟨by decide, by decide, rfl, by decide,
   (C18_dup_drop ⟨64, true⟩ heap_blocks ⟨fun _ => 1, []⟩ ⟨29⟩ ⟨4096⟩ (by decide) (by decide)
      ⟨fun _ => 1, []⟩ rfl [RcOp.dup, RcOp.drop, RcOp.dup, RcOp.drop, RcOp.drop]
      (by decide)).2.2.2.1,
   (C18_dup_drop ⟨64, true⟩ heap_blocks ⟨fun _ => 1, []⟩ ⟨29⟩ ⟨4096⟩ (by decide) (by decide)
      ⟨fun _ => 1, []⟩ rfl [RcOp.dup, RcOp.drop, RcOp.dup, RcOp.drop, RcOp.drop]
      (by decide)).2.2.2.2.1⟩

/-! ## The tag bit -/

/-- C19: in every supported build, for every word `v`, `kk_is_smallint v` is
the negation of `kk_is_bigint v` (exactly one of them holds), and they are
decided by bit 0 of the word alone: `kk_is_smallint v` holds exactly when the
stored word is odd; and for all words `x`, `y`, `kk_are_smallints x y` holds
exactly when `kk_is_smallint x` and `kk_is_smallint y` both hold. -/
theorem C19_tag_bit (p : Build) (hp : p.supported) (v x y : kk_integer_t) :
    kk_is_smallint p v = (!kk_is_bigint p v) ∧
    (kk_is_smallint p v = true ↔ v.ibox % 2 = 1) ∧
    (kk_is_bigint p v = true ↔ v.ibox % 2 = 0) ∧
    (kk_are_smallints p x y = true ↔
      kk_is_smallint p x = true ∧ kk_is_smallint p y = true) := by
  have hbit : ∀ u : kk_integer_t, _kk_integer_value p u % 2 = (u.ibox : Int) % 2 := by
    intro u
    rcases supported_cases p hp with h | h | h | h | h | h | h | h <;> subst h <;>
      simp [_kk_integer_value, to_intf, to_signed] <;> omega
  refine ⟨smallint_of_not_bigint p v, ?_, ?_, ?_⟩
  · simp only [kk_is_smallint, and_one_eq, bne_iff_ne, hbit]; omega
  · simp only [kk_is_bigint, and_one_eq, beq_iff_eq, hbit]; omega
  · simp only [kk_are_smallints, and_and_one_eq]
    simp only [kk_is_smallint, and_one_eq, bne_iff_ne]
    have h1 := Int.emod_two_eq (_kk_integer_value p x)
    have h2 := Int.emod_two_eq (_kk_integer_value p y)
    rcases h1 with h1 | h1 <;> rcases h2 with h2 | h2 <;> simp [h1, h2]

/-- C19 on the 64-bit portable build: the words `29`, `4096` and `-3`
(stored as `2^64 - 3`). -/
theorem C19_tag_bit_witness :
    (⟨64, false⟩ : Build).supported ∧
    kk_is_smallint ⟨64, false⟩ ⟨4096⟩ = (!kk_is_bigint ⟨64, false⟩ ⟨4096⟩) ∧
    (kk_are_smallints ⟨64, false⟩ ⟨29⟩ ⟨18446744073709551613⟩ = true ↔
      kk_is_smallint ⟨64, false⟩ ⟨29⟩ = true ∧
      kk_is_smallint ⟨64, false⟩ ⟨18446744073709551613⟩ = true) :=
  ⟨by decide,
   (C19_tag_bit ⟨64, false⟩ (by decide) ⟨4096⟩ ⟨29⟩ ⟨18446744073709551613⟩).1,
   (C19_tag_bit ⟨64, false⟩ (by decide) ⟨4096⟩ ⟨29⟩ ⟨18446744073709551613⟩).2.2.2⟩

/-! ## The debug assertions -/

theorem to_intf_absorb (p : Build) (hp : p.supported) (a b : Int) :
    to_intf p (to_intf p a + b) = to_intf p (a + b) := by
  rcases supported_cases p hp with h | h | h | h | h | h | h | h <;> subst h <;>
    simp [to_intf, to_signed] <;> omega

/-- The assertion of `kk_integer_mod_small` holds exactly when the Euclidean
remainder `n % m` (the dividend, for a zero divisor) is not negative: always
for a nonzero divisor, and for a zero divisor only when `n ≥ 0`. -/
theorem mod_small_assert_eq (p : Build) (hp : p.supported) (n m : Int)
    (hn : in_small_range p n) (hm : in_small_range p m) :
    kk_integer_mod_small_assert p (kk_integer_from_small p n) (kk_integer_from_small p m) =
      some (decide (n % m ≥ 0)) := by
  unfold kk_integer_mod_small_assert
  simp only [sar_two_small p hp n hn, sar_two_small p hp m hm]
  by_cases h0 : m = 0
  · subst h0
    have hfit := (small_fits p hp n (wide p n hn)).1
    simp [intf_add, hfit]
  · have hni := (small_fits p hp n (wide p n hn)).2.2.1
    obtain ⟨hfit, hneg⟩ := emod_fits p hp n m hm h0
    have hadj := (euclid_adjust n m h0).2
    have key : (if n < 0 ∧ Int.tmod n m < 0
        then to_intf p (Int.tmod n m + if m < 0 then to_intf p (-m) else m)
        else Int.tmod n m) = n % m := by
      rw [hneg]
      by_cases hc : n < 0 ∧ Int.tmod n m < 0
      · rw [if_pos hc] at hadj ⊢; rw [hadj, hfit]
      · rw [if_neg hc] at hadj ⊢; exact hadj
    simp only [c_mod, h0, hni, false_and, or_self, if_false, intf_add, intf_neg, pure, bind,
      Option.bind, key]

/-- The assertions of `kk_integer_div_mod_small` hold whenever they are
reached, that is for every nonzero divisor. -/
theorem div_mod_small_assert_eq (p : Build) (hp : p.supported) (n m : Int)
    (hn : in_small_range p n) (hm : in_small_range p m) :
    kk_integer_div_mod_small_assert p (kk_integer_from_small p n) (kk_integer_from_small p m) =
      some (if m = 0 then none else some (true, true)) := by
  unfold kk_integer_div_mod_small_assert
  simp only [sar_two_small p hp n hn, sar_two_small p hp m hm]
  by_cases h0 : m = 0
  · subst h0; simp
  · have hni := (small_fits p hp n (wide p n hn)).2.2.1
    have hfitn := (small_fits p hp n (wide p n hn)).1
    have hfitq := (small_fits p hp _ (ediv_bound _ n m (wide p n hn))).1
    obtain ⟨hfitr, _⟩ := emod_fits p hp n m hm h0
    obtain ⟨hq, hr⟩ := euclid_adjust n m h0
    obtain ⟨e1, e2, _, _⟩ := ediv_emod_spec n m h0
    have key : (if n < 0 ∧ Int.tmod n m < 0 then
          if m < 0 then (to_intf p (Int.tdiv n m + 1), to_intf p (Int.tmod n m - m))
          else (to_intf p (Int.tdiv n m - 1), to_intf p (Int.tmod n m + m))
        else (Int.tdiv n m, Int.tmod n m)) = (n / m, n % m) := by
      by_cases hc : n < 0 ∧ Int.tmod n m < 0
      · rw [if_pos hc] at hq hr ⊢
        by_cases hs : m < 0
        · rw [if_pos hs] at hq hr ⊢
          rw [show Int.tdiv n m + 1 = n / m by omega, show Int.tmod n m - m = n % m by omega,
            hfitq, hfitr]
        · rw [if_neg hs] at hq hr ⊢
          rw [hq, hr, hfitq, hfitr]
      · rw [if_neg hc] at hq hr ⊢; rw [hq, hr]
    have hlaw : to_intf p (to_intf p (n / m * m) + n % m) = n := by
      rw [to_intf_absorb p hp, show n / m * m + n % m = n by rw [mul_comm]; omega, hfitn]
    simp only [c_div, c_mod, h0, hni, false_and, or_self, if_false, intf_add, intf_sub,
      intf_mul, pure, bind, Option.bind, key, hlaw, e2, ge_iff_le, decide_True]

/-- C20 (the code at its failing input): on the 64-bit builtin build, for the
dividend `-7` and the divisor `0`, the condition of
`kk_assert_internal(m >= 0)` in `kk_integer_mod_small` is false where the
assertion stands, and `kk_integer_mod` returns the encoding of `-7`, a
negative remainder. (The assertions of `kk_integer_div_mod_small` are not
reached for a zero divisor, and it stores the same negative word.) -/
theorem C20_mod_assert_fails_at_zero_divisor {W : Type} (E : Bigint W) (ctx : W) :
    kk_integer_mod_small_assert ⟨64, true⟩ (kk_integer_from_small ⟨64, true⟩ (-7))
        (kk_integer_from_small ⟨64, true⟩ 0) = some false ∧
    kk_integer_mod ⟨64, true⟩ E (kk_integer_from_small ⟨64, true⟩ (-7))
        (kk_integer_from_small ⟨64, true⟩ 0) ctx
      = some (kk_integer_from_small ⟨64, true⟩ (-7), ctx) ∧
    kk_smallint_from_integer ⟨64, true⟩ (kk_integer_from_small ⟨64, true⟩ (-7)) < 0 ∧
    kk_integer_div_mod_small_assert ⟨64, true⟩ (kk_integer_from_small ⟨64, true⟩ (-7))
        (kk_integer_from_small ⟨64, true⟩ 0) = some none ∧
    kk_integer_div_mod ⟨64, true⟩ E (kk_integer_from_small ⟨64, true⟩ (-7))
        (kk_integer_from_small ⟨64, true⟩ 0) ctx
      = some ((kk_integer_from_small ⟨64, true⟩ 0, kk_integer_from_small ⟨64, true⟩ (-7)), ctx) := by
  have hp : (⟨64, true⟩ : Build).supported := by decide
  have h7 : in_small_range ⟨64, true⟩ (-7) := by decide
  have h0 : in_small_range ⟨64, true⟩ 0 := by decide
  obtain ⟨_, d2, d3⟩ := div_dispatch ⟨64, true⟩ hp E ctx (-7) 0 h7 h0
  rw [Int.emod_zero] at d2 d3
  rw [Int.ediv_zero] at d3
  refine ⟨?_, d2, ?_, ?_, d3⟩
  · rw [mod_small_assert_eq ⟨64, true⟩ hp (-7) 0 h7 h0]; decide
  · rw [decode_small ⟨64, true⟩ hp (-7) h7]; decide
  · rw [div_mod_small_assert_eq ⟨64, true⟩ hp (-7) 0 h7 h0]; rfl

/-! ## Negation and absolute value -/

/-- C21: in every supported build, for a small integer `n` above
`KK_SMALLINT_MIN`, `kk_integer_neg` on its encoding returns the encoding of
`-n` and `kk_integer_abs` the encoding of `|n|`, which is the operand itself
when `n ≥ 0`, the context untouched; for `n = KK_SMALLINT_MIN` both are
exactly `kk_integer_sub_generic` on the encoding of zero and the operand. -/
theorem C21_neg_abs {W : Type} (p : Build) (hp : p.supported) (E : Bigint W) (C : Compare W)
    (ctx : W) (n : Int) (hn : in_small_range p n) :
    (KK_SMALLINT_MIN p < n →
      kk_integer_neg p E C (kk_integer_from_small p n) ctx =
        (kk_integer_from_small p (-n), ctx) ∧
      kk_integer_abs p E C (kk_integer_from_small p n) ctx =
        (kk_integer_from_small p |n|, ctx) ∧
      (0 ≤ n →
        kk_integer_abs p E C (kk_integer_from_small p n) ctx =
          (kk_integer_from_small p n, ctx))) ∧
    (n = KK_SMALLINT_MIN p →
      kk_integer_neg p E C (kk_integer_from_small p n) ctx =
        E.kk_integer_sub_generic (kk_integer_from_small p 0) (kk_integer_from_small p n) ctx ∧
      kk_integer_abs p E C (kk_integer_from_small p n) ctx =
        E.kk_integer_sub_generic (kk_integer_from_small p 0) (kk_integer_from_small p n) ctx) := by
  have h0 := (small_literals p hp).1
  have hs := is_smallint_small p hp n hn
  have hv := value_from_small p hp n hn
  have hsub := sub_small_small p hp E ctx 0 n h0 hn
  rw [zero_sub] at hsub
  have hneg : kk_integer_neg p E C (kk_integer_from_small p n) ctx
      = kk_integer_sub p E (kk_integer_from_small p 0) (kk_integer_from_small p n) ctx := by
    simp only [kk_integer_neg, hs, if_true, kk_integer_neg_small, kk_integer_zero]
  have habs : kk_integer_abs p E C (kk_integer_from_small p n) ctx
      = if n < 0
        then kk_integer_sub p E (kk_integer_from_small p 0) (kk_integer_from_small p n) ctx
        else (kk_integer_from_small p n, ctx) := by
    have e : (4 * n + 1 < 0) = (n < 0) := by apply propext; omega
    simp only [kk_integer_abs, hs, if_true, hv, e, kk_integer_neg_small, kk_integer_zero]
  have two := two_le_max_succ p hp
  refine ⟨fun hgt => ?_, fun heq => ?_⟩
  · have hr : in_small_range p (-n) := by
      simp only [in_small_range, KK_SMALLINT_MIN] at hn hgt ⊢; omega
    rw [if_pos hr, ← from_small_eq p hp _ hr] at hsub
    refine ⟨by rw [hneg, hsub], ?_, fun hnn => ?_⟩
    · rw [habs]
      by_cases hlt : n < 0
      · rw [if_pos hlt, hsub, abs_of_neg hlt]
      · rw [if_neg hlt, abs_of_nonneg (by omega)]
    · rw [habs, if_neg (by omega)]
  · have hr : ¬ in_small_range p (-n) := by
      simp only [in_small_range, KK_SMALLINT_MIN] at hn ⊢
      simp only [KK_SMALLINT_MIN] at heq
      omega
    rw [if_neg hr] at hsub
    have hlt : n < 0 := by simp only [KK_SMALLINT_MIN] at heq; omega
    exact ⟨by rw [hneg, hsub], by rw [habs, if_pos hlt, hsub]⟩

/-- C21 on the 64-bit portable build at `n = -7`: negation and absolute value
are both the encoding of `7`. -/
theorem C21_neg_abs_witness :
    in_small_range ⟨64, false⟩ (-7) ∧ KK_SMALLINT_MIN ⟨64, false⟩ < -7 ∧
    kk_integer_neg ⟨64, false⟩ (exact ⟨64, false⟩) (exact_compare ⟨64, false⟩)
      (kk_integer_from_small ⟨64, false⟩ (-7)) []
      = (kk_integer_from_small ⟨64, false⟩ (- -7), []) ∧
    kk_integer_abs ⟨64, false⟩ (exact ⟨64, false⟩) (exact_compare ⟨64, false⟩)
      (kk_integer_from_small ⟨64, false⟩ (-7)) []
      = (kk_integer_from_small ⟨64, false⟩ |(-7)|, []) :=
  ⟨by decide, by decide,
   ((C21_neg_abs ⟨64, false⟩ (by decide) (exact ⟨64, false⟩) (exact_compare ⟨64, false⟩) [] (-7)
      (by decide)).1 (by decide)).1,
   ((C21_neg_abs ⟨64, false⟩ (by decide) (exact ⟨64, false⟩) (exact_compare ⟨64, false⟩) [] (-7)
      (by decide)).1 (by decide)).2.1⟩

/-! ## The two strategies side by side -/

theorem portable_range_in_builtin (w : Nat) (hw : (⟨w, false⟩ : Build).supported) (k : Int)
    (hk : in_small_range ⟨w, false⟩ k) : in_small_range ⟨w, true⟩ k := by
  have hw' : (⟨w, true⟩ : Build).supported := hw
  have h1 := smallint_max_eq ⟨w, false⟩ hw
  have h2 := smallint_max_eq ⟨w, true⟩ hw'
  simp only [in_small_range, KK_SMALLINT_MIN, h1, h2] at hk ⊢
  simp only [Build.supported] at hw
  rcases hw with h | h | h | h <;> subst h <;>
    simp [KK_SMALLINT_BITS, KK_INTF_SIZE] at hk ⊢ <;> omega

theorem mul_small_eq_mul {W : Type} (p : Build) (hp : p.supported) (E : Bigint W) (ctx : W)
    (n m : Int) (hn : in_small_range p n) (hm : in_small_range p m) :
    kk_integer_mul_small p E (kk_integer_from_small p n) (kk_integer_from_small p m) ctx =
      kk_integer_mul p E (kk_integer_from_small p n) (kk_integer_from_small p m) ctx := by
  simp only [kk_integer_mul, are_smallints_small p hp n m hn hm, if_true]

/-- C22: for every supported word width and small integers `n`, `m` of the
portable (half-width) range, the encodings are the same words in the portable
and the builtin build, and whenever the portable `kk_integer_add`,
`kk_integer_sub` or `kk_integer_mul_small` takes its fast path (the recording
collaborator records no call), the builtin one returns the same word and the
same context as the portable one, and makes no call either. -/
theorem C22_portable_refines_builtin {W : Type} (w : Nat)
    (hw : (⟨w, false⟩ : Build).supported) (E : Bigint W) (ctx : W) (n m : Int)
    (hn : in_small_range ⟨w, false⟩ n) (hm : in_small_range ⟨w, false⟩ m) :
    (kk_integer_from_small ⟨w, true⟩ n = kk_integer_from_small ⟨w, false⟩ n ∧
      kk_integer_from_small ⟨w, true⟩ m = kk_integer_from_small ⟨w, false⟩ m) ∧
    ((kk_integer_add ⟨w, false⟩ recorder (kk_integer_from_small ⟨w, false⟩ n)
        (kk_integer_from_small ⟨w, false⟩ m) []).2 = [] →
      kk_integer_add ⟨w, true⟩ E (kk_integer_from_small ⟨w, false⟩ n)
          (kk_integer_from_small ⟨w, false⟩ m) ctx
        = kk_integer_add ⟨w, false⟩ E (kk_integer_from_small ⟨w, false⟩ n)
          (kk_integer_from_small ⟨w, false⟩ m) ctx ∧
      (kk_integer_add ⟨w, true⟩ recorder (kk_integer_from_small ⟨w, false⟩ n)
        (kk_integer_from_small ⟨w, false⟩ m) []).2 = []) ∧
    ((kk_integer_sub ⟨w, false⟩ recorder (kk_integer_from_small ⟨w, false⟩ n)
        (kk_integer_from_small ⟨w, false⟩ m) []).2 = [] →
      kk_integer_sub ⟨w, true⟩ E (kk_integer_from_small ⟨w, false⟩ n)
          (kk_integer_from_small ⟨w, false⟩ m) ctx
        = kk_integer_sub ⟨w, false⟩ E (kk_integer_from_small ⟨w, false⟩ n)
          (kk_integer_from_small ⟨w, false⟩ m) ctx ∧
      (kk_integer_sub ⟨w, true⟩ recorder (kk_integer_from_small ⟨w, false⟩ n)
        (kk_integer_from_small ⟨w, false⟩ m) []).2 = []) ∧
    ((kk_integer_mul_small ⟨w, false⟩ recorder (kk_integer_from_small ⟨w, false⟩ n)
        (kk_integer_from_small ⟨w, false⟩ m) []).2 = [] →
      kk_integer_mul_small ⟨w, true⟩ E (kk_integer_from_small ⟨w, false⟩ n)
          (kk_integer_from_small ⟨w, false⟩ m) ctx
        = kk_integer_mul_small ⟨w, false⟩ E (kk_integer_from_small ⟨w, false⟩ n)
          (kk_integer_from_small ⟨w, false⟩ m) ctx ∧
      (kk_integer_mul_small ⟨w, true⟩ recorder (kk_integer_from_small ⟨w, false⟩ n)
        (kk_integer_from_small ⟨w, false⟩ m) []).2 = []) := by
  have hw' : (⟨w, true⟩ : Build).supported := hw
  have hn' := portable_range_in_builtin w hw n hn
  have hm' := portable_range_in_builtin w hw m hm
  have en : kk_integer_from_small ⟨w, true⟩ n = kk_integer_from_small ⟨w, false⟩ n := rfl
  have em : kk_integer_from_small ⟨w, true⟩ m = kk_integer_from_small ⟨w, false⟩ m := rfl
  have enew : ∀ v, _kk_new_integer ⟨w, true⟩ v = _kk_new_integer ⟨w, false⟩ v := fun _ => rfl
  refine ⟨⟨en, em⟩, fun hlog => ?_, fun hlog => ?_, fun hlog => ?_⟩
  · have hr : in_small_range ⟨w, false⟩ (n + m) := by
      by_contra hc
      rw [add_small_small ⟨w, false⟩ hw recorder [] n m hn hm, if_neg hc] at hlog
      simp [recorder] at hlog
    have hr' := portable_range_in_builtin w hw _ hr
    rw [add_small_small ⟨w, false⟩ hw E ctx n m hn hm, if_pos hr, ← en, ← em,
      add_small_small ⟨w, true⟩ hw' E ctx n m hn' hm', if_pos hr',
      add_small_small ⟨w, true⟩ hw' recorder [] n m hn' hm', if_pos hr', enew]
    exact ⟨rfl, rfl⟩
  · have hr : in_small_range ⟨w, false⟩ (n - m) := by
      by_contra hc
      rw [sub_small_small ⟨w, false⟩ hw recorder [] n m hn hm, if_neg hc] at hlog
      simp [recorder] at hlog
    have hr' := portable_range_in_builtin w hw _ hr
    rw [sub_small_small ⟨w, false⟩ hw E ctx n m hn hm, if_pos hr, ← en, ← em,
      sub_small_small ⟨w, true⟩ hw' E ctx n m hn' hm', if_pos hr',
      sub_small_small ⟨w, true⟩ hw' recorder [] n m hn' hm', if_pos hr', enew]
    exact ⟨rfl, rfl⟩
  · rw [mul_small_eq_mul ⟨w, false⟩ hw recorder [] n m hn hm] at hlog
    have hr : in_small_range ⟨w, false⟩ (n * m) := by
      by_contra hc
      rw [mul_small_small ⟨w, false⟩ hw recorder [] n m hn hm, if_neg hc] at hlog
      simp [recorder] at hlog
    have hr' := portable_range_in_builtin w hw _ hr
    rw [mul_small_eq_mul ⟨w, false⟩ hw E ctx n m hn hm,
      mul_small_small ⟨w, false⟩ hw E ctx n m hn hm, if_pos hr, ← en, ← em,
      mul_small_eq_mul ⟨w, true⟩ hw' E ctx n m hn' hm',
      mul_small_small ⟨w, true⟩ hw' E ctx n m hn' hm', if_pos hr',
      mul_small_eq_mul ⟨w, true⟩ hw' recorder [] n m hn' hm',
      mul_small_small ⟨w, true⟩ hw' recorder [] n m hn' hm', if_pos hr', enew]
    exact ⟨rfl, rfl⟩

/-- C22 on 64-bit words at `n = 3`, `m = 4`: the portable addition takes the
fast path and the builtin addition returns the same pair. -/
theorem C22_portable_refines_builtin_witness :
    (⟨64, false⟩ : Build).supported ∧
    in_small_range ⟨64, false⟩ 3 ∧ in_small_range ⟨64, false⟩ 4 ∧
    (kk_integer_add ⟨64, false⟩ recorder (kk_integer_from_small ⟨64, false⟩ 3)
        (kk_integer_from_small ⟨64, false⟩ 4) []).2 = [] ∧
    kk_integer_add ⟨64, true⟩ recorder (kk_integer_from_small ⟨64, false⟩ 3)
        (kk_integer_from_small ⟨64, false⟩ 4) []
      = kk_integer_add ⟨64, false⟩ recorder (kk_integer_from_small ⟨64, false⟩ 3)
        (kk_integer_from_small ⟨64, false⟩ 4) [] :=
  ⟨by decide, by decide, by decide, by decide,
   ((C22_portable_refines_builtin 64 (by decide) recorder [] 3 4 (by decide)
      (by decide)).2.1 (by decide)).1⟩

/-! ## Comparison -/

/-- C23: in every supported build, for small integers `n`, `m`, on their
encodings `kk_integer_cmp_borrow` returns `-1`, `0` or `1` as `n < m`,
`n = m` or `n > m`, and `kk_integer_lt_borrow`, `lte`, `gt`, `gte`, `eq`,
`neq` return `n < m`, `n ≤ m`, `n > m`, `n ≥ m`, `n = m`, `n ≠ m`; the
context is returned untouched whatever the collaborator is
(`kk_integer_cmp_generic` is not called). -/
theorem C23_compare_small {W : Type} (p : Build) (hp : p.supported) (C : Compare W) (ctx : W)
    (n m : Int) (hn : in_small_range p n) (hm : in_small_range p m) :
    kk_integer_cmp_borrow p C (kk_integer_from_small p n) (kk_integer_from_small p m) ctx =
      (if n < m then -1 else (if n = m then 0 else 1), ctx) ∧
    kk_integer_lt_borrow p C (kk_integer_from_small p n) (kk_integer_from_small p m) ctx =
      (decide (n < m), ctx) ∧
    kk_integer_lte_borrow p C (kk_integer_from_small p n) (kk_integer_from_small p m) ctx =
      (decide (n ≤ m), ctx) ∧
    kk_integer_gt_borrow p C (kk_integer_from_small p n) (kk_integer_from_small p m) ctx =
      (decide (n > m), ctx) ∧
    kk_integer_gte_borrow p C (kk_integer_from_small p n) (kk_integer_from_small p m) ctx =
      (decide (n ≥ m), ctx) ∧
    kk_integer_eq_borrow p C (kk_integer_from_small p n) (kk_integer_from_small p m) ctx =
      (decide (n = m), ctx) ∧
    kk_integer_neq_borrow p C (kk_integer_from_small p n) (kk_integer_from_small p m) ctx =
      (decide (n ≠ m), ctx) := by
  have hs := are_smallints_small p hp n m hn hm
  have e1 : (4 * n + 1 < 4 * m + 1) = (n < m) := by apply propext; omega
  have e2 : (4 * n + 1 ≤ 4 * m + 1) = (n ≤ m) := by apply propext; omega
  have e3 : (4 * n + 1 > 4 * m + 1) = (n > m) := by apply propext; omega
  have e4 : (4 * n + 1 ≥ 4 * m + 1) = (n ≥ m) := by apply propext; omega
  have e5 : (4 * n + 1 = 4 * m + 1) = (n = m) := by apply propext; omega
  have e6 : (4 * n + 1 ≠ 4 * m + 1) = (n ≠ m) := by apply propext; omega
  refine ⟨?_, ?_, ?_, ?_, ?_, ?_, ?_⟩
  · simp only [kk_integer_cmp_borrow, hs, if_true, value_from_small p hp n hn,
      value_from_small p hp m hm, e3, e5]
    refine congrArg (fun v => (v, ctx)) ?_
    split_ifs <;> first | rfl | omega
  · simp only [kk_integer_lt_borrow, hs, if_true, value_from_small p hp n hn,
      value_from_small p hp m hm, e1]
  · simp only [kk_integer_lte_borrow, hs, if_true, value_from_small p hp n hn,
      value_from_small p hp m hm, e2]
  · simp only [kk_integer_gt_borrow, hs, if_true, value_from_small p hp n hn,
      value_from_small p hp m hm, e3]
  · simp only [kk_integer_gte_borrow, hs, if_true, value_from_small p hp n hn,
      value_from_small p hp m hm, e4]
  · simp only [kk_integer_eq_borrow, hs, if_true, value_from_small p hp n hn,
      value_from_small p hp m hm, e5]
  · simp only [kk_integer_neq_borrow, hs, if_true, value_from_small p hp n hn,
      value_from_small p hp m hm, e6]

/-- C23 on the 64-bit builtin build at `n = -5`, `m = 3`. -/
theorem C23_compare_small_witness :
    in_small_range ⟨64, true⟩ (-5) ∧ in_small_range ⟨64, true⟩ 3 ∧
    kk_integer_cmp_borrow ⟨64, true⟩ (exact_compare ⟨64, true⟩)
      (kk_integer_from_small ⟨64, true⟩ (-5)) (kk_integer_from_small ⟨64, true⟩ 3) [] =
      (if (-5 : Int) < 3 then -1 else (if (-5 : Int) = 3 then 0 else 1), []) ∧
    kk_integer_lt_borrow ⟨64, true⟩ (exact_compare ⟨64, true⟩)
      (kk_integer_from_small ⟨64, true⟩ (-5)) (kk_integer_from_small ⟨64, true⟩ 3) [] =
      (decide ((-5 : Int) < 3), []) :=
  ⟨by decide, by decide,
   (C23_compare_small ⟨64, true⟩ (by decide) (exact_compare ⟨64, true⟩) [] (-5) 3 (by decide)
      (by decide)).1,
   (C23_compare_small ⟨64, true⟩ (by decide) (exact_compare ⟨64, true⟩) [] (-5) 3 (by decide)
      (by decide)).2.1⟩

/-! ## Sign and parity -/

theorem and_four_eq (x : Int) : x &&& 4 = x % 8 - x % 4 := by
  obtain ⟨a, b, r, rfl⟩ := two_bits x
  have hr : r = Int.bit r.bodd r.div2 := (Int.bit_decomp r).symm
  rw [hr]
  generalize r.bodd = c
  generalize r.div2 = s
  have h1 : (4 : Int) = Int.bit false (Int.bit false (Int.bit true 0)) := by simp [Int.bit_val]
  show Int.land _ 4 = _
  rw [h1, Int.land_bit, Int.land_bit, Int.land_bit, land_zero_right]
  cases a <;> cases b <;> cases c <;> simp [Int.bit_val] <;> omega

/-- C24: in every supported build, for a small integer `n` and its encoding
`x`: `kk_integer_signum_borrow` is the sign of `n`, `kk_integer_is_pos_borrow`
holds iff `n > 0`, `kk_integer_is_neg_borrow` iff `n < 0`,
`kk_integer_is_zero_borrow` iff `n = 0`, `kk_integer_is_one_borrow` iff
`n = 1`, `kk_integer_is_minus_one_borrow` iff `n = -1`, `kk_integer_is_even`
iff `n` is even and `kk_integer_is_odd` iff `n` is odd (the context
untouched), whatever the collaborator is. -/
theorem C24_sign_parity {W : Type} (p : Build) (hp : p.supported) (C : Compare W) (ctx : W)
    (n : Int) (hn : in_small_range p n) :
    kk_integer_signum_borrow p C (kk_integer_from_small p n) ctx = Int.sign n ∧
    (kk_integer_is_pos_borrow p C (kk_integer_from_small p n) ctx = true ↔ n > 0) ∧
    (kk_integer_is_neg_borrow p C (kk_integer_from_small p n) ctx = true ↔ n < 0) ∧
    (kk_integer_is_zero_borrow p (kk_integer_from_small p n) = true ↔ n = 0) ∧
    (kk_integer_is_one_borrow p (kk_integer_from_small p n) = true ↔ n = 1) ∧
    (kk_integer_is_minus_one_borrow p (kk_integer_from_small p n) = true ↔ n = -1) ∧
    kk_integer_is_even p C (kk_integer_from_small p n) ctx = (decide (n % 2 = 0), ctx) ∧
    kk_integer_is_odd p C (kk_integer_from_small p n) ctx = (decide (n % 2 = 1), ctx) := by
  have hs := is_smallint_small p hp n hn
  have hv := value_from_small p hp n hn
  obtain ⟨h0, h1, hm1, _, _⟩ := small_literals p hp
  have v0 := value_from_small p hp 0 h0
  have v1 := value_from_small p hp 1 h1
  have vm1 := value_from_small p hp (-1) hm1
  refine ⟨?_, ?_, ?_, ?_, ?_, ?_, ?_, ?_⟩
  · simp only [kk_integer_signum_borrow, hs, if_true, hv]
    rcases lt_trichotomy n 0 with h | h | h
    · rw [Int.sign_eq_neg_one_of_neg h, if_neg (by omega), if_pos (by omega)]; rfl
    · subst h; simp
    · rw [Int.sign_eq_one_of_pos h, if_pos (by omega), if_neg (by omega)]; rfl
  · simp only [kk_integer_is_pos_borrow, hs, if_true, hv, decide_eq_true_eq]; omega
  · simp only [kk_integer_is_neg_borrow, hs, if_true, hv, decide_eq_true_eq]; omega
  · simp only [kk_integer_is_zero_borrow, hs, if_true, hv, kk_integer_zero, v0,
      decide_eq_true_eq]; omega
  · simp only [kk_integer_is_one_borrow, hs, if_true, hv, kk_integer_one, v1,
      decide_eq_true_eq]; omega
  · simp only [kk_integer_is_minus_one_borrow, hs, if_true, hv, kk_integer_min_one, vm1,
      decide_eq_true_eq]; omega
  · have e : ((4 * n + 1) % 8 - (4 * n + 1) % 4 = 0) = (n % 2 = 0) := by apply propext; omega
    simp only [kk_integer_is_even, hs, if_true, hv, and_four_eq, e]
  · have e : ((4 * n + 1) % 8 - (4 * n + 1) % 4 ≠ 0) = (n % 2 = 1) := by apply propext; omega
    simp only [kk_integer_is_odd, hs, if_true, hv, and_four_eq, e]

/-- C24 on the 64-bit builtin build at `n = -7`: sign `-1`, odd. -/
theorem C24_sign_parity_witness :
    in_small_range ⟨64, true⟩ (-7) ∧
    kk_integer_signum_borrow ⟨64, true⟩ (exact_compare ⟨64, true⟩)
      (kk_integer_from_small ⟨64, true⟩ (-7)) [] = Int.sign (-7) ∧
    kk_integer_is_odd ⟨64, true⟩ (exact_compare ⟨64, true⟩)
      (kk_integer_from_small ⟨64, true⟩ (-7)) [] = (decide ((-7 : Int) % 2 = 1), []) :=
  ⟨by decide,
   (C24_sign_parity ⟨64, true⟩ (by decide) (exact_compare ⟨64, true⟩) [] (-7) (by decide)).1,
   (C24_sign_parity ⟨64, true⟩ (by decide) (exact_compare ⟨64, true⟩) [] (-7)
      (by decide)).2.2.2.2.2.2.2⟩

/-! ## No native division by zero -/

theorem truncating_by_zero (p : Build) (hp : p.supported) (n : Int)
    (hn : in_small_range p n) :
    kk_integer_cdiv_small p (kk_integer_from_small p n) (kk_integer_from_small p 0) = none ∧
    kk_integer_cmod_small p (kk_integer_from_small p n) (kk_integer_from_small p 0) = none ∧
    kk_integer_cdiv_cmod_small p (kk_integer_from_small p n) (kk_integer_from_small p 0)
      = none := by
  have h0 := (small_literals p hp).1
  refine ⟨?_, ?_, ?_⟩
  · unfold kk_integer_cdiv_small
    simp only [sar_one_small p hp n hn, sar_one_small p hp 0 h0]
    simp [c_div]
  · unfold kk_integer_cmod_small
    simp only [sar_one_small p hp n hn, sar_one_small p hp 0 h0]
    simp [c_mod]
  · unfold kk_integer_cdiv_cmod_small
    simp only [sar_one_small p hp n hn, sar_one_small p hp 0 h0]
    simp [c_mod]

/-- C25: in every supported build, for small integers `n`, `m`: the Euclidean
fast paths `kk_integer_div_small`, `kk_integer_mod_small` and
`kk_integer_div_mod_small` on their encodings always produce a result, for a
zero divisor too, so no native division or remainder of theirs has a zero
divisor; and the truncating fast paths `kk_integer_cdiv_small`,
`kk_integer_cmod_small` and `kk_integer_cdiv_cmod_small` produce a result,
their native division having a nonzero divisor, whenever `m ≠ 0` (for `m = 0`
they divide by zero: no result). -/
theorem C25_no_division_by_zero (p : Build) (hp : p.supported) (n m : Int)
    (hn : in_small_range p n) (hm : in_small_range p m) :
    ((kk_integer_div_small p (kk_integer_from_small p n)
        (kk_integer_from_small p m)).isSome = true ∧
      (kk_integer_mod_small p (kk_integer_from_small p n)
        (kk_integer_from_small p m)).isSome = true ∧
      (kk_integer_div_mod_small p (kk_integer_from_small p n)
        (kk_integer_from_small p m)).isSome = true) ∧
    (m ≠ 0 →
      (kk_integer_cdiv_small p (kk_integer_from_small p n)
        (kk_integer_from_small p m)).isSome = true ∧
      (kk_integer_cmod_small p (kk_integer_from_small p n)
        (kk_integer_from_small p m)).isSome = true ∧
      (kk_integer_cdiv_cmod_small p (kk_integer_from_small p n)
        (kk_integer_from_small p m)).isSome = true) ∧
    (m = 0 →
      kk_integer_cdiv_small p (kk_integer_from_small p n) (kk_integer_from_small p m) = none ∧
      kk_integer_cmod_small p (kk_integer_from_small p n) (kk_integer_from_small p m) = none ∧
      kk_integer_cdiv_cmod_small p (kk_integer_from_small p n) (kk_integer_from_small p m)
        = none) := by
  refine ⟨⟨?_, ?_, ?_⟩, fun h0 => ⟨?_, ?_, ?_⟩, fun h0 => ?_⟩
  · rw [div_small_eq p hp n m hn hm]; rfl
  · rw [mod_small_eq p hp n m hn hm]; rfl
  · rw [div_mod_small_eq p hp n m hn hm]; rfl
  · rw [cdiv_small_eq p hp n m hn hm h0]; rfl
  · rw [cmod_small_eq p hp n m hn hm h0]; rfl
  · rw [cdiv_cmod_small_eq p hp n m hn hm h0]; rfl
  · subst h0; exact truncating_by_zero p hp n hn

/-- C25 on the 64-bit portable build at `n = -7`, `m = 0`: the Euclidean
division has a result. -/
theorem C25_no_division_by_zero_witness :
    in_small_range ⟨64, false⟩ (-7) ∧ in_small_range ⟨64, false⟩ 0 ∧
    (kk_integer_div_small ⟨64, false⟩ (kk_integer_from_small ⟨64, false⟩ (-7))
      (kk_integer_from_small ⟨64, false⟩ 0)).isSome = true :=
  ⟨by decide, by decide,
   (C25_no_division_by_zero ⟨64, false⟩ (by decide) (-7) 0 (by decide) (by decide)).1.1⟩

/-! ## Clamping to a byte and to `size_t` -/

theorem clamp32_small {W : Type} (p : Build) (hp : p.supported) (V : Convert W)
    (B : Blocks W) (ctx : W) (n : Int) (hn : in_small_range p n) :
    kk_integer_clamp32 p V B (kk_integer_from_small p n) ctx = (to_signed 32 n, ctx) := by
  simp [kk_integer_clamp32, is_smallint_small p hp n hn, decode_small p hp n hn]

/-- Inside the `int32_t` range `kk_integer_clamp_byte` saturates: `0` below
zero, `255` above `255`, the value itself otherwise. -/
theorem clamp_byte_int32 {W : Type} (p : Build) (hp : p.supported) (V : Convert W)
    (B : Blocks W) (ctx : W) (n : Int) (hn : in_small_range p n)
    (h32 : -2 ^ 31 ≤ n ∧ n < 2 ^ 31) :
    kk_integer_clamp_byte p V B (kk_integer_from_small p n) ctx =
      ((if n < 0 then 0 else (if n > 255 then 255 else n)).toNat, ctx) := by
  simp only [kk_integer_clamp_byte, clamp32_small p hp V B ctx n hn, signed32_id n h32]
  refine congrArg (fun v => (v, ctx)) ?_
  split_ifs <;> simp [to_unsigned]
  omega

/-- C26 (the code at its failing input): on the 64-bit builtin build, for the
small integer `2^32`, `kk_integer_clamp_byte` returns `0` where saturation
gives `255` (the inline branch of `kk_integer_clamp32` narrows `2^32` to
`0`); for `2^31` it returns `0` as well, and for `5 - 2^32` it returns `5`
where saturation gives `0`. -/
theorem C26_clamp_byte_wraps {W : Type} (V : Convert W) (B : Blocks W) (ctx : W) :
    in_small_range ⟨64, true⟩ 4294967296 ∧
    kk_integer_clamp_byte ⟨64, true⟩ V B (kk_integer_from_small ⟨64, true⟩ 4294967296) ctx
      = (0, ctx) ∧
    kk_integer_clamp_byte ⟨64, true⟩ V B (kk_integer_from_small ⟨64, true⟩ 2147483648) ctx
      = (0, ctx) ∧
    in_small_range ⟨64, true⟩ (5 - 4294967296) ∧
    kk_integer_clamp_byte ⟨64, true⟩ V B (kk_integer_from_small ⟨64, true⟩ (5 - 4294967296)) ctx
      = (5, ctx) := by
  have hp : (⟨64, true⟩ : Build).supported := by decide
  refine ⟨by decide, ?_, ?_, by decide, ?_⟩
  · simp only [kk_integer_clamp_byte,
      clamp32_small ⟨64, true⟩ hp V B ctx 4294967296 (by decide)]
    refine congrArg (fun v => (v, ctx)) ?_
    decide
  · simp only [kk_integer_clamp_byte,
      clamp32_small ⟨64, true⟩ hp V B ctx 2147483648 (by decide)]
    refine congrArg (fun v => (v, ctx)) ?_
    decide
  · simp only [kk_integer_clamp_byte,
      clamp32_small ⟨64, true⟩ hp V B ctx (5 - 4294967296) (by decide)]
    refine congrArg (fun v => (v, ctx)) ?_
    decide

/-- On a small integer `kk_integer_clamp_size_t_borrow` is the conversion
`(size_t)n`, whatever the collaborator is: `n` itself for `n ≥ 0`. -/
theorem clamp_size_t_small {W : Type} (p : Build) (hp : p.supported) (V : Convert W) (w : W)
    (n : Int) (hn : in_small_range p n) :
    kk_integer_clamp_size_t_borrow p V (kk_integer_from_small p n) w = to_size_t p n ∧
    (0 ≤ n → kk_integer_clamp_size_t_borrow p V (kk_integer_from_small p n) w = n.toNat) := by
  have hfit := small_fits p hp n (wide p n hn)
  have hr : n ≥ PTRDIFF_MIN p ∧ n ≤ PTRDIFF_MAX p := by
    have hmax := smallint_max_eq p hp
    simp only [in_small_range, KK_SMALLINT_MIN, hmax] at hn
    rcases supported_cases p hp with h | h | h | h | h | h | h | h <;> subst h <;>
      simp [KK_SMALLINT_BITS, KK_INTF_SIZE, PTRDIFF_MIN, PTRDIFF_MAX, KK_INTF_MIN,
        KK_INTF_MAX] at hn ⊢ <;> omega
  have h1 : kk_integer_clamp_size_t_borrow p V (kk_integer_from_small p n) w = to_size_t p n := by
    simp only [kk_integer_clamp_size_t_borrow, is_smallint_small p hp n hn, if_true,
      decode_small p hp n hn, hr, and_self]
  refine ⟨h1, fun h0 => ?_⟩
  rw [h1]
  have hmax := smallint_max_eq p hp
  simp only [in_small_range, KK_SMALLINT_MIN, hmax] at hn
  rcases supported_cases p hp with h | h | h | h | h | h | h | h <;> subst h <;>
    simp [KK_SMALLINT_BITS, KK_INTF_SIZE, to_size_t, to_unsigned] at hn ⊢ <;> omega

/-- C27 (the code at its failing input): on the 64-bit builtin build, for the
small integer `-7`, `kk_integer_clamp_size_t_borrow` returns
`(size_t)(-7) = 2^64 - 7`, not `0`, whatever the collaborator is. -/
theorem C27_clamp_size_t_negative_wraps {W : Type} (V : Convert W) (w : W) :
    in_small_range ⟨64, true⟩ (-7) ∧
    kk_integer_clamp_size_t_borrow ⟨64, true⟩ V (kk_integer_from_small ⟨64, true⟩ (-7)) w
      = 18446744073709551609 ∧
    kk_integer_clamp_size_t_borrow ⟨64, true⟩ V (kk_integer_from_small ⟨64, true⟩ (-7)) w
      ≠ 0 := by
  have hp : (⟨64, true⟩ : Build).supported := by decide
  have h := (clamp_size_t_small ⟨64, true⟩ hp V w (-7) (by decide)).1
  have hv : to_size_t ⟨64, true⟩ (-7) = 18446744073709551609 := by decide
  rw [hv] at h
  exact ⟨by decide, h, by rw [h]; decide⟩

/-! ## No native overflow in the portable strategy -/

/-- C28: in every supported portable build, for small integers `n`, `m` and
their encodings `x`, `y`, the values the portable fast paths compute at full
width, `x + y`, `(x ^ 3) - y` and `(x >> 1) * (y >> 1)`, lie in the range of
`kk_intf_t`, so the machine results (taken modulo the word size) are the
mathematical ones. -/
theorem C28_portable_no_overflow (p : Build) (hp : p.supported)
    (hport : p.KK_USE_BUILTIN_OVF = false) (n m : Int)
    (hn : in_small_range p n) (hm : in_small_range p m) :
    (KK_INTF_MIN p ≤ _kk_integer_value p (kk_integer_from_small p n)
        + _kk_integer_value p (kk_integer_from_small p m) ∧
      _kk_integer_value p (kk_integer_from_small p n)
        + _kk_integer_value p (kk_integer_from_small p m) ≤ KK_INTF_MAX p ∧
      intf_add p (_kk_integer_value p (kk_integer_from_small p n))
          (_kk_integer_value p (kk_integer_from_small p m))
        = _kk_integer_value p (kk_integer_from_small p n)
          + _kk_integer_value p (kk_integer_from_small p m)) ∧
    (KK_INTF_MIN p ≤ (_kk_integer_value p (kk_integer_from_small p n) ^^^ 3)
        - _kk_integer_value p (kk_integer_from_small p m) ∧
      (_kk_integer_value p (kk_integer_from_small p n) ^^^ 3)
        - _kk_integer_value p (kk_integer_from_small p m) ≤ KK_INTF_MAX p ∧
      intf_sub p (_kk_integer_value p (kk_integer_from_small p n) ^^^ 3)
          (_kk_integer_value p (kk_integer_from_small p m))
        = (_kk_integer_value p (kk_integer_from_small p n) ^^^ 3)
          - _kk_integer_value p (kk_integer_from_small p m)) ∧
    (KK_INTF_MIN p ≤ kk_sar p (_kk_integer_value p (kk_integer_from_small p n)) 1
        * kk_sar p (_kk_integer_value p (kk_integer_from_small p m)) 1 ∧
      kk_sar p (_kk_integer_value p (kk_integer_from_small p n)) 1
        * kk_sar p (_kk_integer_value p (kk_integer_from_small p m)) 1 ≤ KK_INTF_MAX p ∧
      intf_mul p (kk_sar p (_kk_integer_value p (kk_integer_from_small p n)) 1)
          (kk_sar p (_kk_integer_value p (kk_integer_from_small p m)) 1)
        = kk_sar p (_kk_integer_value p (kk_integer_from_small p n)) 1
          * kk_sar p (_kk_integer_value p (kk_integer_from_small p m)) 1) := by
  have hmax := smallint_max_eq p hp
  have hk := mul_bound (KK_SMALLINT_MAX p + 1) n m (wide p n hn) (wide p m hm)
  have hx : (4 * n + 1) ^^^ 3 = 4 * n + 2 := by rw [xor_three_eq]; omega
  have hz : 2 * n * (2 * m) = 4 * (n * m) := by ring
  simp only [sar_one_small p hp n hn, sar_one_small p hp m hm]
  simp only [value_from_small p hp n hn, value_from_small p hp m hm, hx, hz, intf_add,
    intf_sub, intf_mul]
  generalize n * m = k at hk ⊢
  simp only [in_small_range, KK_SMALLINT_MIN, hmax] at hn hm hk
  obtain ⟨w, b⟩ := p
  simp only at hport
  subst hport
  simp only [Build.supported] at hp
  rcases hp with h | h | h | h <;> subst h <;>
    simp [KK_SMALLINT_BITS, KK_INTF_SIZE, KK_INTF_MIN, KK_INTF_MAX, to_intf, to_signed]
      at hn hm hk ⊢ <;> omega

/-- C28 on the 64-bit portable build at the extremes `n = m = KK_SMALLINT_MIN`:
the product `(x >> 1) * (y >> 1)` is in range. -/
theorem C28_portable_no_overflow_witness :
    (⟨64, false⟩ : Build).supported ∧ (⟨64, false⟩ : Build).KK_USE_BUILTIN_OVF = false ∧
    in_small_range ⟨64, false⟩ (KK_SMALLINT_MIN ⟨64, false⟩) ∧
    intf_mul ⟨64, false⟩
        (kk_sar ⟨64, false⟩ (_kk_integer_value ⟨64, false⟩
          (kk_integer_from_small ⟨64, false⟩ (KK_SMALLINT_MIN ⟨64, false⟩))) 1)
        (kk_sar ⟨64, false⟩ (_kk_integer_value ⟨64, false⟩
          (kk_integer_from_small ⟨64, false⟩ (KK_SMALLINT_MIN ⟨64, false⟩))) 1)
      = kk_sar ⟨64, false⟩ (_kk_integer_value ⟨64, false⟩
          (kk_integer_from_small ⟨64, false⟩ (KK_SMALLINT_MIN ⟨64, false⟩))) 1
        * kk_sar ⟨64, false⟩ (_kk_integer_value ⟨64, false⟩
          (kk_integer_from_small ⟨64, false⟩ (KK_SMALLINT_MIN ⟨64, false⟩))) 1 :=
  ⟨by decide, rfl, by decide,
   (C28_portable_no_overflow ⟨64, false⟩ (by decide) rfl (KK_SMALLINT_MIN ⟨64, false⟩)
      (KK_SMALLINT_MIN ⟨64, false⟩) (by decide) (by decide)).2.2.2.2⟩

end KK
